import Mathlib

/-!
# Verification of the craft draft/proxy engine

A shallow embedding of the mutation-tracking draft engine of this
repository: `src/proxy.ts` (`createProxy` with its `get`/`set`/
`deleteProperty`/`has` traps and the `push` fast path), `utils.ts`
(`DraftState`, `shallowCopy`, `markChanged`, `latest`, `freeze`,
`finalize`) and `src/craft.ts` (`craft`).

JavaScript objects are modelled by an explicit heap (a list of cells,
addresses are indices), so that reference identity, shallow copying and
in-place mutation of copies are all observable.  Draft proxies are
modelled by an explicit list of `DraftState` records; the value
`JVal.vdraft sid` plays the role of the proxy object whose
`DRAFT_STATE` is the state with index `sid`.  Edit functions
(producers) are modelled as scripts of operations resolved from the
root draft by property paths, mirroring how member-access chains
evaluate through the proxy traps.

Modelling notes, stated once:
* Only string-keyed plain records and index-keyed linear sequences are
  modelled (the draftable shapes); `Map`/`Set` (whose proxy source is
  not part of this snapshot) never arise for these shapes because
  `isMap`/`isSet` are false on plain objects and arrays.
* Array methods other than `push` are not exercised by any claim and
  are not part of the operation language.
* `delete` on an array index leaves a hole that reads back as
  `undefined`; the model stores `vundef` in the slot.
-/

namespace Craft

/-- Property keys: string keys for records, numeric indices for
sequences (in JS both arrive as strings; numeric-looking strings are
the `ki` case). -/
inductive PKey where
  | ks (s : String)
  | ki (i : Nat)
deriving DecidableEq, Repr

/-- Runtime values: primitives, `undefined`, `null`, the deletion
sentinel `nothing` (a unique symbol), references to heap objects, and
draft proxies (identified by their draft-state index). -/
inductive JVal where
  | vnum (n : Int)
  | vstr (s : String)
  | vbool (b : Bool)
  | vundef
  | vnull
  | vnothing
  | vref (a : Nat)
  | vdraft (sid : Nat)
deriving DecidableEq, Repr

/-- A heap node: a plain record (ordered string fields) or a linear
sequence. -/
inductive HNode where
  | obj (fields : List (String × JVal))
  | arr (elems : List JVal)
deriving DecidableEq, Repr

/-- A heap cell: the node plus its `Object.isFrozen` status. -/
structure HCell where
  node : HNode
  frozen : Bool
deriving DecidableEq, Repr

/-- Per-node bookkeeping, after `DraftState` in `utils.ts` plus the
fields `createProxy` adds dynamically (`arrayAppends`, `drafts`) and
initializes (`finalized`). -/
structure DraftState where
  isArr : Bool
  base : Nat
  copy : Option Nat
  modified : Bool
  parent : Option Nat
  revoked : Bool
  finalized : Bool
  arrayAppends : Option (List JVal)
  drafts : List (PKey × Nat)
deriving DecidableEq, Repr

/-- The machine: the heap, the list of draft states (indices are state
ids), and an error flag for operations that would throw in JS. -/
structure Mach where
  heap : List HCell
  states : List DraftState
  err : Bool
deriving DecidableEq, Repr

def Mach.allocAddr (m : Mach) : Nat := m.heap.length

def Mach.alloc (m : Mach) (n : HNode) : Mach :=
  { m with heap := m.heap ++ [⟨n, false⟩] }

def Mach.node? (m : Mach) (a : Nat) : Option HNode :=
  (m.heap.get? a).map HCell.node

def Mach.updNode (m : Mach) (a : Nat) (f : HNode → HNode) : Mach :=
  match m.heap.get? a with
  | some c => { m with heap := m.heap.set a ⟨f c.node, c.frozen⟩ }
  | none => { m with err := true }

def Mach.state? (m : Mach) (sid : Nat) : Option DraftState :=
  m.states.get? sid

def Mach.setSt (m : Mach) (sid : Nat) (s : DraftState) : Mach :=
  { m with states := m.states.set sid s }

def Mach.modSt (m : Mach) (sid : Nat) (f : DraftState → DraftState) : Mach :=
  match m.states.get? sid with
  | some s => m.setSt sid (f s)
  | none => { m with err := true }

def Mach.fail (m : Mach) : Mach := { m with err := true }

/-- Property read on a node (`source[prop]`); absent keys read as
`undefined`, an array's `length` reads as its length. -/
def hget : HNode → PKey → JVal
  | .obj fs, .ks s => match fs.lookup s with | some v => v | none => .vundef
  | .obj _, .ki _ => .vundef
  | .arr es, .ki i => match es.get? i with | some v => v | none => .vundef
  | .arr es, .ks s =>
    if s = "length" then .vnum es.length
    else (.vundef)

/-- Key presence on a node (`prop in source`). -/
def hhas : HNode → PKey → Bool
  | .obj fs, .ks s => (fs.lookup s).isSome
  | .obj _, .ki _ => false
  | .arr es, .ki i => i < es.length
  | .arr _, .ks s => s = "length"

/-- Update a field of a record, keeping insertion order; a fresh key is
appended (JS property creation order). -/
def setField : List (String × JVal) → String → JVal → List (String × JVal)
  | [], s, v => [(s, v)]
  | (k, w) :: rest, s, v =>
      if k = s then (k, v) :: rest else (k, w) :: setField rest s v

/-- Remove a field of a record (`delete copy[prop]`). -/
def delField : List (String × JVal) → String → List (String × JVal)
  | [], _ => []
  | (k, w) :: rest, s => if k = s then rest else (k, w) :: delField rest s

/-- Write an array slot; writing at or past the end extends the array,
padding with `undefined` as JS does. -/
def setElem (es : List JVal) (i : Nat) (v : JVal) : List JVal :=
  if i < es.length then es.set i v
  else es ++ List.replicate (i - es.length) JVal.vundef ++ [v]

/-- Property write on a node (`source[prop] = v`).  A string-keyed
write on an array only arises in the model as the final no-op `length`
assignment of a native `push`, so it is the identity. -/
def hset : HNode → PKey → JVal → HNode
  | .obj fs, .ks s, v => .obj (setField fs s v)
  | .obj fs, .ki _, _ => .obj fs
  | .arr es, .ki i, v => .arr (setElem es i v)
  | .arr es, .ks _, _ => .arr es

/-- Property deletion on a node (`delete source[prop]`); deleting an
array index leaves a hole that reads back as `undefined`. -/
def hdel : HNode → PKey → HNode
  | .obj fs, .ks s => .obj (delField fs s)
  | .arr es, .ki i => .arr (if i < es.length then es.set i JVal.vundef else es)
  | n, _ => n

/-- `isDraft` from `utils.ts`: does the value carry a `DRAFT_STATE`? -/
def isDraftV : JVal → Bool
  | .vdraft _ => true
  | _ => false

/-- `isDraftable` from `utils.ts`: plain records and arrays qualify
(all heap objects of this model), as do draft proxies themselves
(a proxied array passes `Array.isArray`, a proxied record exposes
`Object.prototype`); primitives, `null` and `undefined` do not. -/
def isDraftableV : JVal → Bool
  | .vref _ => true
  | .vdraft _ => true
  | _ => false

/-- `state.arrayAppends && state.arrayAppends.length > 0`. -/
def appendsNonempty (s : DraftState) : Bool :=
  match s.arrayAppends with
  | some ap => decide (0 < ap.length)
  | none => false

/-- Update the child-draft cache (`state.drafts.set(prop, d)`). -/
def setDraft : List (PKey × Nat) → PKey → Nat → List (PKey × Nat)
  | [], k, d => [(k, d)]
  | (k', d') :: rest, k, d =>
      if k' = k then (k', d) :: rest else (k', d') :: setDraft rest k d

/-- Drop a cache entry (`state.drafts?.delete(prop)`). -/
def delDraft : List (PKey × Nat) → PKey → List (PKey × Nat)
  | [], _ => []
  | (k', d') :: rest, k => if k' = k then rest else (k', d') :: delDraft rest k

/-- `createProxy(base, parent)`: non-draftable values are returned
verbatim; a draftable value gets a fresh `DraftState` (with
`copy = null`, `modified = false`) and the proxy bound to it is
returned.  A value that is already a draft is returned as-is (the get
trap checks `isDraft` before re-wrapping, and the cache guarantees
re-wrapping a stored draft never happens). -/
def createProxy (m : Mach) (v : JVal) (parent : Option Nat) : Mach × JVal :=
  match v with
  | .vref a =>
    match m.node? a with
    | some n =>
      let s : DraftState :=
        { isArr := (match n with | .arr _ => true | .obj _ => false)
          base := a, copy := none, modified := false, parent := parent
          revoked := false, finalized := false
          arrayAppends := none, drafts := [] }
      ({ m with states := m.states ++ [s] }, .vdraft m.states.length)
    | none => (m.fail, v)
  | _ => (m, v)

/-- `shallowCopy` + `markChanged` from `utils.ts`: set `modified`,
create the shallow copy if absent, and propagate to the parent.  The
parent chain is traversed on fuel; every reachable machine has parent
indices strictly below child indices, so the fuel supplied at call
sites (`states.length + 1`) never runs out there. -/
def markChangedStep (m : Mach) (sid : Nat) (s : DraftState) : Mach :=
  match s.copy with
  | some _ => m.setSt sid { s with modified := true }
  | none =>
    match m.node? s.base with
    | some n =>
      (m.alloc n).setSt sid { s with modified := true, copy := some m.allocAddr }
    | none => m.fail

def markChangedF : Nat → Mach → Nat → Mach
  | 0, m, _ => m.fail
  | fuel + 1, m, sid =>
    match m.state? sid with
    | none => m.fail
    | some s =>
      if s.modified then m
      else
        match s.parent with
        | some p => markChangedF fuel (markChangedStep m sid s) p
        | none => markChangedStep m sid s

def markChanged (m : Mach) (sid : Nat) : Mach :=
  markChangedF (m.states.length + 1) m sid

/-- Materialize pending appends into a fresh copy
(`state.copy = [...state.base, ...state.arrayAppends]`,
`state.arrayAppends = undefined`).  Callers guard with the source's
own conditions. -/
def materializeAppends (m : Mach) (sid : Nat) : Mach :=
  match m.state? sid with
  | none => m.fail
  | some s =>
    match s.arrayAppends with
    | some ap =>
      match m.node? s.base with
      | some (.arr es) =>
        (m.alloc (.arr (es ++ ap))).setSt sid
          { s with copy := some m.allocAddr, arrayAppends := none }
      | _ => m.fail
    | none => m

/-- The child-draft creation block of the get trap (`proxy.ts` lines
141-165): materialized pending appends are assumed handled by the
caller; cache lookup, `createProxy`, cache insert, prepareCopy
(copy-on-write one level up), and storing the child into the copy. -/
def wrapChild (m1 : Mach) (sid : Nat) (k : PKey) (value : JVal) : Mach × JVal :=
  match m1.state? sid with
  | none => (m1.fail, value)
  | some s1 =>
    match s1.drafts.lookup k with
    | some cid => (m1, .vdraft cid)
    | none =>
      match createProxy m1 value (some sid) with
      | (m2, .vdraft cid) =>
        let m3 := m2.modSt sid (fun s2 => { s2 with drafts := setDraft s2.drafts k cid })
        let m4 :=
          match m3.state? sid with
          | some s3 =>
            match s3.copy with
            | some _ => m3
            | none =>
              match m3.node? s3.base with
              | some n => (m3.alloc n).setSt sid { s3 with copy := some m3.allocAddr }
              | none => m3.fail
          | none => m3.fail
        match m4.state? sid with
        | some s4 =>
          match s4.copy with
          | some c => (m4.updNode c (fun n => hset n k (.vdraft cid)), .vdraft cid)
          | none => (m4.fail, value)
        | none => (m4.fail, value)
      | (m2, other) => (m2, other)

/-- The tail of the get trap after the pending-appends index branch
(`proxy.ts` lines 94-171): primitive fast path, idempotent wrapping of
drafts, lazy child-draft creation (materializing pending appends
first, then `wrapChild`), and returning already-replaced values
unchanged. -/
def getPropRest (m : Mach) (sid : Nat) (k : PKey) (value : JVal) : Mach × JVal :=
  match value with
  | .vdraft _ => (m, value)
  | .vref a =>
    match m.state? sid with
    | none => (m.fail, value)
    | some s =>
      match m.node? s.base with
      | none => (m.fail, value)
      | some bnode =>
        if hget bnode k = JVal.vref a then
          wrapChild (if appendsNonempty s then materializeAppends m sid else m) sid k value
        else (m, value)
  | _ => (m, value)

/-- The get trap (`proxy.ts` lines 54-171).  Array-method access is
not a value read in the model: `push` is the separate `pushItems`
operation and other mutating methods are not exercised by any claim. -/
def getProp (m : Mach) (sid : Nat) (k : PKey) : Mach × JVal :=
  match m.state? sid with
  | none => (m.fail, .vundef)
  | some s =>
    if s.isArr ∧ k = PKey.ks "length" ∧ appendsNonempty s then
      match m.node? s.base with
      | some (.arr es) =>
        (m, .vnum (es.length + (s.arrayAppends.getD []).length))
      | _ => (m.fail, .vundef)
    else
      match m.node? (s.copy.getD s.base) with
      | none => (m.fail, .vundef)
      | some srcNode =>
        let value := hget srcNode k
        match k, s.arrayAppends with
        | .ki i, some ap =>
          if s.isArr then
            match m.node? s.base with
            | some (.arr es) =>
              if es.length ≤ i ∧ i < es.length + ap.length then
                let v := (ap.get? (i - es.length)).getD .vundef
                if isDraftableV v then
                  match s.drafts.lookup (PKey.ki i) with
                  | some cid => (m, .vdraft cid)
                  | none =>
                    match createProxy m v (some sid) with
                    | (m2, .vdraft cid) =>
                      let m3 := m2.modSt sid (fun s2 =>
                        { s2 with
                          drafts := setDraft s2.drafts (PKey.ki i) cid
                          arrayAppends :=
                            some ((s2.arrayAppends.getD []).set (i - es.length) (.vdraft cid)) })
                      (m3, .vdraft cid)
                    | (m2, other) => (m2, other)
                else (m, v)
              else getPropRest m sid (PKey.ki i) value
            | _ => (m.fail, .vundef)
          else getPropRest m sid (PKey.ki i) value
        | _, _ => getPropRest m sid k value

/-- The common tail of a mutating trap: write into `state.copy!` via
`f` (given the node's sequence flag) and drop the cached child draft
for the key.  When `copy` is still `null` (a node modified solely
through the push fast path) the JS code would throw; the model sets
the error flag. -/
def writeCopy (m1 : Mach) (sid : Nat) (k : PKey) (f : Bool → HNode → HNode) : Mach :=
  match m1.state? sid with
  | some s1 =>
    match s1.copy with
    | some c =>
      (m1.updNode c (f s1.isArr)).modSt sid
        (fun s2 => { s2 with drafts := delDraft s2.drafts k })
    | none => m1.fail
  | none => m1.fail

/-- The set trap after pending appends have been materialized
(`proxy.ts` lines 183-224): no-op on deleting an absent key, sentinel
handling (arrays store the sentinel in the copy, records delete the
key), draft unwrapping via `latest`, the `Object.is` no-op fast path,
and copy-on-write plus cache invalidation on a real write. -/
def setPropCore (m0 : Mach) (sid : Nat) (k : PKey) (v : JVal) : Mach :=
  match m0.state? sid with
  | none => m0.fail
  | some s0 =>
    match m0.node? (s0.copy.getD s0.base) with
    | none => m0.fail
    | some srcNode =>
      if v = JVal.vnothing then
        if hhas srcNode k then
          writeCopy (markChanged m0 sid) sid k
            (fun isA n => if isA then hset n k .vnothing else hdel n k)
        else m0
      else
        let actual :=
          match v with
          | .vdraft vs =>
            match m0.state? vs with
            | some st => JVal.vref (st.copy.getD st.base)
            | none => v
          | _ => v
        if hget srcNode k = actual then m0
        else writeCopy (markChanged m0 sid) sid k (fun _ n => hset n k actual)

/-- The set trap (`proxy.ts` lines 174-224): materialize pending
appends first, then `setPropCore`. -/
def setProp (m : Mach) (sid : Nat) (k : PKey) (v : JVal) : Mach :=
  match m.state? sid with
  | none => m.fail
  | some s =>
    setPropCore (if appendsNonempty s then materializeAppends m sid else m) sid k v

/-- The deleteProperty trap (`proxy.ts` lines 226-234): unconditional
`markChanged`, then `delete state.copy![prop]` and cache drop. -/
def deleteProp (m : Mach) (sid : Nat) (k : PKey) : Mach :=
  writeCopy (markChanged m sid) sid k (fun _ n => hdel n k)

/-- The has trap: `prop in (state.copy ?? state.base)`. -/
def hasProp (m : Mach) (sid : Nat) (k : PKey) : Bool :=
  match m.state? sid with
  | some s =>
    match m.node? (s.copy.getD s.base) with
    | some n => hhas n k
    | none => false
  | none => false

/-- The push fast path before queueing (`proxy.ts` lines 102-107):
mark the node modified without creating a copy and propagate
"modified" to the parent. -/
def pushFastPre (m : Mach) (sid : Nat) (s : DraftState) : Mach :=
  if s.modified then m
  else
    match s.parent with
    | some p => markChanged (m.setSt sid { s with modified := true }) p
    | none => m.setSt sid { s with modified := true }

/-- Native `Array.prototype.push` running against the proxy once a
copy exists: one set-trap call per item at the current tail index (the
final `length` assignment compares equal and is a no-op). -/
def pushSlow (m1 : Mach) (sid : Nat) (items : List JVal) : Mach :=
  items.foldl (fun mm it =>
    match mm.state? sid with
    | none => mm.fail
    | some s1 =>
      match mm.node? (s1.copy.getD s1.base) with
      | some (.arr es) => setProp mm sid (.ki es.length) it
      | _ => mm.fail) m1

/-- Calling `push(...items)` on a sequence draft.  With no copy yet
this is the fast path of the get trap (`proxy.ts` lines 100-117):
mark modified without copying, propagate to the parent, and queue the
items in `arrayAppends`.  Otherwise `markChanged` runs if needed and
the native `push` executes against the proxy. -/
def pushItems (m : Mach) (sid : Nat) (items : List JVal) : Mach :=
  match m.state? sid with
  | none => m.fail
  | some s =>
    if ¬ s.isArr then m.fail
    else
      match s.copy with
      | none =>
        (pushFastPre m sid s).modSt sid (fun s' =>
          { s' with arrayAppends := some ((s'.arrayAppends.getD []) ++ items) })
      | some _ => pushSlow (if s.modified then m else markChanged m sid) sid items

/-- `Object.freeze(obj)` on a heap object. -/
def freezeAddr (m : Mach) (a : Nat) : Mach :=
  match m.heap.get? a with
  | some c => { m with heap := m.heap.set a ⟨c.node, true⟩ }
  | none => m

/-- `freeze(result, false)` from `utils.ts`: non-objects (including
`null`) pass through, otherwise shallow `Object.freeze`. -/
def freezeV (m : Mach) (v : JVal) : Mach :=
  match v with
  | .vref a => freezeAddr m a
  | _ => m

/-- The key snapshot `each` iterates over: indices `0..len-1` for an
array, own enumerable string keys for a record. -/
def keysOf : HNode → List PKey
  | .obj fs => fs.map (fun p => .ks p.1)
  | .arr es => (List.range es.length).map .ki

/-- `finalize(state, autoFreeze)` from `utils.ts`: unmodified nodes
return `state.base` unchanged; otherwise `result = state.copy!` (when
`copy` is `null` — a node modified solely through the push fast path —
`result` is `null`, the `each` walk iterates nothing and `null` is
returned), every draft entry of the copy is replaced in place by its
recursive finalization, a draftable non-draft entry is written back
unchanged, and the result is shallowly frozen when `autoFreeze` is
set.  Recursion into cached children runs on fuel, one unit per
nesting level; the depth of a draft tree is bounded by the number of
states, so the fuel supplied by `craft` suffices. -/
def finalizeF : Nat → Bool → Mach → Nat → Mach × JVal
  | 0, _, m, _ => (m.fail, .vundef)
  | fuel + 1, af, m, sid =>
    match m.state? sid with
    | none => (m.fail, .vundef)
    | some s =>
      if ¬ s.modified then (m, .vref s.base)
      else
        match s.copy with
        | none => (m, .vnull)
        | some c =>
          match m.node? c with
          | none => (m.fail, .vundef)
          | some n =>
            let m1 := (keysOf n).foldl (fun mm k =>
              match mm.node? c with
              | none => mm.fail
              | some nn =>
                match hget nn k with
                | .vdraft cid =>
                  match finalizeF fuel af mm cid with
                  | (mm1, fv) => mm1.updNode c (fun n2 => hset n2 k fv)
                | .vref a => mm.updNode c (fun n2 => hset n2 k (.vref a))
                | _ => mm) m
            ((if af then freezeAddr m1 c else m1), .vref c)

/-- `finalize(state)` as called by `craft`: `autoFreeze` defaults to
`true` and the configuration module is never consulted. -/
def finalize (m : Mach) (sid : Nat) : Mach × JVal :=
  finalizeF (m.states.length + 1) true m sid

mutual
/-- Literal values a producer can write or return: primitives, the
deletion sentinel, and fresh record/array literals (mutually inductive
with their field/element lists so recursion over them is structural). -/
inductive WVal where
  | wnum (n : Int)
  | wstr (s : String)
  | wbool (b : Bool)
  | wundef
  | wnothing
  | wobj (fields : WFields)
  | warr (elems : WList)
inductive WFields where
  | nil
  | cons (key : String) (w : WVal) (rest : WFields)
inductive WList where
  | nil
  | cons (w : WVal) (rest : WList)
end

def wfields : List (String × WVal) → WFields
  | [] => .nil
  | (s, w) :: rest => .cons s w (wfields rest)

def wlist : List WVal → WList
  | [] => .nil
  | w :: rest => .cons w (wlist rest)

/-- Record literal from a field list. -/
def wobjL (l : List (String × WVal)) : WVal := .wobj (wfields l)

/-- Array literal from an element list. -/
def warrL (l : List WVal) : WVal := .warr (wlist l)

mutual
/-- Evaluate a literal, allocating its objects (children first, as JS
evaluates inner literals before the enclosing one). -/
def walloc : Mach → WVal → Mach × JVal
  | m, .wnum n => (m, .vnum n)
  | m, .wstr s => (m, .vstr s)
  | m, .wbool b => (m, .vbool b)
  | m, .wundef => (m, .vundef)
  | m, .wnothing => (m, .vnothing)
  | m, .wobj fs =>
    match wallocFields m fs with
    | (m1, fjs) => (m1.alloc (.obj fjs), .vref m1.allocAddr)
  | m, .warr es =>
    match wallocElems m es with
    | (m1, ejs) => (m1.alloc (.arr ejs), .vref m1.allocAddr)
def wallocFields : Mach → WFields → Mach × List (String × JVal)
  | m, .nil => (m, [])
  | m, .cons s w rest =>
    match walloc m w with
    | (m1, v) =>
      match wallocFields m1 rest with
      | (m2, vs) => (m2, (s, v) :: vs)
def wallocElems : Mach → WList → Mach × List JVal
  | m, .nil => (m, [])
  | m, .cons w rest =>
    match walloc m w with
    | (m1, v) =>
      match wallocElems m1 rest with
      | (m2, vs) => (m2, v :: vs)
end

/-- Evaluate the argument list of a call, left to right. -/
def wallocList (m : Mach) (ws : List WVal) : Mach × List JVal :=
  ws.foldl (fun acc w =>
    match walloc acc.1 w with
    | (mm, v) => (mm, acc.2 ++ [v])) (m, [])

/-- One step of a producer, addressed by a property path from the root
draft (member-access chains evaluate through the get trap). -/
inductive Op where
  | oget (path : List PKey) (k : PKey)
  | oset (path : List PKey) (k : PKey) (w : WVal)
  | odel (path : List PKey) (k : PKey)
  | opush (path : List PKey) (items : List WVal)

/-- Resolve a member-access chain: each step is a get-trap read that
must yield a draft for the chain to continue. -/
def resolvePath (m : Mach) (sid : Nat) : List PKey → Mach × Option Nat
  | [] => (m, some sid)
  | k :: rest =>
    match getProp m sid k with
    | (m1, .vdraft sid') => resolvePath m1 sid' rest
    | (m1, _) => (m1, none)

/-- Run one producer step against the root draft.  A path that does
not land on a draft aborts the step (the producer would then be
mutating a plain value, outside the engine). -/
def runOp (m : Mach) (root : Nat) : Op → Mach
  | .oget path k =>
    match resolvePath m root path with
    | (m1, some sid) => (getProp m1 sid k).1
    | (m1, none) => m1
  | .oset path k w =>
    match resolvePath m root path with
    | (m1, some sid) =>
      match walloc m1 w with
      | (m2, jv) => setProp m2 sid k jv
    | (m1, none) => m1
  | .odel path k =>
    match resolvePath m root path with
    | (m1, some sid) => deleteProp m1 sid k
    | (m1, none) => m1
  | .opush path items =>
    match resolvePath m root path with
    | (m1, some sid) =>
      match wallocList m1 items with
      | (m2, js) => pushItems m2 sid js
    | (m1, none) => m1

def runScript (m : Mach) (root : Nat) (ops : List Op) : Mach :=
  ops.foldl (fun mm op => runOp mm root op) m

/-- A producer: its draft mutations in order, and its return value
(`none` models returning `undefined`). -/
structure Script where
  ops : List Op
  ret : Option WVal

def emptyMach : Mach := ⟨[], [], false⟩

/-- `craft(base, producer)` from `craft.ts`: allocate the base, build
the root draft, run the producer; a non-`undefined` return value is
used verbatim (the draft is never finalized), otherwise the root state
is finalized — and if there is no state (non-draftable base) the base
is returned unchanged. -/
def craft (base : WVal) (script : Script) : Mach × JVal :=
  match walloc emptyMach base with
  | (m0, baseV) =>
    match createProxy m0 baseV none with
    | (m1, .vdraft root) =>
      let m2 := runScript m1 root script.ops
      match script.ret with
      | some w => walloc m2 w
      | none => finalize m2 root
    | (m1, _) =>
      match script.ret with
      | some w => walloc m1 w
      | none => (m1, baseV)

/-- Pure readback of a value: the tree it denotes, following heap
references (fuel bounds the depth; the heaps built here are acyclic). -/
inductive RVal where
  | rnum (n : Int)
  | rstr (s : String)
  | rbool (b : Bool)
  | rundef
  | rnull
  | rnothing
  | rdraft (sid : Nat)
  | rstuck
  | robj (fields : List (String × RVal))
  | rarr (elems : List RVal)

def readbackF : Nat → List HCell → JVal → RVal
  | _, _, .vnum n => .rnum n
  | _, _, .vstr s => .rstr s
  | _, _, .vbool b => .rbool b
  | _, _, .vundef => .rundef
  | _, _, .vnull => .rnull
  | _, _, .vnothing => .rnothing
  | _, _, .vdraft sid => .rdraft sid
  | 0, _, .vref _ => .rstuck
  | fuel + 1, h, .vref a =>
    match h.get? a with
    | some c =>
      match c.node with
      | .obj fs => .robj (fs.map (fun p => (p.1, readbackF fuel h p.2)))
      | .arr es => .rarr (es.map (fun v => readbackF fuel h v))
    | none => .rstuck

/-- The result of a `craft` run, read back as a pure tree. -/
def craftRB (base : WVal) (script : Script) : RVal :=
  match craft base script with
  | (m, v) => readbackF (m.heap.length + 1) m.heap v

/-- The machine state right after the producer's mutations, before any
finalization (used to inspect reachable draft states). -/
def draftMach (base : WVal) (ops : List Op) : Mach :=
  match walloc emptyMach base with
  | (m0, baseV) =>
    match createProxy m0 baseV none with
    | (m1, .vdraft root) => runScript m1 root ops
    | (m1, _) => m1

mutual
/-- The pure tree a literal denotes. -/
def wdenote : WVal → RVal
  | .wnum n => .rnum n
  | .wstr s => .rstr s
  | .wbool b => .rbool b
  | .wundef => .rundef
  | .wnothing => .rnothing
  | .wobj fs => .robj (wdenoteFields fs)
  | .warr es => .rarr (wdenoteElems es)
def wdenoteFields : WFields → List (String × RVal)
  | .nil => []
  | .cons s w rest => (s, wdenote w) :: wdenoteFields rest
def wdenoteElems : WList → List RVal
  | .nil => []
  | .cons w rest => wdenote w :: wdenoteElems rest
end

mutual
/-- Reference-nesting depth of a literal (how many dereference steps a
readback of its allocation needs). -/
def wdepth : WVal → Nat
  | .wnum _ => 0
  | .wstr _ => 0
  | .wbool _ => 0
  | .wundef => 0
  | .wnothing => 0
  | .wobj fs => wdepthFields fs + 1
  | .warr es => wdepthElems es + 1
def wdepthFields : WFields → Nat
  | .nil => 0
  | .cons _ w rest => max (wdepth w) (wdepthFields rest)
def wdepthElems : WList → Nat
  | .nil => 0
  | .cons w rest => max (wdepth w) (wdepthElems rest)
end

/-- Literals that allocate a draftable (proxied) base: record and
array literals. -/
def WVal.draftable : WVal → Bool
  | .wobj _ => true
  | .warr _ => true
  | _ => false

/-- Operations that only read through the draft (no set, delete or
push): the shape of an edit function that never mutates. -/
def readOnlyOp : Op → Prop
  | .oget _ _ => True
  | _ => False

/-- Addresses below the watermark `h0` are the original base objects;
all copies of live draft states sit at or above it, and the heap never
shrinks below it. -/
def CopiesFresh (h0 : Nat) (m : Mach) : Prop :=
  h0 ≤ m.heap.length ∧
    ∀ sid s, m.states.get? sid = some s → ∀ c, s.copy = some c → h0 ≤ c

/-- The heap below the watermark is identical in the two machines. -/
def LowEq (h0 : Nat) (m m' : Mach) : Prop :=
  ∀ a, a < h0 → m'.heap.get? a = m.heap.get? a

/-- A step from `m` to `m'` keeps copies fresh and the original heap
prefix untouched. -/
def FrameTo (h0 : Nat) (m m' : Mach) : Prop :=
  CopiesFresh h0 m' ∧ LowEq h0 m m'

/-- `m'` preserves the `modified` flag and `base` reference of every
draft state of `m` (pure reads create child proxies and parent copies
but never flag modification). -/
def ModBasePres (m m' : Mach) : Prop :=
  ∀ sid s, m.states.get? sid = some s →
    ∃ s', m'.states.get? sid = some s' ∧ s'.modified = s.modified ∧ s'.base = s.base

/-- Every modified node has a copy or an initialized pending-append
queue (the amended modified-implies-copy invariant). -/
def ModHasCopyOrAppends (m : Mach) : Prop :=
  ∀ sid s, m.states.get? sid = some s → s.modified = true →
    s.copy.isSome ∨ s.arrayAppends.isSome

/-- How `markChanged` may rewrite one draft state: bookkeeping fields
are untouched; a state is either left alone or flagged modified with a
copy present (fresh, at or above the watermark `h0`, when it was
absent); an already-modified state is never touched. -/
def StPresMC (h0 : Nat) (s s' : DraftState) : Prop :=
  s'.isArr = s.isArr ∧ s'.base = s.base ∧ s'.parent = s.parent ∧
  s'.arrayAppends = s.arrayAppends ∧ s'.drafts = s.drafts ∧
  (s' = s ∨ (s'.modified = true ∧ s'.copy.isSome = true ∧
    (s'.copy = s.copy ∨ (s.copy = none ∧ ∃ c, s'.copy = some c ∧ h0 ≤ c)))) ∧
  (s.modified = true → s' = s)

/-- One engine step: keeps copies fresh and the original heap prefix
untouched, and preserves the modified-implies-copy-or-appends
invariant. -/
def EngStep (h0 : Nat) (m m' : Mach) : Prop :=
  (CopiesFresh h0 m → FrameTo h0 m m') ∧
  (ModHasCopyOrAppends m → ModHasCopyOrAppends m')

/-! ## Basic list and machine lemmas -/

theorem get?_append_lt {α : Type} (l1 l2 : List α) {n : Nat} (h : n < l1.length) :
    (l1 ++ l2).get? n = l1.get? n := by
  simp [List.get?_eq_getElem?, List.getElem?_append_left h]

theorem get?_append_self {α : Type} (l1 : List α) (x : α) (l2 : List α) :
    (l1 ++ x :: l2).get? l1.length = some x := by
  simp [List.get?_eq_getElem?, List.getElem?_append_right (Nat.le_refl _)]

theorem get?_set_self {α : Type} (l : List α) {i : Nat} (x : α) (h : i < l.length) :
    (l.set i x).get? i = some x := by
  simp [List.get?_eq_getElem?, List.getElem?_set_self, h]

theorem get?_set_other {α : Type} (l : List α) {i j : Nat} (x : α) (h : i ≠ j) :
    (l.set i x).get? j = l.get? j := by
  simp [List.get?_eq_getElem?, List.getElem?_set_ne h]

theorem lt_len_of_get?_eq_some {α : Type} {l : List α} {n : Nat} {a : α}
    (h : l.get? n = some a) : n < l.length := by
  by_contra hn
  rw [List.get?_eq_none.2 (Nat.le_of_not_lt hn)] at h
  exact Option.noConfusion h

theorem mem_of_get?_eq_some {α : Type} {l : List α} {n : Nat} {a : α}
    (h : l.get? n = some a) : a ∈ l :=
  List.get?_mem h

theorem alloc_heap (m : Mach) (n : HNode) : (m.alloc n).heap = m.heap ++ [⟨n, false⟩] := rfl

theorem alloc_states (m : Mach) (n : HNode) : (m.alloc n).states = m.states := rfl

theorem setSt_heap (m : Mach) (sid : Nat) (s : DraftState) : (m.setSt sid s).heap = m.heap := rfl

theorem setSt_states (m : Mach) (sid : Nat) (s : DraftState) :
    (m.setSt sid s).states = m.states.set sid s := rfl

theorem fail_heap (m : Mach) : m.fail.heap = m.heap := rfl

theorem fail_states (m : Mach) : m.fail.states = m.states := rfl

theorem modSt_heap (m : Mach) (sid : Nat) (f : DraftState → DraftState) :
    (m.modSt sid f).heap = m.heap := by
  unfold Mach.modSt
  split <;> rfl

theorem modSt_states (m : Mach) (sid : Nat) (f : DraftState → DraftState) :
    (m.modSt sid f).states =
      match m.states.get? sid with
      | some s => m.states.set sid (f s)
      | none => m.states := by
  unfold Mach.modSt
  split <;> simp_all [Mach.setSt, Mach.fail]

theorem updNode_states (m : Mach) (a : Nat) (f : HNode → HNode) :
    (m.updNode a f).states = m.states := by
  unfold Mach.updNode
  split <;> rfl

theorem updNode_heap_other (m : Mach) (a : Nat) (f : HNode → HNode) {b : Nat} (h : a ≠ b) :
    (m.updNode a f).heap.get? b = m.heap.get? b := by
  unfold Mach.updNode
  split
  · exact get?_set_other _ _ h
  · rfl

theorem updNode_heap_len (m : Mach) (a : Nat) (f : HNode → HNode) :
    (m.updNode a f).heap.length = m.heap.length := by
  unfold Mach.updNode
  split <;> simp

theorem freezeAddr_states (m : Mach) (a : Nat) : (freezeAddr m a).states = m.states := by
  unfold freezeAddr
  split <;> rfl

theorem freezeAddr_heap_other (m : Mach) (a : Nat) {b : Nat} (h : a ≠ b) :
    (freezeAddr m a).heap.get? b = m.heap.get? b := by
  unfold freezeAddr
  split
  · exact get?_set_other _ _ h
  · rfl

theorem freezeAddr_heap_len (m : Mach) (a : Nat) :
    (freezeAddr m a).heap.length = m.heap.length := by
  unfold freezeAddr
  split <;> simp

/-! ## markChanged lemmas -/

theorem heap_ext_trans {m x y : Mach} {e1 : List HCell}
    (h1 : x.heap = m.heap ++ e1) (h2 : ∃ ext, y.heap = x.heap ++ ext) :
    ∃ ext, y.heap = m.heap ++ ext := by
  obtain ⟨ext, he⟩ := h2
  exact ⟨e1 ++ ext, by rw [he, h1, List.append_assoc]⟩

theorem markChangedStep_heap_ext (m : Mach) (sid : Nat) (s : DraftState) :
    ∃ ext, (markChangedStep m sid s).heap = m.heap ++ ext := by
  unfold markChangedStep
  split
  · exact ⟨[], by simp [setSt_heap]⟩
  · split
    · rename_i n hn
      exact ⟨[⟨n, false⟩], by simp [setSt_heap, alloc_heap]⟩
    · exact ⟨[], by simp [Mach.fail]⟩

theorem markChangedStep_states_len (m : Mach) (sid : Nat) (s : DraftState) :
    (markChangedStep m sid s).states.length = m.states.length := by
  unfold markChangedStep
  split
  · simp [setSt_states]
  · split
    · simp [setSt_states, alloc_states]
    · simp [Mach.fail]

theorem markChangedF_heap_ext (fuel : Nat) (m : Mach) (sid : Nat) :
    ∃ ext, (markChangedF fuel m sid).heap = m.heap ++ ext := by
  induction fuel generalizing m sid with
  | zero => exact ⟨[], by simp [markChangedF, Mach.fail]⟩
  | succ f ih =>
    unfold markChangedF
    split
    · exact ⟨[], by simp [Mach.fail]⟩
    · rename_i s hs
      split
      · exact ⟨[], by simp⟩
      · split
        · rename_i p hp
          obtain ⟨e1, h1⟩ := markChangedStep_heap_ext m sid s
          exact heap_ext_trans h1 (ih _ p)
        · exact markChangedStep_heap_ext m sid s

theorem markChangedF_states_len (fuel : Nat) (m : Mach) (sid : Nat) :
    (markChangedF fuel m sid).states.length = m.states.length := by
  induction fuel generalizing m sid with
  | zero => simp [markChangedF, Mach.fail]
  | succ f ih =>
    unfold markChangedF
    split
    · rfl
    · rename_i s hs
      split
      · rfl
      · split
        · rename_i p hp
          rw [ih _ p, markChangedStep_states_len]
        · exact markChangedStep_states_len m sid s

theorem exists_get?_of_lt {α : Type} {l : List α} {n : Nat} (h : n < l.length) :
    ∃ a, l.get? n = some a := by
  cases hg : l.get? n with
  | none => exact absurd (List.get?_eq_none.1 hg) (Nat.not_le_of_lt h)
  | some a => exact ⟨a, rfl⟩

theorem stPresMC_rfl (h0 : Nat) (s : DraftState) : StPresMC h0 s s := by
  refine ⟨rfl, rfl, rfl, rfl, rfl, Or.inl rfl, fun _ => rfl⟩

theorem stPresMC_trans {h0 h1 : Nat} {s s' s'' : DraftState} (hle : h0 ≤ h1)
    (hp : StPresMC h0 s s') (hq : StPresMC h1 s' s'') : StPresMC h0 s s'' := by
  obtain ⟨a1, b1, c1, d1, e1, f1, g1⟩ := hp
  obtain ⟨a2, b2, c2, d2, e2, f2, g2⟩ := hq
  refine ⟨a2.trans a1, b2.trans b1, c2.trans c1, d2.trans d1, e2.trans e1, ?_, ?_⟩
  · rcases f1 with h | ⟨hm1, hc1, hcc1⟩
    · subst h
      rcases f2 with h | ⟨hm2, hc2, hcc2⟩
      · exact Or.inl h
      · refine Or.inr ⟨hm2, hc2, ?_⟩
        rcases hcc2 with h | ⟨hn, c, hc, hlc⟩
        · exact Or.inl h
        · exact Or.inr ⟨hn, c, hc, Nat.le_trans hle hlc⟩
    · have h22 := g2 hm1
      subst h22
      exact Or.inr ⟨hm1, hc1, hcc1⟩
  · intro hm
    have h1e := g1 hm
    subst h1e
    exact g2 hm

theorem markChangedStep_stPres {m : Mach} {sid : Nat} {s : DraftState}
    (hs : m.states.get? sid = some s) (hm : s.modified = false)
    (j : Nat) (t : DraftState) (ht : m.states.get? j = some t) :
    ∃ t', (markChangedStep m sid s).states.get? j = some t' ∧
      StPresMC m.heap.length t t' := by
  by_cases hj : j = sid
  · subst hj
    have hts : t = s := Option.some.inj (ht.symm.trans hs)
    subst hts
    have hlt : j < m.states.length := lt_len_of_get?_eq_some ht
    unfold markChangedStep
    cases hc : t.copy with
    | some c =>
      dsimp only
      refine ⟨{ t with modified := true, copy := some c }, ?_, ?_⟩
      · rw [setSt_states]
        exact get?_set_self _ _ hlt
      · refine ⟨rfl, rfl, rfl, rfl, rfl, Or.inr ⟨rfl, rfl, Or.inl hc.symm⟩,
          fun hmt => by simp [hm] at hmt⟩
    | none =>
      cases hb : m.node? t.base with
      | some n =>
        dsimp only
        refine ⟨{ t with modified := true, copy := some m.allocAddr }, ?_, ?_⟩
        · rw [setSt_states, alloc_states]
          exact get?_set_self _ _ hlt
        · refine ⟨rfl, rfl, rfl, rfl, rfl,
            Or.inr ⟨rfl, rfl, Or.inr ⟨hc, m.allocAddr, rfl, Nat.le_refl _⟩⟩,
            fun hmt => by simp [hm] at hmt⟩
      | none =>
        exact ⟨t, ht, stPresMC_rfl _ _⟩
  · refine ⟨t, ?_, stPresMC_rfl _ _⟩
    unfold markChangedStep
    cases hc : s.copy with
    | some c =>
      dsimp only
      rw [setSt_states, get?_set_other _ _ (fun h => hj h.symm)]
      exact ht
    | none =>
      cases hb : m.node? s.base with
      | some n =>
        dsimp only
        rw [setSt_states, alloc_states, get?_set_other _ _ (fun h => hj h.symm)]
        exact ht
      | none => exact ht

theorem markChangedStep_heap_len_mono (m : Mach) (sid : Nat) (s : DraftState) :
    m.heap.length ≤ (markChangedStep m sid s).heap.length := by
  obtain ⟨ext, he⟩ := markChangedStep_heap_ext m sid s
  simp [he]

theorem markChangedF_heap_len_mono (fuel : Nat) (m : Mach) (sid : Nat) :
    m.heap.length ≤ (markChangedF fuel m sid).heap.length := by
  obtain ⟨ext, he⟩ := markChangedF_heap_ext fuel m sid
  simp [he]

theorem markChangedF_heap_low (fuel : Nat) (m : Mach) (sid : Nat) {a : Nat}
    (h : a < m.heap.length) :
    (markChangedF fuel m sid).heap.get? a = m.heap.get? a := by
  obtain ⟨ext, he⟩ := markChangedF_heap_ext fuel m sid
  rw [he, get?_append_lt _ _ h]

theorem markChangedF_stPres (fuel : Nat) (m : Mach) (sid : Nat) :
    ∀ j t, m.states.get? j = some t →
      ∃ t', (markChangedF fuel m sid).states.get? j = some t' ∧
        StPresMC m.heap.length t t' := by
  induction fuel generalizing m sid with
  | zero => exact fun j t ht => ⟨t, ht, stPresMC_rfl _ _⟩
  | succ f ih =>
    intro j t ht
    unfold markChangedF
    split
    · exact ⟨t, ht, stPresMC_rfl _ _⟩
    · rename_i s hs
      split
      · exact ⟨t, ht, stPresMC_rfl _ _⟩
      · rename_i hmod
        have hm : s.modified = false := by
          cases hsm : s.modified with
          | true => exact absurd hsm hmod
          | false => rfl
        split
        · rename_i p hp
          obtain ⟨t1, ht1, hp1⟩ := markChangedStep_stPres hs hm j t ht
          obtain ⟨t', ht', hp2⟩ := ih (markChangedStep m sid s) p j t1 ht1
          exact ⟨t', ht', stPresMC_trans (markChangedStep_heap_len_mono m sid s) hp1 hp2⟩
        · exact markChangedStep_stPres hs hm j t ht

theorem markChangedF_untouched (fuel : Nat) (m : Mach) (sid : Nat)
    {j : Nat} {t : DraftState} (ht : m.states.get? j = some t)
    (hm : t.modified = true) :
    (markChangedF fuel m sid).states.get? j = some t := by
  obtain ⟨t', ht', hp⟩ := markChangedF_stPres fuel m sid j t ht
  rw [ht', hp.2.2.2.2.2.2 hm]

theorem markChangedF_copiesFresh {h0 : Nat} {m : Mach} (hcf : CopiesFresh h0 m)
    (fuel : Nat) (sid : Nat) : CopiesFresh h0 (markChangedF fuel m sid) := by
  obtain ⟨hlen, hst⟩ := hcf
  refine ⟨Nat.le_trans hlen (markChangedF_heap_len_mono fuel m sid), ?_⟩
  intro j t' ht' c hc
  have hjlen : j < m.states.length := by
    have := lt_len_of_get?_eq_some ht'
    rwa [markChangedF_states_len] at this
  obtain ⟨t, ht⟩ := exists_get?_of_lt hjlen
  obtain ⟨t'', ht'', hp⟩ := markChangedF_stPres fuel m sid j t ht
  have hte : t'' = t' := Option.some.inj (ht''.symm.trans ht')
  subst hte
  rcases hp.2.2.2.2.2.1 with he | ⟨_, _, hcc⟩
  · subst he
    exact hst j t'' ht c hc
  · rcases hcc with he | ⟨_, c', hc', hlc⟩
    · rw [he] at hc
      exact hst j t ht c hc
    · rw [hc'] at hc
      cases hc
      exact Nat.le_trans hlen hlc

theorem markChangedF_lowEq {h0 : Nat} {m : Mach} (hlen : h0 ≤ m.heap.length)
    (fuel : Nat) (sid : Nat) : LowEq h0 m (markChangedF fuel m sid) := by
  intro a ha
  exact markChangedF_heap_low fuel m sid (Nat.lt_of_lt_of_le ha hlen)

theorem markChangedF_mica {m : Mach} (hm : ModHasCopyOrAppends m)
    (fuel : Nat) (sid : Nat) : ModHasCopyOrAppends (markChangedF fuel m sid) := by
  intro j t' ht' hmod
  have hjlen : j < m.states.length := by
    have := lt_len_of_get?_eq_some ht'
    rwa [markChangedF_states_len] at this
  obtain ⟨t, ht⟩ := exists_get?_of_lt hjlen
  obtain ⟨t'', ht'', hp⟩ := markChangedF_stPres fuel m sid j t ht
  have hte : t'' = t' := Option.some.inj (ht''.symm.trans ht')
  subst hte
  rcases hp.2.2.2.2.2.1 with he | ⟨_, hc, _⟩
  · subst he
    exact hm j t'' ht hmod
  · exact Or.inl hc

theorem markChangedF_self_copySome (f : Nat) {m : Mach} {sid : Nat} {s : DraftState}
    (hs : m.state? sid = some s) (hm : s.modified = false) {c : Nat}
    (hc : s.copy = some c) :
    (markChangedF (f + 1) m sid).states.get? sid = some { s with modified := true } := by
  have hs' : m.states.get? sid = some s := hs
  have hlt : sid < m.states.length := lt_len_of_get?_eq_some hs'
  have hstep : (markChangedStep m sid s).states.get? sid = some { s with modified := true } := by
    unfold markChangedStep
    rw [hc]
    dsimp only
    rw [setSt_states]
    exact get?_set_self _ _ hlt
  unfold markChangedF
  rw [show m.state? sid = some s from hs]
  simp only [hm, Bool.false_eq_true, if_false]
  split
  · rename_i p hp
    exact markChangedF_untouched f _ p hstep rfl
  · exact hstep

theorem markChangedF_self_copyNone (f : Nat) {m : Mach} {sid : Nat} {s : DraftState}
    (hs : m.state? sid = some s) (hm : s.modified = false)
    (hc : s.copy = none) {n : HNode} (hb : m.node? s.base = some n) :
    (markChangedF (f + 1) m sid).states.get? sid =
      some { s with modified := true, copy := some m.heap.length } ∧
    (markChangedF (f + 1) m sid).node? m.heap.length = some n := by
  have hs' : m.states.get? sid = some s := hs
  have hlt : sid < m.states.length := lt_len_of_get?_eq_some hs'
  have hstep : (markChangedStep m sid s).states.get? sid =
      some { s with modified := true, copy := some m.heap.length } := by
    unfold markChangedStep
    rw [hc, hb]
    dsimp only
    rw [setSt_states, alloc_states]
    exact get?_set_self _ _ hlt
  have hheap : (markChangedStep m sid s).heap.get? m.heap.length = some ⟨n, false⟩ := by
    unfold markChangedStep
    rw [hc, hb]
    dsimp only
    rw [setSt_heap, alloc_heap]
    exact get?_append_self _ _ _
  have hheaplen : m.heap.length < (markChangedStep m sid s).heap.length := by
    unfold markChangedStep
    rw [hc, hb]
    dsimp only
    simp [setSt_heap, alloc_heap]
  unfold markChangedF
  rw [show m.state? sid = some s from hs]
  simp only [hm, Bool.false_eq_true, if_false]
  split
  · rename_i p hp
    refine ⟨markChangedF_untouched f _ p hstep rfl, ?_⟩
    unfold Mach.node?
    rw [markChangedF_heap_low f _ p hheaplen, hheap]
    rfl
  · refine ⟨hstep, ?_⟩
    unfold Mach.node?
    rw [hheap]
    rfl

theorem get?_append_some_cases {α : Type} {l : List α} {x : α} {j : Nat} {t : α}
    (h : (l ++ [x]).get? j = some t) : l.get? j = some t ∨ t = x := by
  by_cases hj : j < l.length
  · rw [get?_append_lt _ _ hj] at h
    exact Or.inl h
  · right
    have hjl : j < l.length + 1 := by
      have := lt_len_of_get?_eq_some h
      simpa using this
    have hje : j = l.length := by omega
    subst hje
    have := get?_append_self l x []
    simp only [List.append_nil] at this
    rw [this] at h
    exact (Option.some.inj h).symm

theorem frameTo_rfl {h0 : Nat} {m : Mach} (hcf : CopiesFresh h0 m) : FrameTo h0 m m :=
  ⟨hcf, fun _ _ => rfl⟩

theorem frameTo_trans {h0 : Nat} {m1 m2 m3 : Mach}
    (h1 : FrameTo h0 m1 m2) (h2 : FrameTo h0 m2 m3) : FrameTo h0 m1 m3 :=
  ⟨h2.1, fun a ha => (h2.2 a ha).trans (h1.2 a ha)⟩

theorem engStep_rfl (h0 : Nat) (m : Mach) : EngStep h0 m m :=
  ⟨fun hcf => frameTo_rfl hcf, fun h => h⟩

theorem engStep_trans {h0 : Nat} {m1 m2 m3 : Mach}
    (h1 : EngStep h0 m1 m2) (h2 : EngStep h0 m2 m3) : EngStep h0 m1 m3 := by
  refine ⟨fun hcf => ?_, fun hm => h2.2 (h1.2 hm)⟩
  have f1 := h1.1 hcf
  have f2 := h2.1 f1.1
  exact frameTo_trans f1 f2

theorem engStep_fail (h0 : Nat) (m : Mach) : EngStep h0 m m.fail :=
  ⟨fun hcf => ⟨hcf, fun _ _ => rfl⟩, fun h => h⟩

theorem engStep_alloc (h0 : Nat) (m : Mach) (n : HNode) : EngStep h0 m (m.alloc n) := by
  refine ⟨fun hcf => ⟨⟨?_, hcf.2⟩, ?_⟩, fun h => h⟩
  · simp [alloc_heap]
    exact Nat.le_add_right_of_le hcf.1
  · intro a ha
    exact get?_append_lt _ _ (Nat.lt_of_lt_of_le ha hcf.1)

theorem frameTo_setSt {h0 : Nat} {m : Mach} (sid : Nat) (s' : DraftState)
    (hcf : CopiesFresh h0 m) (hcopy : ∀ c, s'.copy = some c → h0 ≤ c) :
    FrameTo h0 m (m.setSt sid s') := by
  refine ⟨⟨hcf.1, ?_⟩, fun _ _ => rfl⟩
  intro j t ht c hc
  rw [setSt_states] at ht
  by_cases hj : sid = j
  · subst hj
    by_cases hlt : sid < m.states.length
    · rw [get?_set_self _ _ hlt] at ht
      cases Option.some.inj ht
      exact hcopy c hc
    · rw [List.set_eq_of_length_le (Nat.le_of_not_lt hlt)] at ht
      exact hcf.2 sid t ht c hc
  · rw [get?_set_other _ _ hj] at ht
    exact hcf.2 j t ht c hc

theorem mica_states_eq {m m' : Mach} (h : m'.states = m.states)
    (hm : ModHasCopyOrAppends m) : ModHasCopyOrAppends m' := by
  intro j t ht hmod
  rw [h] at ht
  exact hm j t ht hmod

theorem mica_setSt {m : Mach} (sid : Nat) (s' : DraftState)
    (hm : ModHasCopyOrAppends m)
    (hcond : s'.modified = true → s'.copy.isSome ∨ s'.arrayAppends.isSome) :
    ModHasCopyOrAppends (m.setSt sid s') := by
  intro j t ht hmod
  rw [setSt_states] at ht
  by_cases hj : sid = j
  · subst hj
    by_cases hlt : sid < m.states.length
    · rw [get?_set_self _ _ hlt] at ht
      cases Option.some.inj ht
      exact hcond hmod
    · rw [List.set_eq_of_length_le (Nat.le_of_not_lt hlt)] at ht
      exact hm sid t ht hmod
  · rw [get?_set_other _ _ hj] at ht
    exact hm j t ht hmod

theorem engStep_modSt (h0 : Nat) (m : Mach) (sid : Nat) (f : DraftState → DraftState)
    (hf : ∀ s, (f s).copy = s.copy ∧ (f s).modified = s.modified ∧
      ((f s).arrayAppends = s.arrayAppends ∨ (f s).arrayAppends.isSome = true)) :
    EngStep h0 m (m.modSt sid f) := by
  unfold Mach.modSt
  split
  · rename_i s hs
    constructor
    · intro hcf
      refine frameTo_setSt sid (f s) hcf ?_
      intro c hc
      rw [(hf s).1] at hc
      exact hcf.2 sid s hs c hc
    · intro hm
      refine mica_setSt sid (f s) hm ?_
      intro hmod
      rw [(hf s).2.1] at hmod
      rcases hm sid s hs hmod with hc | ha
      · exact Or.inl (by rw [(hf s).1]; exact hc)
      · rcases (hf s).2.2 with he | hi
        · exact Or.inr (by rw [he]; exact ha)
        · exact Or.inr hi
  · exact engStep_fail h0 m

theorem engStep_updNode {h0 : Nat} {m : Mach} {a : Nat} (f : HNode → HNode)
    (ha : h0 ≤ a) : EngStep h0 m (m.updNode a f) := by
  refine ⟨fun hcf => ⟨⟨?_, ?_⟩, ?_⟩, fun h => by rwa [ModHasCopyOrAppends, updNode_states]⟩
  · rw [updNode_heap_len]
    exact hcf.1
  · intro j t ht
    rw [updNode_states] at ht
    exact hcf.2 j t ht
  · intro b hb
    exact updNode_heap_other m a f (by omega)

theorem engStep_freezeAddr {h0 : Nat} {m : Mach} {a : Nat} (ha : h0 ≤ a) :
    EngStep h0 m (freezeAddr m a) := by
  refine ⟨fun hcf => ⟨⟨?_, ?_⟩, ?_⟩, fun h => by rwa [ModHasCopyOrAppends, freezeAddr_states]⟩
  · rw [freezeAddr_heap_len]
    exact hcf.1
  · intro j t ht
    rw [freezeAddr_states] at ht
    exact hcf.2 j t ht
  · intro b hb
    exact freezeAddr_heap_other m a (by omega)

theorem engStep_markChangedF (h0 : Nat) (m : Mach) (fuel sid : Nat) :
    EngStep h0 m (markChangedF fuel m sid) := by
  refine ⟨fun hcf => ⟨markChangedF_copiesFresh hcf fuel sid,
    markChangedF_lowEq hcf.1 fuel sid⟩, fun h => markChangedF_mica h fuel sid⟩

theorem engStep_materialize (h0 : Nat) (m : Mach) (sid : Nat) :
    EngStep h0 m (materializeAppends m sid) := by
  unfold materializeAppends
  split
  · exact engStep_fail h0 m
  · rename_i s hs
    split
    · rename_i ap hap
      split
      · rename_i es hes
        constructor
        · intro hcf
          have f1 : FrameTo h0 m (m.alloc (.arr (es ++ ap))) := (engStep_alloc h0 m _).1 hcf
          refine frameTo_trans f1 (frameTo_setSt sid _ f1.1 ?_)
          intro c hc
          cases Option.some.inj hc
          exact hcf.1
        · intro hm
          refine mica_setSt sid _ (mica_states_eq (alloc_states m _) hm) ?_
          intro _
          exact Or.inl rfl
      · exact engStep_fail h0 m
    · exact engStep_rfl h0 m

theorem engStep_createProxy (h0 : Nat) (m : Mach) (v : JVal) (parent : Option Nat) :
    EngStep h0 m (createProxy m v parent).1 := by
  unfold createProxy
  split
  · rename_i a
    split
    · rename_i n hn
      constructor
      · intro hcf
        refine ⟨⟨hcf.1, ?_⟩, fun _ _ => rfl⟩
        intro j t ht c hc
        rcases get?_append_some_cases ht with hold | hnew
        · exact hcf.2 j t hold c hc
        · subst hnew
          exact absurd hc (by simp)
      · intro hm j t ht hmod
        rcases get?_append_some_cases ht with hold | hnew
        · exact hm j t hold hmod
        · subst hnew
          simp at hmod
    · exact engStep_fail h0 m
  · exact engStep_rfl h0 m

theorem engStep_updNode_fresh {h0 : Nat} {m : Mach} {a : Nat} (f : HNode → HNode)
    (ha : CopiesFresh h0 m → h0 ≤ a) : EngStep h0 m (m.updNode a f) :=
  ⟨fun hcf => (engStep_updNode f (ha hcf)).1 hcf,
   fun h => mica_states_eq (updNode_states m a f) h⟩

theorem engStep_freezeAddr_fresh {h0 : Nat} {m : Mach} {a : Nat}
    (ha : CopiesFresh h0 m → h0 ≤ a) : EngStep h0 m (freezeAddr m a) :=
  ⟨fun hcf => (engStep_freezeAddr (ha hcf)).1 hcf,
   fun h => mica_states_eq (freezeAddr_states m a) h⟩

theorem engStep_foldl {h0 : Nat} {α : Type} (step : Mach → α → Mach)
    (hstep : ∀ mm it, EngStep h0 mm (step mm it)) :
    ∀ (l : List α) (m : Mach), EngStep h0 m (l.foldl step m) := by
  intro l
  induction l with
  | nil => exact fun m => engStep_rfl h0 m
  | cons a as ih =>
    intro m
    exact engStep_trans (hstep m a) (ih (step m a))

mutual
theorem walloc_mach : ∀ (m : Mach) (w : WVal),
    ∃ ext, (walloc m w).1 = { m with heap := m.heap ++ ext }
  | m, .wnum n => ⟨[], by simp [walloc]⟩
  | m, .wstr s => ⟨[], by simp [walloc]⟩
  | m, .wbool b => ⟨[], by simp [walloc]⟩
  | m, .wundef => ⟨[], by simp [walloc]⟩
  | m, .wnothing => ⟨[], by simp [walloc]⟩
  | m, .wobj fs => by
    obtain ⟨ext, he⟩ := wallocFields_mach m fs
    refine ⟨ext ++ [⟨.obj (wallocFields m fs).2, false⟩], ?_⟩
    show ((wallocFields m fs).1.alloc (.obj (wallocFields m fs).2)) =
      { m with heap := m.heap ++ (ext ++ [⟨.obj (wallocFields m fs).2, false⟩]) }
    rw [Mach.alloc, he]
    simp
  | m, .warr es => by
    obtain ⟨ext, he⟩ := wallocElems_mach m es
    refine ⟨ext ++ [⟨.arr (wallocElems m es).2, false⟩], ?_⟩
    show ((wallocElems m es).1.alloc (.arr (wallocElems m es).2)) =
      { m with heap := m.heap ++ (ext ++ [⟨.arr (wallocElems m es).2, false⟩]) }
    rw [Mach.alloc, he]
    simp
theorem wallocFields_mach : ∀ (m : Mach) (fs : WFields),
    ∃ ext, (wallocFields m fs).1 = { m with heap := m.heap ++ ext }
  | m, .nil => ⟨[], by simp [wallocFields]⟩
  | m, .cons s w rest => by
    obtain ⟨e1, h1⟩ := walloc_mach m w
    obtain ⟨e2, h2⟩ := wallocFields_mach (walloc m w).1 rest
    refine ⟨e1 ++ e2, ?_⟩
    show (wallocFields (walloc m w).1 rest).1 = _
    rw [h2, h1]
    simp
theorem wallocElems_mach : ∀ (m : Mach) (es : WList),
    ∃ ext, (wallocElems m es).1 = { m with heap := m.heap ++ ext }
  | m, .nil => ⟨[], by simp [wallocElems]⟩
  | m, .cons w rest => by
    obtain ⟨e1, h1⟩ := walloc_mach m w
    obtain ⟨e2, h2⟩ := wallocElems_mach (walloc m w).1 rest
    refine ⟨e1 ++ e2, ?_⟩
    show (wallocElems (walloc m w).1 rest).1 = _
    rw [h2, h1]
    simp
end

theorem engStep_heap_ext {h0 : Nat} {m m' : Mach} {ext : List HCell}
    (h : m' = { m with heap := m.heap ++ ext }) : EngStep h0 m m' := by
  subst h
  constructor
  · intro hcf
    refine ⟨⟨by simp; exact Nat.le_add_right_of_le hcf.1, ?_⟩, ?_⟩
    · intro j t ht c hc
      exact hcf.2 j t ht c hc
    · intro a ha
      exact get?_append_lt _ _ (Nat.lt_of_lt_of_le ha hcf.1)
  · exact fun h => h

theorem engStep_walloc (h0 : Nat) (m : Mach) (w : WVal) :
    EngStep h0 m (walloc m w).1 := by
  obtain ⟨ext, he⟩ := walloc_mach m w
  exact engStep_heap_ext he

theorem engStep_wallocListAux (h0 : Nat) : ∀ (ws : List WVal) (m : Mach) (acc : List JVal),
    EngStep h0 m (ws.foldl (fun a w =>
      match walloc a.1 w with
      | (mm, v) => (mm, a.2 ++ [v])) (m, acc)).1 := by
  intro ws
  induction ws with
  | nil => exact fun m acc => engStep_rfl h0 m
  | cons w rest ih =>
    intro m acc
    simp only [List.foldl_cons]
    exact engStep_trans (engStep_walloc h0 m w) (ih (walloc m w).1 (acc ++ [(walloc m w).2]))

theorem engStep_wallocList (h0 : Nat) (m : Mach) (ws : List WVal) :
    EngStep h0 m (wallocList m ws).1 :=
  engStep_wallocListAux h0 ws m []
theorem engStep_allocSetSt (h0 : Nat) (m : Mach) (sid : Nat) (n : HNode)
    (s' : DraftState) (hc : s'.copy = some m.allocAddr) :
    EngStep h0 m ((m.alloc n).setSt sid s') := by
  constructor
  · intro hcf
    have f1 : FrameTo h0 m (m.alloc n) := (engStep_alloc h0 m n).1 hcf
    refine frameTo_trans f1 (frameTo_setSt sid s' f1.1 ?_)
    intro c hcc
    rw [hc] at hcc
    cases Option.some.inj hcc
    exact hcf.1
  · intro hm
    refine mica_setSt sid s' (mica_states_eq (alloc_states m n) hm) ?_
    intro _
    exact Or.inl (by rw [hc]; rfl)

theorem engStep_materializeIf (h0 : Nat) (m : Mach) (sid : Nat) (b : Bool) :
    EngStep h0 m (if b = true then materializeAppends m sid else m) := by
  cases b with
  | true => simpa using engStep_materialize h0 m sid
  | false => simpa using engStep_rfl h0 m

theorem engStep_wrapChild (h0 : Nat) (m1 : Mach) (sid : Nat) (k : PKey) (value : JVal) :
    EngStep h0 m1 (wrapChild m1 sid k value).1 := by
  unfold wrapChild
  split
  · exact engStep_fail h0 m1
  · rename_i s1 hs1
    split
    · exact engStep_rfl h0 m1
    · split
      · rename_i m2 cid heq
        have e2 : EngStep h0 m1 m2 := by
          have := engStep_createProxy h0 m1 value (some sid)
          rw [heq] at this
          exact this
        have e3 : EngStep h0 m2
            (m2.modSt sid (fun s2 => { s2 with drafts := setDraft s2.drafts k cid })) :=
          engStep_modSt h0 m2 sid _ (fun s2 => ⟨rfl, rfl, Or.inl rfl⟩)
        have e23 := engStep_trans e2 e3
        dsimp only
        split
        · rename_i s4 hs4
          split
          · rename_i c hc4
            split at hs4
            · rename_i s3 hs3
              split at hs4
              · exact engStep_trans e23 (engStep_updNode_fresh _
                  (fun hcf => hcf.2 sid s4 hs4 c hc4))
              · split at hs4
                · rename_i n hn
                  refine engStep_trans (engStep_trans e23 (engStep_allocSetSt h0 _ sid n _ rfl))
                    (engStep_updNode_fresh _ (fun hcf => hcf.2 sid s4 hs4 c hc4))
                · exact engStep_trans (engStep_trans e23 (engStep_fail h0 _))
                    (engStep_updNode_fresh _ (fun hcf => hcf.2 sid s4 hs4 c hc4))
            · exact engStep_trans (engStep_trans e23 (engStep_fail h0 _))
                (engStep_updNode_fresh _ (fun hcf => hcf.2 sid s4 hs4 c hc4))
          · -- copy still absent: failure
            refine engStep_trans ?_ (engStep_fail h0 _)
            split
            · rename_i s3 hs3
              split
              · exact e23
              · split
                · rename_i n hn
                  exact engStep_trans e23 (engStep_allocSetSt h0 _ sid n _ rfl)
                · exact engStep_trans e23 (engStep_fail h0 _)
            · exact engStep_trans e23 (engStep_fail h0 _)
        · refine engStep_trans ?_ (engStep_fail h0 _)
          split
          · rename_i s3 hs3
            split
            · exact e23
            · split
              · rename_i n hn
                exact engStep_trans e23 (engStep_allocSetSt h0 _ sid n _ rfl)
              · exact engStep_trans e23 (engStep_fail h0 _)
          · exact engStep_trans e23 (engStep_fail h0 _)
      · rename_i m2 other hnotd heq
        have := engStep_createProxy h0 m1 value (some sid)
        rw [heq] at this
        exact this

theorem engStep_getPropRest (h0 : Nat) (m : Mach) (sid : Nat) (k : PKey) (value : JVal) :
    EngStep h0 m (getPropRest m sid k value).1 := by
  unfold getPropRest
  split
  · exact engStep_rfl h0 m
  · rename_i a
    split
    · exact engStep_fail h0 m
    · rename_i s hs
      split
      · exact engStep_fail h0 m
      · rename_i bnode hb
        split
        · exact engStep_trans (engStep_materializeIf h0 m sid (appendsNonempty s))
            (engStep_wrapChild h0 _ sid k _)
        · exact engStep_rfl h0 m
  · exact engStep_rfl h0 m

theorem engStep_getProp (h0 : Nat) (m : Mach) (sid : Nat) (k : PKey) :
    EngStep h0 m (getProp m sid k).1 := by
  unfold getProp
  split
  · exact engStep_fail h0 m
  · rename_i s hs
    split
    · split
      · exact engStep_rfl h0 m
      · exact engStep_fail h0 m
    · split
      · exact engStep_fail h0 m
      · rename_i srcNode hsrc
        split
        · rename_i i ap hk hap
          split
          · split
            · rename_i es hbase
              split
              · split
                · dsimp only
                  split
                  · exact engStep_rfl h0 m
                  · exact engStep_rfl h0 m
                · dsimp only
                  split
                  · split
                    · rename_i m2 cid heq
                      have e2 : EngStep h0 m m2 := by
                        have h3 := engStep_createProxy h0 m
                          ((ap.get? (i - es.length)).getD JVal.vundef) (some sid)
                        rw [heq] at h3
                        exact h3
                      refine engStep_trans e2 (engStep_modSt h0 m2 sid _ ?_)
                      intro s2
                      exact ⟨rfl, rfl, Or.inr rfl⟩
                    · rename_i m2 other hnotd heq
                      have h3 := engStep_createProxy h0 m
                        ((ap.get? (i - es.length)).getD JVal.vundef) (some sid)
                      rw [heq] at h3
                      exact h3
                  · exact engStep_rfl h0 m
              · exact engStep_getPropRest h0 m sid _ _
            · exact engStep_fail h0 m
          · exact engStep_getPropRest h0 m sid _ _
        · exact engStep_getPropRest h0 m sid _ _

theorem engStep_markChanged (h0 : Nat) (m : Mach) (sid : Nat) :
    EngStep h0 m (markChanged m sid) :=
  engStep_markChangedF h0 m (m.states.length + 1) sid

theorem engStep_writeCopy (h0 : Nat) (m1 : Mach) (sid : Nat) (k : PKey)
    (f : Bool → HNode → HNode) : EngStep h0 m1 (writeCopy m1 sid k f) := by
  unfold writeCopy
  split
  · rename_i s1 hs1
    split
    · rename_i c hc1
      refine engStep_trans
        (engStep_updNode_fresh _ (fun hcf => hcf.2 sid s1 hs1 c hc1))
        (engStep_modSt h0 _ sid (fun s2 => { s2 with drafts := delDraft s2.drafts k })
          (fun s2 => ⟨rfl, rfl, Or.inl rfl⟩))
    · exact engStep_fail h0 m1
  · exact engStep_fail h0 m1

theorem engStep_setPropCore (h0 : Nat) (m0 : Mach) (sid : Nat) (k : PKey) (v : JVal) :
    EngStep h0 m0 (setPropCore m0 sid k v) := by
  unfold setPropCore
  split
  · exact engStep_fail h0 m0
  · rename_i s0 hs0
    split
    · exact engStep_fail h0 m0
    · rename_i srcNode hsrc
      split
      · split
        · exact engStep_trans (engStep_markChanged h0 m0 sid) (engStep_writeCopy h0 _ sid k _)
        · exact engStep_rfl h0 m0
      · dsimp only
        split
        · exact engStep_rfl h0 m0
        · exact engStep_trans (engStep_markChanged h0 m0 sid) (engStep_writeCopy h0 _ sid k _)

theorem engStep_setProp (h0 : Nat) (m : Mach) (sid : Nat) (k : PKey) (v : JVal) :
    EngStep h0 m (setProp m sid k v) := by
  unfold setProp
  split
  · exact engStep_fail h0 m
  · rename_i s hs
    exact engStep_trans (engStep_materializeIf h0 m sid (appendsNonempty s))
      (engStep_setPropCore h0 _ sid k v)

theorem engStep_deleteProp (h0 : Nat) (m : Mach) (sid : Nat) (k : PKey) :
    EngStep h0 m (deleteProp m sid k) := by
  unfold deleteProp
  exact engStep_trans (engStep_markChanged h0 m sid) (engStep_writeCopy h0 _ sid k _)

theorem engStep_pushSlow (h0 : Nat) (m1 : Mach) (sid : Nat) (items : List JVal) :
    EngStep h0 m1 (pushSlow m1 sid items) := by
  unfold pushSlow
  refine engStep_foldl _ ?_ items m1
  intro mm it
  split
  · exact engStep_fail h0 mm
  · rename_i s1 hs1
    split
    · exact engStep_setProp h0 mm sid _ it
    · exact engStep_fail h0 mm

theorem frameTo_pushFastPre {h0 : Nat} {m : Mach} (sid : Nat) (s : DraftState)
    (hcf : CopiesFresh h0 m) (hcopy : s.copy = none) :
    FrameTo h0 m (pushFastPre m sid s) := by
  unfold pushFastPre
  split
  · exact frameTo_rfl hcf
  · have fs : FrameTo h0 m (m.setSt sid { s with modified := true }) := by
      refine frameTo_setSt sid _ hcf ?_
      intro c hcc
      simp [hcopy] at hcc
    split
    · rename_i p hp
      exact frameTo_trans fs ((engStep_markChangedF h0 _ (m.setSt sid
        { s with modified := true }).states.length.succ p).1 fs.1)
    · exact fs

theorem pushFastPre_micaAway {m : Mach} (sid : Nat) (s : DraftState)
    (hm : ModHasCopyOrAppends m) :
    ∀ j t', (pushFastPre m sid s).states.get? j = some t' → j ≠ sid →
      t'.modified = true → t'.copy.isSome ∨ t'.arrayAppends.isSome := by
  intro j t' ht' hj hmod
  unfold pushFastPre at ht'
  split at ht'
  · exact hm j t' ht' hmod
  · split at ht'
    · rename_i p hp
      have hjlen : j < m.states.length := by
        have h1 := lt_len_of_get?_eq_some ht'
        rwa [markChanged, markChangedF_states_len, setSt_states, List.length_set] at h1
      obtain ⟨t, htm⟩ := exists_get?_of_lt hjlen
      have htm1 : (m.setSt sid { s with modified := true }).states.get? j = some t := by
        rw [setSt_states, get?_set_other _ _ (fun h => hj h.symm)]
        exact htm
      rw [markChanged] at ht'
      obtain ⟨t'', ht'', hp2⟩ := markChangedF_stPres _ _ p j t htm1
      have hte : t'' = t' := Option.some.inj (ht''.symm.trans ht')
      subst hte
      rcases hp2.2.2.2.2.2.1 with he | ⟨_, hcs, _⟩
      · subst he
        exact hm j t'' htm hmod
      · exact Or.inl hcs
    · rw [setSt_states, get?_set_other _ _ (fun h => hj h.symm)] at ht'
      exact hm j t' ht' hmod

theorem engStep_pushItems (h0 : Nat) (m : Mach) (sid : Nat) (items : List JVal) :
    EngStep h0 m (pushItems m sid items) := by
  unfold pushItems
  split
  · exact engStep_fail h0 m
  · rename_i s hs
    split
    · exact engStep_fail h0 m
    · split
      · rename_i hcopy
        constructor
        · intro hcf
          have f1 := frameTo_pushFastPre sid s hcf hcopy
          exact frameTo_trans f1
            ((engStep_modSt h0 _ sid
              (fun s' => { s' with arrayAppends := some ((s'.arrayAppends.getD []) ++ items) })
              (fun s' => ⟨rfl, rfl, Or.inr (by simp)⟩)).1 f1.1)
        · intro hm
          have hb := pushFastPre_micaAway sid s hm
          unfold Mach.modSt
          split
          · rename_i s' hs'
            intro j t ht hmod
            rw [setSt_states] at ht
            by_cases hj : sid = j
            · subst hj
              by_cases hlt : sid < (pushFastPre m sid s).states.length
              · rw [get?_set_self _ _ hlt] at ht
                cases Option.some.inj ht
                exact Or.inr rfl
              · exact absurd (lt_len_of_get?_eq_some hs') hlt
            · rw [get?_set_other _ _ hj] at ht
              exact hb j t ht (fun h => hj h.symm) hmod
          · rename_i hs'
            intro j t ht hmod
            by_cases hj : j = sid
            · exfalso
              have ht2 : (pushFastPre m sid s).states.get? j = some t := ht
              rw [hj] at ht2
              rw [ht2] at hs'
              exact Option.noConfusion hs'
            · exact hb j t ht hj hmod
      · rename_i c hcs
        have e1 : EngStep h0 m (if s.modified then m else markChanged m sid) := by
          split
          · exact engStep_rfl h0 m
          · exact engStep_markChanged h0 m sid
        exact engStep_trans e1 (engStep_pushSlow h0 _ sid items)

theorem engStep_resolvePath (h0 : Nat) : ∀ (path : List PKey) (m : Mach) (sid : Nat),
    EngStep h0 m (resolvePath m sid path).1 := by
  intro path
  induction path with
  | nil => exact fun m sid => engStep_rfl h0 m
  | cons k rest ih =>
    intro m sid
    unfold resolvePath
    split
    · rename_i m1 sid' heq
      have e1 : EngStep h0 m m1 := by
        have h1 := engStep_getProp h0 m sid k
        rw [heq] at h1
        exact h1
      exact engStep_trans e1 (ih m1 sid')
    · rename_i m1 v hnotd heq
      have h1 := engStep_getProp h0 m sid k
      rw [heq] at h1
      exact h1

theorem engStep_runOp (h0 : Nat) (m : Mach) (root : Nat) (op : Op) :
    EngStep h0 m (runOp m root op) := by
  cases op with
  | oget path k =>
    simp only [runOp]
    split
    · rename_i m1 sid heq
      have e1 : EngStep h0 m m1 := by
        have h1 := engStep_resolvePath h0 path m root
        rw [heq] at h1
        exact h1
      have e2 := engStep_getProp h0 m1 sid k
      exact engStep_trans e1 e2
    · rename_i m1 heq
      have h1 := engStep_resolvePath h0 path m root
      rw [heq] at h1
      exact h1
  | oset path k w =>
    simp only [runOp]
    split
    · rename_i m1 sid heq
      have e1 : EngStep h0 m m1 := by
        have h1 := engStep_resolvePath h0 path m root
        rw [heq] at h1
        exact h1
      exact engStep_trans (engStep_trans e1 (engStep_walloc h0 m1 w))
        (engStep_setProp h0 (walloc m1 w).1 sid k (walloc m1 w).2)
    · rename_i m1 heq
      have h1 := engStep_resolvePath h0 path m root
      rw [heq] at h1
      exact h1
  | odel path k =>
    simp only [runOp]
    split
    · rename_i m1 sid heq
      have e1 : EngStep h0 m m1 := by
        have h1 := engStep_resolvePath h0 path m root
        rw [heq] at h1
        exact h1
      exact engStep_trans e1 (engStep_deleteProp h0 m1 sid k)
    · rename_i m1 heq
      have h1 := engStep_resolvePath h0 path m root
      rw [heq] at h1
      exact h1
  | opush path items =>
    simp only [runOp]
    split
    · rename_i m1 sid heq
      have e1 : EngStep h0 m m1 := by
        have h1 := engStep_resolvePath h0 path m root
        rw [heq] at h1
        exact h1
      exact engStep_trans (engStep_trans e1 (engStep_wallocList h0 m1 items))
        (engStep_pushItems h0 (wallocList m1 items).1 sid (wallocList m1 items).2)
    · rename_i m1 heq
      have h1 := engStep_resolvePath h0 path m root
      rw [heq] at h1
      exact h1

theorem engStep_runScript (h0 : Nat) (m : Mach) (root : Nat) (ops : List Op) :
    EngStep h0 m (runScript m root ops) := by
  unfold runScript
  exact engStep_foldl _ (fun mm op => engStep_runOp h0 mm root op) ops m

theorem frameTo_fail {h0 : Nat} {m : Mach} (hcf : CopiesFresh h0 m) :
    FrameTo h0 m m.fail :=
  ⟨⟨hcf.1, hcf.2⟩, fun _ _ => rfl⟩

theorem frameTo_foldl {h0 : Nat} {α : Type} (step : Mach → α → Mach)
    (hstep : ∀ mm it, CopiesFresh h0 mm → FrameTo h0 mm (step mm it)) :
    ∀ (l : List α) (m : Mach), CopiesFresh h0 m → FrameTo h0 m (l.foldl step m) := by
  intro l
  induction l with
  | nil => exact fun m hcf => frameTo_rfl hcf
  | cons a as ih =>
    intro m hcf
    have f1 := hstep m a hcf
    exact frameTo_trans f1 (ih (step m a) f1.1)

theorem finalizeF_frame (h0 : Nat) :
    ∀ (fuel : Nat) (af : Bool) (m : Mach) (sid : Nat), CopiesFresh h0 m →
      FrameTo h0 m (finalizeF fuel af m sid).1 := by
  intro fuel
  induction fuel with
  | zero => exact fun af m sid hcf => frameTo_fail hcf
  | succ f ih =>
    intro af m sid hcf
    unfold finalizeF
    split
    · exact frameTo_fail hcf
    · rename_i s hs
      split
      · exact frameTo_rfl hcf
      · split
        · exact frameTo_rfl hcf
        · rename_i c hc
          split
          · exact frameTo_fail hcf
          · rename_i n hn
            have ha : h0 ≤ c := hcf.2 sid s hs c hc
            have ffold : FrameTo h0 m ((keysOf n).foldl (fun mm k =>
                match mm.node? c with
                | none => mm.fail
                | some nn =>
                  match hget nn k with
                  | .vdraft cid =>
                    match finalizeF f af mm cid with
                    | (mm1, fv) => mm1.updNode c (fun n2 => hset n2 k fv)
                  | .vref a => mm.updNode c (fun n2 => hset n2 k (.vref a))
                  | _ => mm) m) := by
              refine frameTo_foldl _ ?_ (keysOf n) m hcf
              intro mm k hcfm
              split
              · exact frameTo_fail hcfm
              · rename_i nn hnn
                split
                · rename_i cid hgd
                  split
                  · rename_i mm1 fv heq
                    have f1 : FrameTo h0 mm mm1 := by
                      have h1 := ih af mm cid hcfm
                      rw [heq] at h1
                      exact h1
                    exact frameTo_trans f1 ((engStep_updNode _ ha).1 f1.1)
                · rename_i a2 hga
                  exact (engStep_updNode _ ha).1 hcfm
                · exact frameTo_rfl hcfm
            dsimp only
            split
            · exact frameTo_trans ffold ((engStep_freezeAddr ha).1 ffold.1)
            · exact ffold

theorem frameTo_finalize {h0 : Nat} {m : Mach} (sid : Nat) (hcf : CopiesFresh h0 m) :
    FrameTo h0 m (finalize m sid).1 :=
  finalizeF_frame h0 (m.states.length + 1) true m sid hcf

theorem copiesFresh_walloc_empty (base : WVal) :
    CopiesFresh (walloc emptyMach base).1.heap.length (walloc emptyMach base).1 := by
  refine ⟨Nat.le_refl _, ?_⟩
  intro j s hsj c hc
  obtain ⟨ext, he⟩ := walloc_mach emptyMach base
  rw [he] at hsj
  simp [emptyMach] at hsj

theorem mica_walloc_empty (base : WVal) :
    ModHasCopyOrAppends (walloc emptyMach base).1 := by
  intro j s hsj hmod
  obtain ⟨ext, he⟩ := walloc_mach emptyMach base
  rw [he] at hsj
  simp [emptyMach] at hsj

theorem craft_eq (base : WVal) (script : Script) :
    craft base script =
      (match createProxy (walloc emptyMach base).1 (walloc emptyMach base).2 none with
       | (m1, .vdraft root) =>
         match script.ret with
         | some w => walloc (runScript m1 root script.ops) w
         | none => finalize (runScript m1 root script.ops) root
       | (m1, _) =>
         match script.ret with
         | some w => walloc m1 w
         | none => (m1, (walloc emptyMach base).2)) := by
  unfold craft
  rcases walloc emptyMach base with ⟨m0, b0⟩
  rfl

/-- C5: the engine never writes into the original value.  Every heap
cell allocated for the base (the entire heap before the root draft is
created) is untouched by the whole `craft` run — reads, writes,
deletions, appends and finalization all land in freshly allocated
copies. -/
theorem C5_copy_isolation (base : WVal) (script : Script) (a : Nat)
    (ha : a < (walloc emptyMach base).1.heap.length) :
    (craft base script).1.heap.get? a = (walloc emptyMach base).1.heap.get? a := by
  have hcf0 := copiesFresh_walloc_empty base
  rw [craft_eq]
  split
  · rename_i m1 root heq
    have e1 : EngStep (walloc emptyMach base).1.heap.length (walloc emptyMach base).1 m1 := by
      have h1 := engStep_createProxy (walloc emptyMach base).1.heap.length
        (walloc emptyMach base).1 (walloc emptyMach base).2 none
      rw [heq] at h1
      exact h1
    have e2 := engStep_runScript (walloc emptyMach base).1.heap.length m1 root script.ops
    have e12 := engStep_trans e1 e2
    split
    · rename_i w hret
      have e3 := engStep_walloc (walloc emptyMach base).1.heap.length
        (runScript m1 root script.ops) w
      exact ((engStep_trans e12 e3).1 hcf0).2 a ha
    · have fr12 := e12.1 hcf0
      have fr3 := frameTo_finalize root fr12.1
      exact (frameTo_trans fr12 fr3).2 a ha
  · rename_i m1 v hnotd heq
    have e1 : EngStep (walloc emptyMach base).1.heap.length (walloc emptyMach base).1 m1 := by
      have h1 := engStep_createProxy (walloc emptyMach base).1.heap.length
        (walloc emptyMach base).1 (walloc emptyMach base).2 none
      rw [heq] at h1
      exact h1
    split
    · rename_i w hret
      have e3 := engStep_walloc (walloc emptyMach base).1.heap.length m1 w
      exact ((engStep_trans e1 e3).1 hcf0).2 a ha
    · exact (e1.1 hcf0).2 a ha

theorem C5_copy_isolation_witness :
    0 < (walloc emptyMach (wobjL [("count", WVal.wnum 0)])).1.heap.length ∧
    (craft (wobjL [("count", WVal.wnum 0)])
        ⟨[Op.oset [] (PKey.ks "count") (WVal.wnum 1)], none⟩).1.heap.get? 0 =
      (walloc emptyMach (wobjL [("count", WVal.wnum 0)])).1.heap.get? 0 :=
  ⟨by decide, C5_copy_isolation (wobjL [("count", WVal.wnum 0)])
    ⟨[Op.oset [] (PKey.ks "count") (WVal.wnum 1)], none⟩ 0 (by decide)⟩

theorem draftMach_eq (base : WVal) (ops : List Op) :
    draftMach base ops =
      (match createProxy (walloc emptyMach base).1 (walloc emptyMach base).2 none with
       | (m1, .vdraft root) => runScript m1 root ops
       | (m1, _) => m1) := by
  unfold draftMach
  rcases walloc emptyMach base with ⟨m0, b0⟩
  rfl

/-- C7 counterexample: after a single fast-path push on a fresh
sequence draft, the root state is `modified` yet its `copy` is still
absent — the claimed modified-implies-copy invariant fails on a
reachable state. -/
theorem C7_counterexample :
    ((draftMach (warrL [WVal.wnum 1]) [Op.opush [] [WVal.wnum 2]]).state? 0).map
      (fun s => (s.modified, s.copy)) = some (true, none) := by rfl

/-- C7 (amended): in every draft state reachable by a script of reads,
writes, deletions and appends, a modified node has a copy or an
initialized pending-append queue; the push fast path initializes
`arrayAppends` instead of creating a copy, so `copy` alone can be
absent at finalization time. -/
theorem C7_modified_implies_copy_or_appends (base : WVal) (ops : List Op)
    (sid : Nat) (s : DraftState)
    (hs : (draftMach base ops).state? sid = some s) (hmod : s.modified = true) :
    s.copy.isSome ∨ s.arrayAppends.isSome := by
  have hm0 := mica_walloc_empty base
  rw [draftMach_eq] at hs
  split at hs
  · rename_i m1 root heq
    have hm1 : ModHasCopyOrAppends m1 := by
      have h1 := (engStep_createProxy (walloc emptyMach base).1.heap.length
        (walloc emptyMach base).1 (walloc emptyMach base).2 none).2 hm0
      rw [heq] at h1
      exact h1
    exact (engStep_runScript (walloc emptyMach base).1.heap.length m1 root ops).2 hm1
      sid s hs hmod
  · rename_i m1 v hnotd heq
    have hm1 : ModHasCopyOrAppends m1 := by
      have h1 := (engStep_createProxy (walloc emptyMach base).1.heap.length
        (walloc emptyMach base).1 (walloc emptyMach base).2 none).2 hm0
      rw [heq] at h1
      exact h1
    exact hm1 sid s hs hmod

theorem C7_modified_implies_copy_or_appends_witness :
    ({ isArr := true, base := 0, copy := none, modified := true, parent := none,
       revoked := false, finalized := false, arrayAppends := some [JVal.vnum 2],
       drafts := [] } : DraftState).copy.isSome ∨
    ({ isArr := true, base := 0, copy := none, modified := true, parent := none,
       revoked := false, finalized := false, arrayAppends := some [JVal.vnum 2],
       drafts := [] } : DraftState).arrayAppends.isSome :=
  C7_modified_implies_copy_or_appends (warrL [WVal.wnum 1]) [Op.opush [] [WVal.wnum 2]]
    0 _ rfl rfl

theorem mbp_rfl (m : Mach) : ModBasePres m m :=
  fun _ s hs => ⟨s, hs, rfl, rfl⟩

theorem mbp_trans {m1 m2 m3 : Mach} (h1 : ModBasePres m1 m2) (h2 : ModBasePres m2 m3) :
    ModBasePres m1 m3 := by
  intro sid s hs
  obtain ⟨s', hs', hm', hb'⟩ := h1 sid s hs
  obtain ⟨s'', hs'', hm'', hb''⟩ := h2 sid s' hs'
  exact ⟨s'', hs'', hm''.trans hm', hb''.trans hb'⟩

theorem mbp_states_eq {m m' : Mach} (h : m'.states = m.states) : ModBasePres m m' := by
  intro sid s hs
  exact ⟨s, by rw [h]; exact hs, rfl, rfl⟩

theorem mbp_setSt {m : Mach} (sid : Nat) (s' : DraftState) {s : DraftState}
    (hs : m.states.get? sid = some s)
    (hm : s'.modified = s.modified) (hb : s'.base = s.base) :
    ModBasePres m (m.setSt sid s') := by
  intro j t ht
  by_cases hj : sid = j
  · subst hj
    have hte : t = s := Option.some.inj (ht.symm.trans hs)
    subst hte
    refine ⟨s', ?_, hm, hb⟩
    rw [setSt_states]
    exact get?_set_self _ _ (lt_len_of_get?_eq_some hs)
  · refine ⟨t, ?_, rfl, rfl⟩
    rw [setSt_states, get?_set_other _ _ hj]
    exact ht

theorem mbp_append {m m' : Mach} (x : DraftState) (h : m'.states = m.states ++ [x]) :
    ModBasePres m m' := by
  intro j t ht
  refine ⟨t, ?_, rfl, rfl⟩
  rw [h, get?_append_lt _ _ (lt_len_of_get?_eq_some ht)]
  exact ht

theorem mbp_modSt {m : Mach} (sid : Nat) (f : DraftState → DraftState)
    (hf : ∀ s, (f s).modified = s.modified ∧ (f s).base = s.base) :
    ModBasePres m (m.modSt sid f) := by
  unfold Mach.modSt
  split
  · rename_i s hs
    exact mbp_setSt sid (f s) hs (hf s).1 (hf s).2
  · exact mbp_rfl _

theorem mbp_materialize (m : Mach) (sid : Nat) : ModBasePres m (materializeAppends m sid) := by
  unfold materializeAppends
  split
  · exact mbp_rfl _
  · rename_i s hs
    split
    · rename_i ap hap
      split
      · rename_i es hes
        have hs2 : (m.alloc (.arr (es ++ ap))).states.get? sid = some s := by
          rw [alloc_states]
          exact hs
        exact mbp_trans (mbp_states_eq (alloc_states m (.arr (es ++ ap))))
          (mbp_setSt sid _ hs2 rfl rfl)
      · exact mbp_rfl _
    · exact mbp_rfl _

theorem mbp_materializeIf (m : Mach) (sid : Nat) (b : Bool) :
    ModBasePres m (if b = true then materializeAppends m sid else m) := by
  cases b with
  | true => simpa using mbp_materialize m sid
  | false => simpa using mbp_rfl m

theorem mbp_createProxy (m : Mach) (v : JVal) (parent : Option Nat) :
    ModBasePres m (createProxy m v parent).1 := by
  unfold createProxy
  split
  · rename_i a
    split
    · rename_i n hn
      exact mbp_append _ rfl
    · exact mbp_rfl _
  · exact mbp_rfl _

theorem mbp_wrapChild (m1 : Mach) (sid : Nat) (k : PKey) (value : JVal) :
    ModBasePres m1 (wrapChild m1 sid k value).1 := by
  unfold wrapChild
  split
  · exact mbp_rfl _
  · rename_i s1 hs1
    split
    · exact mbp_rfl _
    · split
      · rename_i m2 cid heq
        have e2 : ModBasePres m1 m2 := by
          have h1 := mbp_createProxy m1 value (some sid)
          rw [heq] at h1
          exact h1
        have e3 : ModBasePres m2
            (m2.modSt sid (fun s2 => { s2 with drafts := setDraft s2.drafts k cid })) :=
          mbp_modSt sid _ (fun s2 => ⟨rfl, rfl⟩)
        have e23 := mbp_trans e2 e3
        have e4 : ModBasePres
            (m2.modSt sid (fun s2 => { s2 with drafts := setDraft s2.drafts k cid }))
            (match (m2.modSt sid (fun s2 => { s2 with drafts := setDraft s2.drafts k cid })).state? sid with
             | some s3 =>
               match s3.copy with
               | some _ => m2.modSt sid (fun s2 => { s2 with drafts := setDraft s2.drafts k cid })
               | none =>
                 match (m2.modSt sid (fun s2 => { s2 with drafts := setDraft s2.drafts k cid })).node? s3.base with
                 | some n =>
                   ((m2.modSt sid (fun s2 => { s2 with drafts := setDraft s2.drafts k cid })).alloc n).setSt sid
                     { s3 with copy := some (m2.modSt sid (fun s2 => { s2 with drafts := setDraft s2.drafts k cid })).allocAddr }
                 | none => (m2.modSt sid (fun s2 => { s2 with drafts := setDraft s2.drafts k cid })).fail
             | none => (m2.modSt sid (fun s2 => { s2 with drafts := setDraft s2.drafts k cid })).fail) := by
          split
          · rename_i s3 hs3
            split
            · exact mbp_rfl _
            · split
              · rename_i n hn
                have hs4 : ((m2.modSt sid (fun s2 =>
                    { s2 with drafts := setDraft s2.drafts k cid })).alloc n).states.get? sid =
                    some s3 := by
                  rw [alloc_states]
                  exact hs3
                exact mbp_trans (mbp_states_eq (alloc_states _ n))
                  (mbp_setSt sid _ hs4 rfl rfl)
              · exact mbp_rfl _
          · exact mbp_rfl _
        have e1234 := mbp_trans e23 e4
        dsimp only
        split
        · rename_i s4 hs4
          split
          · exact mbp_trans e1234 (mbp_states_eq (updNode_states _ _ _))
          · exact mbp_trans e1234 (mbp_rfl _)
        · exact mbp_trans e1234 (mbp_rfl _)
      · rename_i m2 other hnotd heq
        have h1 := mbp_createProxy m1 value (some sid)
        rw [heq] at h1
        exact h1

theorem mbp_getPropRest (m : Mach) (sid : Nat) (k : PKey) (value : JVal) :
    ModBasePres m (getPropRest m sid k value).1 := by
  unfold getPropRest
  split
  · exact mbp_rfl _
  · rename_i a
    split
    · exact mbp_rfl _
    · rename_i s hs
      split
      · exact mbp_rfl _
      · rename_i bnode hb
        split
        · exact mbp_trans (mbp_materializeIf m sid (appendsNonempty s))
            (mbp_wrapChild _ sid k _)
        · exact mbp_rfl _
  · exact mbp_rfl _

theorem mbp_getProp (m : Mach) (sid : Nat) (k : PKey) :
    ModBasePres m (getProp m sid k).1 := by
  unfold getProp
  split
  · exact mbp_rfl _
  · rename_i s hs
    split
    · split
      · exact mbp_rfl _
      · exact mbp_rfl _
    · split
      · exact mbp_rfl _
      · rename_i srcNode hsrc
        split
        · rename_i i ap hk hap
          split
          · split
            · rename_i es hbase
              split
              · split
                · dsimp only
                  split
                  · exact mbp_rfl _
                  · exact mbp_rfl _
                · dsimp only
                  split
                  · split
                    · rename_i m2 cid heq
                      have e2 : ModBasePres m m2 := by
                        have h3 := mbp_createProxy m
                          ((ap.get? (i - es.length)).getD JVal.vundef) (some sid)
                        rw [heq] at h3
                        exact h3
                      exact mbp_trans e2 (mbp_modSt sid _ (fun s2 => ⟨rfl, rfl⟩))
                    · rename_i m2 other hnotd heq
                      have h3 := mbp_createProxy m
                        ((ap.get? (i - es.length)).getD JVal.vundef) (some sid)
                      rw [heq] at h3
                      exact h3
                  · exact mbp_rfl _
              · exact mbp_getPropRest m sid _ _
            · exact mbp_rfl _
          · exact mbp_getPropRest m sid _ _
        · exact mbp_getPropRest m sid _ _

theorem mbp_resolvePath : ∀ (path : List PKey) (m : Mach) (sid : Nat),
    ModBasePres m (resolvePath m sid path).1 := by
  intro path
  induction path with
  | nil => exact fun m sid => mbp_rfl m
  | cons k rest ih =>
    intro m sid
    unfold resolvePath
    split
    · rename_i m1 sid' heq
      have e1 : ModBasePres m m1 := by
        have h1 := mbp_getProp m sid k
        rw [heq] at h1
        exact h1
      exact mbp_trans e1 (ih m1 sid')
    · rename_i m1 v hnotd heq
      have h1 := mbp_getProp m sid k
      rw [heq] at h1
      exact h1

theorem mbp_runScript_readOnly (root : Nat) :
    ∀ (ops : List Op) (m : Mach), (∀ op ∈ ops, readOnlyOp op) →
      ModBasePres m (runScript m root ops) := by
  intro ops
  induction ops with
  | nil => exact fun m _ => mbp_rfl m
  | cons op rest ih =>
    intro m hro
    have hop : readOnlyOp op := hro op (List.mem_cons_self _ _)
    cases op with
    | oget path k =>
      unfold runScript
      simp only [List.foldl_cons]
      have e1 : ModBasePres m (runOp m root (.oget path k)) := by
        simp only [runOp]
        split
        · rename_i m1 sid heq
          have h1 : ModBasePres m m1 := by
            have h2 := mbp_resolvePath path m root
            rw [heq] at h2
            exact h2
          exact mbp_trans h1 (mbp_getProp m1 sid k)
        · rename_i m1 heq
          have h2 := mbp_resolvePath path m root
          rw [heq] at h2
          exact h2
      exact mbp_trans e1 (ih (runOp m root (.oget path k))
        (fun o ho => hro o (List.mem_cons_of_mem _ ho)))
    | oset path k w => exact absurd hop (by simp [readOnlyOp])
    | odel path k => exact absurd hop (by simp [readOnlyOp])
    | opush path items => exact absurd hop (by simp [readOnlyOp])

theorem walloc_empty_states (base : WVal) : (walloc emptyMach base).1.states = [] := by
  obtain ⟨ext, he⟩ := walloc_mach emptyMach base
  rw [he]
  rfl

theorem walloc_draftable (base : WVal) (hdr : base.draftable = true) :
    ∃ a0 cell, (walloc emptyMach base).2 = JVal.vref a0 ∧
      (walloc emptyMach base).1.heap.get? a0 = some cell := by
  cases base with
  | wnum n => simp [WVal.draftable] at hdr
  | wstr s => simp [WVal.draftable] at hdr
  | wbool b => simp [WVal.draftable] at hdr
  | wundef => simp [WVal.draftable] at hdr
  | wnothing => simp [WVal.draftable] at hdr
  | wobj fs =>
    refine ⟨(wallocFields emptyMach fs).1.allocAddr,
      ⟨.obj (wallocFields emptyMach fs).2, false⟩, ?_, ?_⟩
    · unfold walloc
      rcases hw : wallocFields emptyMach fs with ⟨m1, fjs⟩
      rfl
    · unfold walloc
      rcases hw : wallocFields emptyMach fs with ⟨m1, fjs⟩
      dsimp only [Mach.alloc, Mach.allocAddr]
      exact get?_append_self m1.heap _ []
  | warr es =>
    refine ⟨(wallocElems emptyMach es).1.allocAddr,
      ⟨.arr (wallocElems emptyMach es).2, false⟩, ?_, ?_⟩
    · unfold walloc
      rcases hw : wallocElems emptyMach es with ⟨m1, ejs⟩
      rfl
    · unfold walloc
      rcases hw : wallocElems emptyMach es with ⟨m1, ejs⟩
      dsimp only [Mach.alloc, Mach.allocAddr]
      exact get?_append_self m1.heap _ []

theorem finalizeF_unmodified (f : Nat) (af : Bool) (m : Mach) (sid : Nat)
    {s : DraftState} (hs : m.state? sid = some s) (hm : s.modified = false) :
    finalizeF (f + 1) af m sid = (m, .vref s.base) := by
  unfold finalizeF
  rw [hs]
  simp [hm]

/-- C3: a draft that is only read — including deep reads of nested
draftable children, which do create child proxies and parent copies —
finalizes to the exact original reference: `craft` returns the very
root reference the base allocation produced, and every heap cell of
the original base tree is untouched, so sharing is pointer-identity at
every level of nesting. -/
theorem C3_noop_identity (base : WVal) (ops : List Op)
    (hro : ∀ op ∈ ops, readOnlyOp op) (hdr : base.draftable = true) :
    (craft base ⟨ops, none⟩).2 = (walloc emptyMach base).2 ∧
    ∀ a, a < (walloc emptyMach base).1.heap.length →
      (craft base ⟨ops, none⟩).1.heap.get? a = (walloc emptyMach base).1.heap.get? a := by
  obtain ⟨a0, cell, hv, hcell⟩ := walloc_draftable base hdr
  have hst0 : (walloc emptyMach base).1.states = [] := walloc_empty_states base
  have hnode : (walloc emptyMach base).1.node? a0 = some cell.node := by
    unfold Mach.node?
    rw [hcell]
    rfl
  have hcp : createProxy (walloc emptyMach base).1 (JVal.vref a0) none =
      ({ (walloc emptyMach base).1 with states :=
          [{ isArr := (match cell.node with | .arr _ => true | .obj _ => false),
             base := a0, copy := none, modified := false, parent := none,
             revoked := false, finalized := false, arrayAppends := none, drafts := [] }] },
        JVal.vdraft 0) := by
    unfold createProxy
    dsimp only
    rw [hnode]
    dsimp only
    rw [hst0]
    rfl
  have hcf0 := copiesFresh_walloc_empty base
  rw [craft_eq, hv, hcp]
  dsimp only
  set M1 : Mach := { (walloc emptyMach base).1 with states :=
      [{ isArr := (match cell.node with | .arr _ => true | .obj _ => false),
         base := a0, copy := none, modified := false, parent := none,
         revoked := false, finalized := false, arrayAppends := none, drafts := [] }] } with hM1
  have hs0 : M1.states.get? 0 = some
      { isArr := (match cell.node with | .arr _ => true | .obj _ => false),
        base := a0, copy := none, modified := false, parent := none,
        revoked := false, finalized := false, arrayAppends := none, drafts := [] } := rfl
  obtain ⟨s', hs', hm', hb'⟩ := mbp_runScript_readOnly 0 ops M1 hro 0 _ hs0
  constructor
  · have hfin := finalizeF_unmodified (runScript M1 0 ops).states.length true
      (runScript M1 0 ops) 0 hs' hm'
    show (finalize (runScript M1 0 ops) 0).2 = JVal.vref a0
    unfold finalize
    rw [hfin]
    dsimp only
    rw [hb']
  · intro a ha
    have e1 : EngStep (walloc emptyMach base).1.heap.length (walloc emptyMach base).1 M1 := by
      have h1 := engStep_createProxy (walloc emptyMach base).1.heap.length
        (walloc emptyMach base).1 (JVal.vref a0) none
      rw [hcp] at h1
      exact h1
    have e2 := engStep_runScript (walloc emptyMach base).1.heap.length M1 0 ops
    have fr12 := (engStep_trans e1 e2).1 hcf0
    have fr3 := frameTo_finalize 0 fr12.1
    exact (frameTo_trans fr12 fr3).2 a ha

theorem C3_noop_identity_witness :
    (craft (wobjL [("a", wobjL [("b", WVal.wnum 1)])])
        ⟨[Op.oget [PKey.ks "a"] (PKey.ks "b")], none⟩).2 =
      (walloc emptyMach (wobjL [("a", wobjL [("b", WVal.wnum 1)])])).2 ∧
    (craft (wobjL [("a", wobjL [("b", WVal.wnum 1)])])
        ⟨[Op.oget [PKey.ks "a"] (PKey.ks "b")], none⟩).1.heap.get? 0 =
      (walloc emptyMach (wobjL [("a", wobjL [("b", WVal.wnum 1)])])).1.heap.get? 0 := by
  have h := C3_noop_identity (wobjL [("a", wobjL [("b", WVal.wnum 1)])])
    [Op.oget [PKey.ks "a"] (PKey.ks "b")]
    (fun op hop => by
      rw [List.mem_singleton] at hop
      subst hop
      trivial)
    rfl
  exact ⟨h.1, h.2 0 (by decide)⟩

theorem writeCopy_state (m1 : Mach) (sid : Nat) (k : PKey) (f : Bool → HNode → HNode)
    {s1 : DraftState} {c : Nat}
    (hs1 : m1.states.get? sid = some s1) (hc : s1.copy = some c) :
    (writeCopy m1 sid k f).states.get? sid =
      some { s1 with drafts := delDraft s1.drafts k } := by
  unfold writeCopy
  rw [show m1.state? sid = some s1 from hs1]
  dsimp only
  rw [hc]
  dsimp only
  unfold Mach.modSt
  rw [show (m1.updNode c (f s1.isArr)).states.get? sid = some s1 from by
    rw [updNode_states]; exact hs1]
  dsimp only
  rw [setSt_states, updNode_states,
    get?_set_self _ _ (lt_len_of_get?_eq_some hs1)]
  rw [hc]

/-- C8 counterexample: the `delete` operator on a key that is not
present is not a state no-op — on the record draft of `{a: 1}`,
`delete draft.b` flags the root state modified and creates a copy, and
the finalized result is a fresh object rather than the base
reference. -/
theorem C8_counterexample :
    ((draftMach (wobjL [("a", WVal.wnum 1)]) [Op.odel [] (PKey.ks "b")]).state? 0).map
        (fun s => (s.modified, s.copy.isSome)) = some (true, true) ∧
    (craft (wobjL [("a", WVal.wnum 1)]) ⟨[Op.odel [] (PKey.ks "b")], none⟩).2 = JVal.vref 1 ∧
    (walloc emptyMach (wobjL [("a", WVal.wnum 1)])).2 = JVal.vref 0 := by
  exact ⟨rfl, rfl, rfl⟩

/-- C8 (amended): (i) writing the deletion sentinel to a key that is
not currently present is an exact no-op (the machine is unchanged, so
`modified` stays false, no copy is created and finalize still returns
the base); (ii) writing a value identical to the current one is
likewise an exact no-op, provided no pending appends are queued; but
(iii) the `delete` operator always flags the node modified and creates
a copy, even for an absent key — it raises no error, yet the draft
state does change. -/
theorem C8_defined_noops :
    (∀ (m : Mach) (sid : Nat) (s : DraftState) (k : PKey) (n : HNode),
      m.state? sid = some s → appendsNonempty s = false →
      m.node? (s.copy.getD s.base) = some n → hhas n k = false →
      setProp m sid k JVal.vnothing = m) ∧
    (∀ (m : Mach) (sid : Nat) (s : DraftState) (k : PKey) (n : HNode) (v : JVal),
      m.state? sid = some s → appendsNonempty s = false →
      m.node? (s.copy.getD s.base) = some n → v ≠ JVal.vnothing →
      (∀ vs, v ≠ JVal.vdraft vs) → hget n k = v →
      setProp m sid k v = m) ∧
    (∀ (m : Mach) (sid : Nat) (s : DraftState) (k : PKey) (n : HNode),
      m.state? sid = some s → s.modified = false → m.node? s.base = some n →
      ∃ s', (deleteProp m sid k).state? sid = some s' ∧
        s'.modified = true ∧ s'.copy.isSome = true) := by
  refine ⟨?_, ?_, ?_⟩
  · intro m sid s k n hs hap hsrc habs
    unfold setProp
    rw [hs]
    dsimp only
    rw [hap, if_neg Bool.false_ne_true]
    unfold setPropCore
    rw [hs]
    dsimp only
    rw [hsrc]
    dsimp only
    rw [if_pos rfl, habs]
    rfl
  · intro m sid s k n v hs hap hsrc hv hnd hcur
    unfold setProp
    rw [hs]
    dsimp only
    rw [hap, if_neg Bool.false_ne_true]
    unfold setPropCore
    rw [hs]
    dsimp only
    rw [hsrc]
    dsimp only
    rw [if_neg hv]
    cases v with
    | vdraft vs => exact absurd rfl (hnd vs)
    | vnothing => exact absurd rfl hv
    | vnum a => dsimp only; rw [if_pos hcur]
    | vstr a => dsimp only; rw [if_pos hcur]
    | vbool a => dsimp only; rw [if_pos hcur]
    | vundef => dsimp only; rw [if_pos hcur]
    | vnull => dsimp only; rw [if_pos hcur]
    | vref a => dsimp only; rw [if_pos hcur]
  · intro m sid s k n hs hm hb
    unfold deleteProp
    cases hc : s.copy with
    | some c =>
      have hmc := markChangedF_self_copySome m.states.length hs hm hc
      refine ⟨{ s with modified := true, drafts := delDraft s.drafts k }, ?_, rfl, ?_⟩
      · exact writeCopy_state _ sid k _ hmc hc
      · rw [show ({ s with modified := true, drafts := delDraft s.drafts k } :
          DraftState).copy = s.copy from rfl, hc]
        rfl
    | none =>
      have hmc := (markChangedF_self_copyNone m.states.length hs hm hc hb).1
      refine ⟨{ s with modified := true, copy := some (m.heap.length), drafts := delDraft s.drafts k }, ?_, rfl, rfl⟩
      exact writeCopy_state _ sid k _ hmc rfl

theorem C8_defined_noops_witness :
    (setProp (draftMach (wobjL [("a", WVal.wnum 1)]) []) 0 (PKey.ks "b") JVal.vnothing =
      draftMach (wobjL [("a", WVal.wnum 1)]) []) ∧
    (setProp (draftMach (wobjL [("a", WVal.wnum 1)]) []) 0 (PKey.ks "a") (JVal.vnum 1) =
      draftMach (wobjL [("a", WVal.wnum 1)]) []) ∧
    (∃ s', (deleteProp (draftMach (wobjL [("a", WVal.wnum 1)]) []) 0 (PKey.ks "b")).state? 0 =
      some s' ∧ s'.modified = true ∧ s'.copy.isSome = true) := by
  refine ⟨?_, ?_, ?_⟩
  · exact C8_defined_noops.1 (draftMach (wobjL [("a", WVal.wnum 1)]) []) 0
      { isArr := false, base := 0, copy := none, modified := false, parent := none,
        revoked := false, finalized := false, arrayAppends := none, drafts := [] }
      (PKey.ks "b") (.obj [("a", JVal.vnum 1)]) rfl rfl rfl rfl
  · exact C8_defined_noops.2.1 (draftMach (wobjL [("a", WVal.wnum 1)]) []) 0
      { isArr := false, base := 0, copy := none, modified := false, parent := none,
        revoked := false, finalized := false, arrayAppends := none, drafts := [] }
      (PKey.ks "a") (.obj [("a", JVal.vnum 1)]) (JVal.vnum 1) rfl rfl rfl
      (fun h => JVal.noConfusion h) (fun vs h => JVal.noConfusion h) rfl
  · exact C8_defined_noops.2.2
      (draftMach (wobjL [("a", WVal.wnum 1)]) []) 0
      { isArr := false, base := 0, copy := none, modified := false, parent := none,
        revoked := false, finalized := false, arrayAppends := none, drafts := [] }
      (PKey.ks "b") (.obj [("a", JVal.vnum 1)]) rfl rfl rfl

/-- C1: the append fast path loses the pushed elements — `finalize`
never merges a state's pending `arrayAppends` queue, and a node
modified solely via push has no copy, so `state.copy!` finalizes to
null. Pushing 4 onto the draft of `[1, 2, 3]` yields `null` (not
`[1, 2, 3, 4]`), and in the nested case the parent's field becomes
null; the claimed merged result is not produced. -/
theorem C1_push_lost :
    craftRB (warrL [WVal.wnum 1, WVal.wnum 2, WVal.wnum 3])
        ⟨[Op.opush [] [WVal.wnum 4]], none⟩ = RVal.rnull ∧
    craftRB (wobjL [("items", warrL [WVal.wnum 1, WVal.wnum 2, WVal.wnum 3])])
        ⟨[Op.opush [PKey.ks "items"] [WVal.wnum 4]], none⟩ =
      RVal.robj [("items", RVal.rnull)] ∧
    RVal.rnull ≠ RVal.rarr [RVal.rnum 1, RVal.rnum 2, RVal.rnum 3, RVal.rnum 4] := by
  exact ⟨rfl, rfl, fun h => RVal.noConfusion h⟩

/-- C2: sentinel deletion works for records (deleting `b` from
`{a: 1, b: 2, c: 3}` yields `{a: 1, c: 3}`), but `finalize` has no
sequence-compaction step: marking indices 1 and 3 of `[1, 2, 3, 4, 5]`
with the deletion sentinel leaves the sentinels in place in the
result, `[1, nothing, 3, nothing, 5]`, instead of the claimed
contiguous `[1, 3, 5]`. -/
theorem C2_sentinel_deletion :
    craftRB (wobjL [("a", WVal.wnum 1), ("b", WVal.wnum 2), ("c", WVal.wnum 3)])
        ⟨[Op.oset [] (PKey.ks "b") WVal.wnothing], none⟩ =
      RVal.robj [("a", RVal.rnum 1), ("c", RVal.rnum 3)] ∧
    craftRB (warrL [WVal.wnum 1, WVal.wnum 2, WVal.wnum 3, WVal.wnum 4, WVal.wnum 5])
        ⟨[Op.oset [] (PKey.ki 1) WVal.wnothing, Op.oset [] (PKey.ki 3) WVal.wnothing],
          none⟩ =
      RVal.rarr [RVal.rnum 1, RVal.rnothing, RVal.rnum 3, RVal.rnothing, RVal.rnum 5] ∧
    RVal.rarr [RVal.rnum 1, RVal.rnothing, RVal.rnum 3, RVal.rnothing, RVal.rnum 5] ≠
      RVal.rarr [RVal.rnum 1, RVal.rnum 3, RVal.rnum 5] := by
  refine ⟨rfl, rfl, ?_⟩
  simp

/-- C9: `craft` calls `finalize(state)` without threading the
configuration, and `finalize`'s autoFreeze parameter defaults to true,
so the result of a modified draft is always frozen — the configured
autoFreeze=false is never honored. On base `{count: 0}` with
`draft.count = 1`, the result is the copy at address 1 and it is
frozen; calling `finalize` directly with autoFreeze=false (as a
config-honoring `craft` would) leaves the same copy unfrozen. -/
theorem C9_freeze_ignores_config :
    (craft (wobjL [("count", WVal.wnum 0)])
        ⟨[Op.oset [] (PKey.ks "count") (WVal.wnum 1)], none⟩).2 = JVal.vref 1 ∧
    ((craft (wobjL [("count", WVal.wnum 0)])
        ⟨[Op.oset [] (PKey.ks "count") (WVal.wnum 1)], none⟩).1.heap.get? 1).map
      HCell.frozen = some true ∧
    ((finalizeF 2 false
        (draftMach (wobjL [("count", WVal.wnum 0)])
          [Op.oset [] (PKey.ks "count") (WVal.wnum 1)]) 0).1.heap.get? 1).map
      HCell.frozen = some false := by
  exact ⟨rfl, rfl, rfl⟩

theorem lt_heap_len_of_node? {m : Mach} {a : Nat} {n : HNode} (h : m.node? a = some n) :
    a < m.heap.length := by
  unfold Mach.node? at h
  cases hg : m.heap.get? a with
  | none => rw [hg] at h; exact Option.noConfusion h
  | some c => exact lt_len_of_get?_eq_some hg

theorem updNode_node_self {m : Mach} {a : Nat} {n : HNode} (f : HNode → HNode)
    (h : m.node? a = some n) : (m.updNode a f).node? a = some (f n) := by
  unfold Mach.node? at h
  cases hg : m.heap.get? a with
  | none => rw [hg] at h; exact Option.noConfusion h
  | some c =>
    rw [hg] at h
    have hn : c.node = n := Option.some.inj h
    unfold Mach.updNode Mach.node?
    rw [hg]
    dsimp only
    rw [get?_set_self _ _ (lt_len_of_get?_eq_some hg)]
    rw [hn]
    rfl

theorem markChangedF_modified (f : Nat) {m : Mach} {sid : Nat} {s : DraftState}
    (hs : m.state? sid = some s) (hm : s.modified = true) :
    markChangedF (f + 1) m sid = m := by
  unfold markChangedF
  rw [hs]
  dsimp only
  rw [hm, if_pos rfl]

theorem writeCopy_node {m1 : Mach} {sid : Nat} (k : PKey) (f : Bool → HNode → HNode)
    {s1 : DraftState} {c : Nat} {n : HNode}
    (hs1 : m1.states.get? sid = some s1) (hc : s1.copy = some c)
    (hn : m1.node? c = some n) :
    (writeCopy m1 sid k f).node? c = some (f s1.isArr n) := by
  unfold writeCopy
  rw [show m1.state? sid = some s1 from hs1]
  dsimp only
  rw [hc]
  dsimp only
  have hmn : ((m1.updNode c (f s1.isArr)).modSt sid
      (fun s2 => { s2 with drafts := delDraft s2.drafts k })).node? c =
      (m1.updNode c (f s1.isArr)).node? c := by
    unfold Mach.node?
    rw [modSt_heap]
  rw [hmn]
  exact updNode_node_self _ hn

theorem setProp_sentinel_eq (m : Mach) (sid i : Nat) (s : DraftState) (es : List JVal)
    (hs : m.state? sid = some s) (hapF : appendsNonempty s = false)
    (hsrc : m.node? (s.copy.getD s.base) = some (HNode.arr es)) (hi : i < es.length) :
    setProp m sid (PKey.ki i) JVal.vnothing =
      writeCopy (markChanged m sid) sid (PKey.ki i)
        (fun isA n => if isA then hset n (PKey.ki i) JVal.vnothing
          else hdel n (PKey.ki i)) := by
  unfold setProp
  rw [hs]
  dsimp only
  rw [hapF, if_neg Bool.false_ne_true]
  unfold setPropCore
  rw [hs]
  dsimp only
  rw [hsrc]
  dsimp only
  rw [if_pos rfl]
  have hhasT : hhas (HNode.arr es) (PKey.ki i) = true := decide_eq_true hi
  rw [hhasT, if_pos rfl]

theorem arrRead_facts (mf : Mach) (sid i : Nat) (sf : DraftState) (cf : Nat)
    (fes : List JVal)
    (hfs : mf.state? sid = some sf) (harr : sf.isArr = true)
    (hapf : sf.arrayAppends = none) (hcf : sf.copy = some cf)
    (hn : mf.node? cf = some (HNode.arr fes))
    (hv : fes.get? i = some JVal.vnothing) :
    (getProp mf sid (PKey.ki i)).2 = JVal.vnothing ∧
    (getProp mf sid (PKey.ks "length")).2 = JVal.vnum fes.length ∧
    hasProp mf sid (PKey.ki i) = true := by
  have hsrc' : mf.node? (sf.copy.getD sf.base) = some (HNode.arr fes) := by
    rw [hcf]; exact hn
  have hane : appendsNonempty sf = false := by unfold appendsNonempty; rw [hapf]
  refine ⟨?_, ?_, ?_⟩
  · unfold getProp
    rw [hfs]
    dsimp only
    rw [if_neg (fun h => PKey.noConfusion h.2.1)]
    rw [hsrc']
    dsimp only
    rw [hapf]
    dsimp only
    have hg : hget (HNode.arr fes) (PKey.ki i) = JVal.vnothing := by
      unfold hget
      dsimp only
      rw [hv]
    rw [hg]
    rfl
  · unfold getProp
    rw [hfs]
    dsimp only
    rw [if_neg (fun h => Bool.false_ne_true (hane ▸ h.2.2))]
    rw [hsrc']
    dsimp only
    have hg2 : hget (HNode.arr fes) (PKey.ks "length") = JVal.vnum fes.length := by
      unfold hget
      dsimp only
      rw [if_pos rfl]
    rw [hg2]
    rfl
  · unfold hasProp
    rw [hfs]
    dsimp only
    rw [hsrc']
    dsimp only
    exact decide_eq_true (lt_len_of_get?_eq_some hv)

theorem writeCopy_node_other {m1 : Mach} {sid : Nat} (k : PKey) (f : Bool → HNode → HNode)
    {s1 : DraftState} {c : Nat}
    (hs1 : m1.states.get? sid = some s1) (hc : s1.copy = some c)
    {a : Nat} (hne : c ≠ a) :
    (writeCopy m1 sid k f).node? a = m1.node? a := by
  unfold writeCopy
  rw [show m1.state? sid = some s1 from hs1]
  dsimp only
  rw [hc]
  dsimp only
  have hmn : ((m1.updNode c (f s1.isArr)).modSt sid
      (fun s2 => { s2 with drafts := delDraft s2.drafts k })).node? a =
      (m1.updNode c (f s1.isArr)).node? a := by
    unfold Mach.node?
    rw [modSt_heap]
  rw [hmn]
  unfold Mach.node?
  rw [updNode_heap_other _ _ _ hne]

theorem arrRead_facts2 (mf : Mach) (sid i : Nat) (sf : DraftState) (cf : Nat)
    (fes es0 : List JVal)
    (hfs : mf.state? sid = some sf) (harr : sf.isArr = true)
    (hapf : sf.arrayAppends = some []) (hcf : sf.copy = some cf)
    (hn : mf.node? cf = some (HNode.arr fes))
    (hv : fes.get? i = some JVal.vnothing)
    (hb : mf.node? sf.base = some (HNode.arr es0)) :
    (getProp mf sid (PKey.ki i)).2 = JVal.vnothing ∧
    (getProp mf sid (PKey.ks "length")).2 = JVal.vnum fes.length ∧
    hasProp mf sid (PKey.ki i) = true := by
  have hsrc' : mf.node? (sf.copy.getD sf.base) = some (HNode.arr fes) := by
    rw [hcf]; exact hn
  have hane : appendsNonempty sf = false := by
    unfold appendsNonempty
    rw [hapf]
    exact rfl
  refine ⟨?_, ?_, ?_⟩
  · unfold getProp
    rw [hfs]
    dsimp only
    rw [if_neg (fun h => PKey.noConfusion h.2.1)]
    rw [hsrc']
    dsimp only
    rw [hapf]
    dsimp only
    rw [harr]
    rw [if_pos rfl]
    rw [hb]
    dsimp only
    rw [if_neg (fun h => Nat.lt_irrefl i (Nat.lt_of_lt_of_le h.2 h.1))]
    have hg : hget (HNode.arr fes) (PKey.ki i) = JVal.vnothing := by
      unfold hget
      dsimp only
      rw [hv]
    rw [hg]
    rfl
  · unfold getProp
    rw [hfs]
    dsimp only
    rw [if_neg (fun h => Bool.false_ne_true (hane ▸ h.2.2))]
    rw [hsrc']
    dsimp only
    have hg2 : hget (HNode.arr fes) (PKey.ks "length") = JVal.vnum fes.length := by
      unfold hget
      dsimp only
      rw [if_pos rfl]
    rw [hg2]
    rfl
  · unfold hasProp
    rw [hfs]
    dsimp only
    rw [hsrc']
    dsimp only
    exact decide_eq_true (lt_len_of_get?_eq_some hv)

theorem setProp_sentinel_append_eq (m : Mach) (sid i : Nat) (s : DraftState)
    (ap es0 : List JVal)
    (hs : m.state? sid = some s) (hap : s.arrayAppends = some ap)
    (hne : 0 < ap.length)
    (hb : m.node? s.base = some (HNode.arr es0)) (hi : i < es0.length + ap.length) :
    setProp m sid (PKey.ki i) JVal.vnothing =
      writeCopy
        (markChanged ((m.alloc (HNode.arr (es0 ++ ap))).setSt sid
          { s with copy := some m.heap.length, arrayAppends := none }) sid) sid
        (PKey.ki i)
        (fun isA n => if isA then hset n (PKey.ki i) JVal.vnothing
          else hdel n (PKey.ki i)) := by
  have hsl : sid < m.states.length := lt_len_of_get?_eq_some
    (show m.states.get? sid = some s from hs)
  have hs1 : ((m.alloc (HNode.arr (es0 ++ ap))).setSt sid
      { s with copy := some m.heap.length, arrayAppends := none }).state? sid =
      some { s with copy := some m.heap.length, arrayAppends := none } := by
    show (m.states.set sid _).get? sid = _
    exact get?_set_self _ _ hsl
  have hn1 : ((m.alloc (HNode.arr (es0 ++ ap))).setSt sid
      { s with copy := some m.heap.length, arrayAppends := none }).node? m.heap.length =
      some (HNode.arr (es0 ++ ap)) := by
    show ((m.heap ++ [⟨HNode.arr (es0 ++ ap), false⟩] : List HCell).get?
      m.heap.length).map HCell.node = _
    rw [get?_append_self]
    rfl
  unfold setProp
  rw [hs]
  dsimp only
  rw [show appendsNonempty s = true from by
    unfold appendsNonempty
    rw [hap]
    exact decide_eq_true hne]
  rw [if_pos rfl]
  rw [show materializeAppends m sid = (m.alloc (HNode.arr (es0 ++ ap))).setSt sid
      { s with copy := some m.heap.length, arrayAppends := none } from by
    unfold materializeAppends
    rw [hs]
    dsimp only
    rw [hap]
    dsimp only
    rw [hb]
    exact rfl]
  unfold setPropCore
  rw [hs1]
  dsimp only [Option.getD]
  rw [hn1]
  dsimp only
  rw [if_pos rfl]
  rw [show hhas (HNode.arr (es0 ++ ap)) (PKey.ki i) = true from
    decide_eq_true (show i < (es0 ++ ap).length from by
      rw [List.length_append]
      exact hi)]
  rw [if_pos rfl]

theorem materialized_key (m : Mach) (sid : Nat) (s : DraftState) (ap es0 : List JVal)
    (hs : m.state? sid = some s) (hisArr : s.isArr = true) :
    ∃ s2, (markChanged ((m.alloc (HNode.arr (es0 ++ ap))).setSt sid
          { s with copy := some m.heap.length, arrayAppends := none }) sid).states.get?
        sid = some s2 ∧
      s2.copy = some m.heap.length ∧
      (markChanged ((m.alloc (HNode.arr (es0 ++ ap))).setSt sid
          { s with copy := some m.heap.length, arrayAppends := none }) sid).node?
        m.heap.length = some (HNode.arr (es0 ++ ap)) ∧
      s2.isArr = true ∧ s2.arrayAppends = none := by
  have hsl : sid < m.states.length := lt_len_of_get?_eq_some
    (show m.states.get? sid = some s from hs)
  have hs1 : ((m.alloc (HNode.arr (es0 ++ ap))).setSt sid
      { s with copy := some m.heap.length, arrayAppends := none }).state? sid =
      some { s with copy := some m.heap.length, arrayAppends := none } := by
    show (m.states.set sid _).get? sid = _
    exact get?_set_self _ _ hsl
  have hn1 : ((m.alloc (HNode.arr (es0 ++ ap))).setSt sid
      { s with copy := some m.heap.length, arrayAppends := none }).node? m.heap.length =
      some (HNode.arr (es0 ++ ap)) := by
    show ((m.heap ++ [⟨HNode.arr (es0 ++ ap), false⟩] : List HCell).get?
      m.heap.length).map HCell.node = _
    rw [get?_append_self]
    rfl
  rcases Bool.eq_false_or_eq_true s.modified with hm | hm
  · have heq : markChanged ((m.alloc (HNode.arr (es0 ++ ap))).setSt sid
        { s with copy := some m.heap.length, arrayAppends := none }) sid =
        (m.alloc (HNode.arr (es0 ++ ap))).setSt sid
          { s with copy := some m.heap.length, arrayAppends := none } :=
      markChangedF_modified _ hs1 hm
    refine ⟨{ s with copy := some m.heap.length, arrayAppends := none }, ?_, rfl, ?_,
      hisArr, rfl⟩
    · rw [heq]; exact hs1
    · rw [heq]; exact hn1
  · refine ⟨{ s with copy := some m.heap.length, arrayAppends := none, modified := true },
      markChangedF_self_copySome _ hs1 hm rfl, rfl, ?_, hisArr, rfl⟩
    show (markChangedF (((m.alloc (HNode.arr (es0 ++ ap))).setSt sid
        { s with copy := some m.heap.length, arrayAppends := none }).states.length + 1)
        ((m.alloc (HNode.arr (es0 ++ ap))).setSt sid
          { s with copy := some m.heap.length, arrayAppends := none }) sid).node?
        m.heap.length = some (HNode.arr (es0 ++ ap))
    unfold Mach.node?
    rw [markChangedF_heap_low _ _ _ (show m.heap.length <
        ((m.alloc (HNode.arr (es0 ++ ap))).setSt sid
          { s with copy := some m.heap.length, arrayAppends := none }).heap.length from by
      rw [setSt_heap, alloc_heap, List.length_append]
      exact Nat.lt_succ_self _)]
    exact hn1

theorem writeSentinel_facts (m1 : Mach) (sid i : Nat) (s1 : DraftState) (c1 : Nat)
    (es : List JVal)
    (hm1s : m1.states.get? sid = some s1) (hm1c : s1.copy = some c1)
    (hm1n : m1.node? c1 = some (HNode.arr es))
    (hm1arr : s1.isArr = true) (hm1ap : s1.arrayAppends = none)
    (hi : i < es.length) :
    (getProp (writeCopy m1 sid (PKey.ki i)
      (fun isA n => if isA then hset n (PKey.ki i) JVal.vnothing
        else hdel n (PKey.ki i))) sid (PKey.ki i)).2 = JVal.vnothing ∧
    (getProp (writeCopy m1 sid (PKey.ki i)
      (fun isA n => if isA then hset n (PKey.ki i) JVal.vnothing
        else hdel n (PKey.ki i))) sid (PKey.ks "length")).2 = JVal.vnum es.length ∧
    hasProp (writeCopy m1 sid (PKey.ki i)
      (fun isA n => if isA then hset n (PKey.ki i) JVal.vnothing
        else hdel n (PKey.ki i))) sid (PKey.ki i) = true := by
  have hw := writeCopy_node (PKey.ki i)
    (fun isA n => if isA then hset n (PKey.ki i) JVal.vnothing else hdel n (PKey.ki i))
    hm1s hm1c hm1n
  rw [hm1arr] at hw
  have hred : (fun (isA : Bool) (n : HNode) =>
      if isA then hset n (PKey.ki i) JVal.vnothing else hdel n (PKey.ki i)) true
        (HNode.arr es) = HNode.arr (es.set i JVal.vnothing) := by
    dsimp only
    rw [if_pos rfl]
    unfold hset setElem
    dsimp only
    rw [if_pos hi]
  rw [hred] at hw
  have hws := writeCopy_state m1 sid (PKey.ki i)
    (fun isA n => if isA then hset n (PKey.ki i) JVal.vnothing else hdel n (PKey.ki i))
    hm1s hm1c
  have h3 := arrRead_facts _ sid i _ c1 (es.set i JVal.vnothing) hws hm1arr hm1ap hm1c hw
    (get?_set_self es JVal.vnothing hi)
  refine ⟨h3.1, ?_, h3.2.2⟩
  rw [h3.2.1, List.length_set]

theorem writeSentinel_facts2 (m1 : Mach) (sid i : Nat) (s1 : DraftState) (c1 : Nat)
    (es es0 : List JVal)
    (hm1s : m1.states.get? sid = some s1) (hm1c : s1.copy = some c1)
    (hm1n : m1.node? c1 = some (HNode.arr es))
    (hm1arr : s1.isArr = true) (hm1ap : s1.arrayAppends = some [])
    (hi : i < es.length)
    (hm1b : m1.node? s1.base = some (HNode.arr es0)) :
    (getProp (writeCopy m1 sid (PKey.ki i)
      (fun isA n => if isA then hset n (PKey.ki i) JVal.vnothing
        else hdel n (PKey.ki i))) sid (PKey.ki i)).2 = JVal.vnothing ∧
    (getProp (writeCopy m1 sid (PKey.ki i)
      (fun isA n => if isA then hset n (PKey.ki i) JVal.vnothing
        else hdel n (PKey.ki i))) sid (PKey.ks "length")).2 = JVal.vnum es.length ∧
    hasProp (writeCopy m1 sid (PKey.ki i)
      (fun isA n => if isA then hset n (PKey.ki i) JVal.vnothing
        else hdel n (PKey.ki i))) sid (PKey.ki i) = true := by
  have hw := writeCopy_node (PKey.ki i)
    (fun isA n => if isA then hset n (PKey.ki i) JVal.vnothing else hdel n (PKey.ki i))
    hm1s hm1c hm1n
  rw [hm1arr] at hw
  have hred : (fun (isA : Bool) (n : HNode) =>
      if isA then hset n (PKey.ki i) JVal.vnothing else hdel n (PKey.ki i)) true
        (HNode.arr es) = HNode.arr (es.set i JVal.vnothing) := by
    dsimp only
    rw [if_pos rfl]
    unfold hset setElem
    dsimp only
    rw [if_pos hi]
  rw [hred] at hw
  have hws := writeCopy_state m1 sid (PKey.ki i)
    (fun isA n => if isA then hset n (PKey.ki i) JVal.vnothing else hdel n (PKey.ki i))
    hm1s hm1c
  have hbase : ∃ fes0, (writeCopy m1 sid (PKey.ki i)
      (fun isA n => if isA then hset n (PKey.ki i) JVal.vnothing
        else hdel n (PKey.ki i))).node? s1.base = some (HNode.arr fes0) := by
    by_cases hbc : c1 = s1.base
    · exact ⟨es.set i JVal.vnothing, by rw [← hbc]; exact hw⟩
    · exact ⟨es0, by
        rw [writeCopy_node_other (PKey.ki i) _ hm1s hm1c hbc]
        exact hm1b⟩
  obtain ⟨fes0, hbase'⟩ := hbase
  have h3 := arrRead_facts2 _ sid i _ c1 (es.set i JVal.vnothing) fes0 hws hm1arr hm1ap
    hm1c hw (get?_set_self es JVal.vnothing hi) hbase'
  refine ⟨h3.1, ?_, h3.2.2⟩
  rw [h3.2.1, List.length_set]

/-- C10 counterexample: the mid-draft sentinel property does not hold
for every sequence draft.  A zero-item `push()` on a fresh sequence
draft leaves `modified = true` with no copy and an empty pending
append queue; a subsequent sentinel assignment to the in-range index 1
then throws (`state.copy![prop] = nothing` dereferences a null copy,
because the set trap only materializes a nonempty queue and
`markChanged` returns early on an already-modified node).  The model's
error flag is set, and reading index 1 back yields the untouched base
element 2, not the sentinel. -/
theorem C10_counterexample :
    ((draftMach (warrL [WVal.wnum 1, WVal.wnum 2, WVal.wnum 3, WVal.wnum 4, WVal.wnum 5])
        [Op.opush [] []]).state? 0).map
      (fun s => (s.modified, s.copy.isSome, s.arrayAppends)) =
      some (true, false, some []) ∧
    (draftMach (warrL [WVal.wnum 1, WVal.wnum 2, WVal.wnum 3, WVal.wnum 4, WVal.wnum 5])
        [Op.opush [] [], Op.oset [] (PKey.ki 1) WVal.wnothing]).err = true ∧
    (getProp (draftMach (warrL [WVal.wnum 1, WVal.wnum 2, WVal.wnum 3, WVal.wnum 4,
        WVal.wnum 5]) [Op.opush [] [], Op.oset [] (PKey.ki 1) WVal.wnothing]) 0
        (PKey.ki 1)).2 = JVal.vnum 2 ∧
    JVal.vnum 2 ≠ JVal.vnothing := by
  exact ⟨rfl, rfl, rfl, fun h => JVal.noConfusion h⟩

/-- C10 (amended): mid-draft sentinel visibility.  Writing the
deletion sentinel to an in-range index of the draft's logical sequence
leaves the sentinel readable at that index through the get trap, keeps
the draft length equal to the pre-write length, and the index still
reports present via the has trap — for a sequence draft with no
pending append queue, for one with a nonempty queue (the set trap
materializes the queue into a copy first, so the logical length is the
base length plus the queue length), and for one with an empty queue
whose modified flag implies a copy.  But not for every sequence draft:
on the reachable degenerate draft of a zero-item push (modified set,
no copy, empty queue) the sentinel write dereferences the null copy
and faults instead. -/
theorem C10_sentinel_mid_draft :
    (∀ (m : Mach) (sid i : Nat) (s : DraftState) (es : List JVal),
      m.state? sid = some s → s.isArr = true → s.arrayAppends = none →
      m.node? (s.copy.getD s.base) = some (HNode.arr es) → i < es.length →
      (s.modified = true → s.copy.isSome = true) →
      (getProp (setProp m sid (PKey.ki i) JVal.vnothing) sid (PKey.ki i)).2 =
        JVal.vnothing ∧
      (getProp (setProp m sid (PKey.ki i) JVal.vnothing) sid (PKey.ks "length")).2 =
        JVal.vnum es.length ∧
      hasProp (setProp m sid (PKey.ki i) JVal.vnothing) sid (PKey.ki i) = true) ∧
    (∀ (m : Mach) (sid i : Nat) (s : DraftState) (ap es0 : List JVal),
      m.state? sid = some s → s.isArr = true → s.arrayAppends = some ap →
      0 < ap.length → m.node? s.base = some (HNode.arr es0) →
      i < es0.length + ap.length →
      (getProp (setProp m sid (PKey.ki i) JVal.vnothing) sid (PKey.ki i)).2 =
        JVal.vnothing ∧
      (getProp (setProp m sid (PKey.ki i) JVal.vnothing) sid (PKey.ks "length")).2 =
        JVal.vnum (es0.length + ap.length) ∧
      hasProp (setProp m sid (PKey.ki i) JVal.vnothing) sid (PKey.ki i) = true) ∧
    (∀ (m : Mach) (sid i : Nat) (s : DraftState) (es es0 : List JVal),
      m.state? sid = some s → s.isArr = true → s.arrayAppends = some [] →
      m.node? (s.copy.getD s.base) = some (HNode.arr es) → i < es.length →
      (s.modified = true → s.copy.isSome = true) →
      m.node? s.base = some (HNode.arr es0) →
      (getProp (setProp m sid (PKey.ki i) JVal.vnothing) sid (PKey.ki i)).2 =
        JVal.vnothing ∧
      (getProp (setProp m sid (PKey.ki i) JVal.vnothing) sid (PKey.ks "length")).2 =
        JVal.vnum es.length ∧
      hasProp (setProp m sid (PKey.ki i) JVal.vnothing) sid (PKey.ki i) = true) ∧
    (∀ (m : Mach) (sid i : Nat) (s : DraftState) (es : List JVal),
      m.state? sid = some s → s.modified = true → s.copy = none →
      s.arrayAppends = some [] → m.node? s.base = some (HNode.arr es) →
      i < es.length →
      setProp m sid (PKey.ki i) JVal.vnothing = m.fail) := by
  refine ⟨?_, ?_, ?_, ?_⟩
  · intro m sid i s es hs hisArr hap hsrc hi hmc
    rw [setProp_sentinel_eq m sid i s es hs
      (by unfold appendsNonempty; rw [hap]) hsrc hi]
    have hkey : ∃ s1 c1, (markChanged m sid).states.get? sid = some s1 ∧
        s1.copy = some c1 ∧
        (markChanged m sid).node? c1 = some (HNode.arr es) ∧
        s1.isArr = true ∧ s1.arrayAppends = none := by
      cases hm : s.modified with
      | true =>
        obtain ⟨c1, hc1⟩ := Option.isSome_iff_exists.mp (hmc hm)
        have heq : markChanged m sid = m := markChangedF_modified m.states.length hs hm
        have hn' : m.node? c1 = some (HNode.arr es) := by rw [hc1] at hsrc; exact hsrc
        refine ⟨s, c1, ?_, hc1, ?_, hisArr, hap⟩
        · rw [heq]; exact hs
        · rw [heq]; exact hn'
      | false =>
        cases hc : s.copy with
        | some c1 =>
          have hn' : m.node? c1 = some (HNode.arr es) := by rw [hc] at hsrc; exact hsrc
          refine ⟨{ s with modified := true }, c1,
            markChangedF_self_copySome m.states.length hs hm hc, hc, ?_, hisArr, hap⟩
          show (markChangedF (m.states.length + 1) m sid).node? c1 = some (HNode.arr es)
          unfold Mach.node?
          rw [markChangedF_heap_low _ _ _ (lt_heap_len_of_node? hn')]
          exact hn'
        | none =>
          have hb : m.node? s.base = some (HNode.arr es) := by rw [hc] at hsrc; exact hsrc
          obtain ⟨h1, h2⟩ := markChangedF_self_copyNone m.states.length hs hm hc hb
          exact ⟨_, m.heap.length, h1, rfl, h2, hisArr, hap⟩
    obtain ⟨s1, c1, hm1s, hm1c, hm1n, hm1arr, hm1ap⟩ := hkey
    exact writeSentinel_facts _ sid i _ c1 es hm1s hm1c hm1n hm1arr hm1ap hi
  · intro m sid i s ap es0 hs hisArr hap hne hb hi
    rw [setProp_sentinel_append_eq m sid i s ap es0 hs hap hne hb hi]
    obtain ⟨s2, hm1s, hm1c, hm1n, hm1arr, hm1ap⟩ := materialized_key m sid s ap es0 hs hisArr
    have h3 := writeSentinel_facts _ sid i _ m.heap.length (es0 ++ ap) hm1s hm1c hm1n
      hm1arr hm1ap (by rw [List.length_append]; exact hi)
    refine ⟨h3.1, ?_, h3.2.2⟩
    rw [h3.2.1, List.length_append, Nat.cast_add]
  · intro m sid i s es es0 hs hisArr hap hsrc hi hmc hb
    rw [setProp_sentinel_eq m sid i s es hs
      (by unfold appendsNonempty; rw [hap]; exact rfl) hsrc hi]
    have hblt : s.base < m.heap.length := lt_heap_len_of_node? hb
    have hmlow : (markChanged m sid).node? s.base = some (HNode.arr es0) := by
      show ((markChangedF (m.states.length + 1) m sid).heap.get? s.base).map HCell.node =
        some (HNode.arr es0)
      rw [markChangedF_heap_low _ _ _ hblt]
      exact hb
    have hkey : ∃ s1 c1, (markChanged m sid).states.get? sid = some s1 ∧
        s1.copy = some c1 ∧
        (markChanged m sid).node? c1 = some (HNode.arr es) ∧
        s1.isArr = true ∧ s1.arrayAppends = some [] ∧
        (markChanged m sid).node? s1.base = some (HNode.arr es0) := by
      cases hm : s.modified with
      | true =>
        obtain ⟨c1, hc1⟩ := Option.isSome_iff_exists.mp (hmc hm)
        have heq : markChanged m sid = m := markChangedF_modified m.states.length hs hm
        have hn' : m.node? c1 = some (HNode.arr es) := by rw [hc1] at hsrc; exact hsrc
        refine ⟨s, c1, ?_, hc1, ?_, hisArr, hap, hmlow⟩
        · rw [heq]; exact hs
        · rw [heq]; exact hn'
      | false =>
        cases hc : s.copy with
        | some c1 =>
          have hn' : m.node? c1 = some (HNode.arr es) := by rw [hc] at hsrc; exact hsrc
          refine ⟨{ s with modified := true }, c1,
            markChangedF_self_copySome m.states.length hs hm hc, hc, ?_, hisArr, hap,
            hmlow⟩
          show (markChangedF (m.states.length + 1) m sid).node? c1 = some (HNode.arr es)
          unfold Mach.node?
          rw [markChangedF_heap_low _ _ _ (lt_heap_len_of_node? hn')]
          exact hn'
        | none =>
          have hbn : m.node? s.base = some (HNode.arr es) := by rw [hc] at hsrc; exact hsrc
          obtain ⟨h1, h2⟩ := markChangedF_self_copyNone m.states.length hs hm hc hbn
          exact ⟨_, m.heap.length, h1, rfl, h2, hisArr, hap, hmlow⟩
    obtain ⟨s1, c1, hm1s, hm1c, hm1n, hm1arr, hm1ap, hm1b⟩ := hkey
    exact writeSentinel_facts2 _ sid i _ c1 es es0 hm1s hm1c hm1n hm1arr hm1ap hi hm1b
  · intro m sid i s es hs hm hcn hap hb hi
    unfold setProp
    rw [hs]
    dsimp only
    rw [show appendsNonempty s = false from by
      unfold appendsNonempty
      rw [hap]
      exact rfl]
    rw [if_neg Bool.false_ne_true]
    unfold setPropCore
    rw [hs]
    dsimp only
    rw [show m.node? (s.copy.getD s.base) = some (HNode.arr es) from by
      rw [hcn]; exact hb]
    dsimp only
    rw [if_pos rfl]
    rw [show hhas (HNode.arr es) (PKey.ki i) = true from decide_eq_true hi]
    rw [if_pos rfl]
    rw [show markChanged m sid = m from markChangedF_modified m.states.length hs hm]
    unfold writeCopy
    rw [hs]
    dsimp only
    rw [hcn]

theorem C10_sentinel_mid_draft_witness :
    ((getProp (setProp (draftMach (warrL [WVal.wnum 1, WVal.wnum 2, WVal.wnum 3,
        WVal.wnum 4, WVal.wnum 5]) []) 0 (PKey.ki 1) JVal.vnothing) 0 (PKey.ki 1)).2 =
      JVal.vnothing ∧
    (getProp (setProp (draftMach (warrL [WVal.wnum 1, WVal.wnum 2, WVal.wnum 3,
        WVal.wnum 4, WVal.wnum 5]) []) 0 (PKey.ki 1) JVal.vnothing) 0
        (PKey.ks "length")).2 = JVal.vnum 5 ∧
    hasProp (setProp (draftMach (warrL [WVal.wnum 1, WVal.wnum 2, WVal.wnum 3,
        WVal.wnum 4, WVal.wnum 5]) []) 0 (PKey.ki 1) JVal.vnothing) 0 (PKey.ki 1) =
      true) ∧
    ((getProp (setProp (draftMach (warrL [WVal.wnum 1, WVal.wnum 2, WVal.wnum 3])
        [Op.opush [] [WVal.wnum 4]]) 0 (PKey.ki 3) JVal.vnothing) 0 (PKey.ki 3)).2 =
      JVal.vnothing ∧
    (getProp (setProp (draftMach (warrL [WVal.wnum 1, WVal.wnum 2, WVal.wnum 3])
        [Op.opush [] [WVal.wnum 4]]) 0 (PKey.ki 3) JVal.vnothing) 0
        (PKey.ks "length")).2 = JVal.vnum 4 ∧
    hasProp (setProp (draftMach (warrL [WVal.wnum 1, WVal.wnum 2, WVal.wnum 3])
        [Op.opush [] [WVal.wnum 4]]) 0 (PKey.ki 3) JVal.vnothing) 0 (PKey.ki 3) =
      true) ∧
    ((getProp (setProp (Mach.mk [⟨HNode.arr [JVal.vnum 7, JVal.vnum 8], false⟩,
        ⟨HNode.arr [JVal.vnum 7, JVal.vnum 8], false⟩]
        [DraftState.mk true 0 (some 1) true none false false (some []) []] false) 0
        (PKey.ki 0) JVal.vnothing) 0 (PKey.ki 0)).2 = JVal.vnothing ∧
    (getProp (setProp (Mach.mk [⟨HNode.arr [JVal.vnum 7, JVal.vnum 8], false⟩,
        ⟨HNode.arr [JVal.vnum 7, JVal.vnum 8], false⟩]
        [DraftState.mk true 0 (some 1) true none false false (some []) []] false) 0
        (PKey.ki 0) JVal.vnothing) 0 (PKey.ks "length")).2 = JVal.vnum 2 ∧
    hasProp (setProp (Mach.mk [⟨HNode.arr [JVal.vnum 7, JVal.vnum 8], false⟩,
        ⟨HNode.arr [JVal.vnum 7, JVal.vnum 8], false⟩]
        [DraftState.mk true 0 (some 1) true none false false (some []) []] false) 0
        (PKey.ki 0) JVal.vnothing) 0 (PKey.ki 0) = true) ∧
    (setProp (draftMach (warrL [WVal.wnum 1, WVal.wnum 2, WVal.wnum 3, WVal.wnum 4,
        WVal.wnum 5]) [Op.opush [] []]) 0 (PKey.ki 1) JVal.vnothing =
      (draftMach (warrL [WVal.wnum 1, WVal.wnum 2, WVal.wnum 3, WVal.wnum 4,
        WVal.wnum 5]) [Op.opush [] []]).fail) :=
  ⟨C10_sentinel_mid_draft.1
    (draftMach (warrL [WVal.wnum 1, WVal.wnum 2, WVal.wnum 3, WVal.wnum 4,
      WVal.wnum 5]) []) 0 1
    { isArr := true, base := 0, copy := none, modified := false, parent := none,
      revoked := false, finalized := false, arrayAppends := none, drafts := [] }
    [JVal.vnum 1, JVal.vnum 2, JVal.vnum 3, JVal.vnum 4, JVal.vnum 5]
    rfl rfl rfl rfl (by decide) (fun h => Bool.noConfusion h),
   C10_sentinel_mid_draft.2.1
    (draftMach (warrL [WVal.wnum 1, WVal.wnum 2, WVal.wnum 3])
      [Op.opush [] [WVal.wnum 4]]) 0 3
    { isArr := true, base := 0, copy := none, modified := true, parent := none,
      revoked := false, finalized := false, arrayAppends := some [JVal.vnum 4],
      drafts := [] }
    [JVal.vnum 4] [JVal.vnum 1, JVal.vnum 2, JVal.vnum 3]
    rfl rfl rfl (by decide) rfl (by decide),
   C10_sentinel_mid_draft.2.2.1
    (Mach.mk [⟨HNode.arr [JVal.vnum 7, JVal.vnum 8], false⟩,
      ⟨HNode.arr [JVal.vnum 7, JVal.vnum 8], false⟩]
      [DraftState.mk true 0 (some 1) true none false false (some []) []] false) 0 0
    (DraftState.mk true 0 (some 1) true none false false (some []) [])
    [JVal.vnum 7, JVal.vnum 8] [JVal.vnum 7, JVal.vnum 8]
    rfl rfl rfl rfl (by decide) (fun _ => rfl) rfl,
   C10_sentinel_mid_draft.2.2.2
    (draftMach (warrL [WVal.wnum 1, WVal.wnum 2, WVal.wnum 3, WVal.wnum 4,
      WVal.wnum 5]) [Op.opush [] []]) 0 1
    { isArr := true, base := 0, copy := none, modified := true, parent := none,
      revoked := false, finalized := false, arrayAppends := some [], drafts := [] }
    [JVal.vnum 1, JVal.vnum 2, JVal.vnum 3, JVal.vnum 4, JVal.vnum 5]
    rfl rfl rfl rfl rfl (by decide)⟩

mutual
theorem walloc_depth_le : ∀ (m : Mach) (w : WVal),
    wdepth w ≤ (walloc m w).1.heap.length
  | _, .wnum _ => Nat.zero_le _
  | _, .wstr _ => Nat.zero_le _
  | _, .wbool _ => Nat.zero_le _
  | _, .wundef => Nat.zero_le _
  | _, .wnothing => Nat.zero_le _
  | m, .wobj fs => by
    show wdepthFields fs + 1 ≤
      ((wallocFields m fs).1.alloc (.obj (wallocFields m fs).2)).heap.length
    rw [show ((wallocFields m fs).1.alloc (HNode.obj (wallocFields m fs).2)).heap.length =
      (wallocFields m fs).1.heap.length + 1 from by
        rw [Mach.alloc]; dsimp only; rw [List.length_append]; rfl]
    exact Nat.succ_le_succ (wallocFields_depth_le m fs)
  | m, .warr es => by
    show wdepthElems es + 1 ≤
      ((wallocElems m es).1.alloc (.arr (wallocElems m es).2)).heap.length
    rw [show ((wallocElems m es).1.alloc (HNode.arr (wallocElems m es).2)).heap.length =
      (wallocElems m es).1.heap.length + 1 from by
        rw [Mach.alloc]; dsimp only; rw [List.length_append]; rfl]
    exact Nat.succ_le_succ (wallocElems_depth_le m es)
theorem wallocFields_depth_le : ∀ (m : Mach) (fs : WFields),
    wdepthFields fs ≤ (wallocFields m fs).1.heap.length
  | _, .nil => Nat.zero_le _
  | m, .cons s w rest => by
    obtain ⟨e2, h2⟩ := wallocFields_mach (walloc m w).1 rest
    show max (wdepth w) (wdepthFields rest) ≤
      (wallocFields (walloc m w).1 rest).1.heap.length
    refine max_le ?_ (wallocFields_depth_le (walloc m w).1 rest)
    refine le_trans (walloc_depth_le m w) ?_
    rw [h2]
    dsimp only
    rw [List.length_append]
    exact Nat.le_add_right _ _
theorem wallocElems_depth_le : ∀ (m : Mach) (es : WList),
    wdepthElems es ≤ (wallocElems m es).1.heap.length
  | _, .nil => Nat.zero_le _
  | m, .cons w rest => by
    obtain ⟨e2, h2⟩ := wallocElems_mach (walloc m w).1 rest
    show max (wdepth w) (wdepthElems rest) ≤
      (wallocElems (walloc m w).1 rest).1.heap.length
    refine max_le ?_ (wallocElems_depth_le (walloc m w).1 rest)
    refine le_trans (walloc_depth_le m w) ?_
    rw [h2]
    dsimp only
    rw [List.length_append]
    exact Nat.le_add_right _ _
end

mutual
theorem walloc_readback : ∀ (m : Mach) (w : WVal) (fuel : Nat) (ext : List HCell),
    wdepth w ≤ fuel →
    readbackF fuel ((walloc m w).1.heap ++ ext) (walloc m w).2 = wdenote w
  | _, .wnum _, fuel, _, _ => by cases fuel <;> rfl
  | _, .wstr _, fuel, _, _ => by cases fuel <;> rfl
  | _, .wbool _, fuel, _, _ => by cases fuel <;> rfl
  | _, .wundef, fuel, _, _ => by cases fuel <;> rfl
  | _, .wnothing, fuel, _, _ => by cases fuel <;> rfl
  | m, .wobj fs, fuel, ext, h => by
    cases fuel with
    | zero => exact absurd h (Nat.not_succ_le_zero _)
    | succ f =>
      have hsub : wdepthFields fs ≤ f := Nat.le_of_succ_le_succ h
      show readbackF (f + 1)
        (((wallocFields m fs).1.alloc (.obj (wallocFields m fs).2)).heap ++ ext)
        (JVal.vref (wallocFields m fs).1.heap.length) = RVal.robj (wdenoteFields fs)
      rw [show ((wallocFields m fs).1.alloc (HNode.obj (wallocFields m fs).2)).heap =
        (wallocFields m fs).1.heap ++ [⟨HNode.obj (wallocFields m fs).2, false⟩] from rfl]
      rw [List.append_assoc, List.singleton_append]
      simp only [readbackF]
      rw [get?_append_self]
      dsimp only
      rw [wallocFields_readback m fs f
        (⟨HNode.obj (wallocFields m fs).2, false⟩ :: ext) hsub]
  | m, .warr es, fuel, ext, h => by
    cases fuel with
    | zero => exact absurd h (Nat.not_succ_le_zero _)
    | succ f =>
      have hsub : wdepthElems es ≤ f := Nat.le_of_succ_le_succ h
      show readbackF (f + 1)
        (((wallocElems m es).1.alloc (.arr (wallocElems m es).2)).heap ++ ext)
        (JVal.vref (wallocElems m es).1.heap.length) = RVal.rarr (wdenoteElems es)
      rw [show ((wallocElems m es).1.alloc (HNode.arr (wallocElems m es).2)).heap =
        (wallocElems m es).1.heap ++ [⟨HNode.arr (wallocElems m es).2, false⟩] from rfl]
      rw [List.append_assoc, List.singleton_append]
      simp only [readbackF]
      rw [get?_append_self]
      dsimp only
      rw [wallocElems_readback m es f
        (⟨HNode.arr (wallocElems m es).2, false⟩ :: ext) hsub]
theorem wallocFields_readback : ∀ (m : Mach) (fs : WFields) (fuel : Nat)
    (ext : List HCell), wdepthFields fs ≤ fuel →
    List.map (fun p => (p.1, readbackF fuel ((wallocFields m fs).1.heap ++ ext) p.2))
      (wallocFields m fs).2 = wdenoteFields fs
  | _, .nil, _, _, _ => rfl
  | m, .cons s w rest, fuel, ext, h => by
    have hw : wdepth w ≤ fuel := le_trans (le_max_left _ _) h
    have hr : wdepthFields rest ≤ fuel := le_trans (le_max_right _ _) h
    obtain ⟨e2, h2⟩ := wallocFields_mach (walloc m w).1 rest
    show List.map (fun p => (p.1, readbackF fuel
        ((wallocFields (walloc m w).1 rest).1.heap ++ ext) p.2))
      ((s, (walloc m w).2) :: (wallocFields (walloc m w).1 rest).2) =
      (s, wdenote w) :: wdenoteFields rest
    rw [List.map_cons]
    have hhead : readbackF fuel ((wallocFields (walloc m w).1 rest).1.heap ++ ext)
        (walloc m w).2 = wdenote w := by
      rw [h2]
      dsimp only
      rw [List.append_assoc]
      exact walloc_readback m w fuel (e2 ++ ext) hw
    rw [hhead]
    rw [wallocFields_readback (walloc m w).1 rest fuel ext hr]
theorem wallocElems_readback : ∀ (m : Mach) (es : WList) (fuel : Nat)
    (ext : List HCell), wdepthElems es ≤ fuel →
    List.map (fun v => readbackF fuel ((wallocElems m es).1.heap ++ ext) v)
      (wallocElems m es).2 = wdenoteElems es
  | _, .nil, _, _, _ => rfl
  | m, .cons w rest, fuel, ext, h => by
    have hw : wdepth w ≤ fuel := le_trans (le_max_left _ _) h
    have hr : wdepthElems rest ≤ fuel := le_trans (le_max_right _ _) h
    obtain ⟨e2, h2⟩ := wallocElems_mach (walloc m w).1 rest
    show List.map (fun v => readbackF fuel
        ((wallocElems (walloc m w).1 rest).1.heap ++ ext) v)
      ((walloc m w).2 :: (wallocElems (walloc m w).1 rest).2) =
      wdenote w :: wdenoteElems rest
    rw [List.map_cons]
    have hhead : readbackF fuel ((wallocElems (walloc m w).1 rest).1.heap ++ ext)
        (walloc m w).2 = wdenote w := by
      rw [h2]
      dsimp only
      rw [List.append_assoc]
      exact walloc_readback m w fuel (e2 ++ ext) hw
    rw [hhead]
    rw [wallocElems_readback (walloc m w).1 rest fuel ext hr]
end

theorem readback_walloc (m : Mach) (w : WVal) :
    readbackF ((walloc m w).1.heap.length + 1) (walloc m w).1.heap (walloc m w).2 =
      wdenote w := by
  have hd : wdepth w ≤ (walloc m w).1.heap.length + 1 :=
    le_trans (walloc_depth_le m w) (Nat.le_succ _)
  have hrb := walloc_readback m w ((walloc m w).1.heap.length + 1) [] hd
  rw [List.append_nil] at hrb
  exact hrb

theorem craftRB_eq (base : WVal) (script : Script) :
    craftRB base script = readbackF ((craft base script).1.heap.length + 1)
      (craft base script).1.heap (craft base script).2 := by
  unfold craftRB
  rcases craft base script with ⟨m, v⟩
  rfl

/-- C6: direct-return precedence.  Whatever the base and whatever
mutations the producer performed on the draft, a producer that returns
a literal value makes `craft` return exactly that value (the draft is
never finalized and its mutations leave no trace in the result). -/
theorem C6_direct_return (base : WVal) (ops : List Op) (w : WVal) :
    craftRB base ⟨ops, some w⟩ = wdenote w := by
  rw [craftRB_eq, craft_eq]
  rcases hcp : createProxy (walloc emptyMach base).1 (walloc emptyMach base).2 none
    with ⟨m1, v1⟩
  cases v1 with
  | vdraft root => exact readback_walloc (runScript m1 root ops) w
  | vnum a => exact readback_walloc m1 w
  | vstr a => exact readback_walloc m1 w
  | vbool a => exact readback_walloc m1 w
  | vundef => exact readback_walloc m1 w
  | vnull => exact readback_walloc m1 w
  | vnothing => exact readback_walloc m1 w
  | vref a => exact readback_walloc m1 w

theorem get?_append_right_off {α : Type} (l1 l2 : List α) (i : Nat) :
    (l1 ++ l2).get? (l1.length + i) = l2.get? i := by
  induction l1 with
  | nil =>
    show l2.get? (0 + i) = l2.get? i
    rw [Nat.zero_add]
  | cons x xs ih =>
    rw [List.length_cons, show xs.length + 1 + i = (xs.length + i) + 1 from by omega]
    show (xs ++ l2).get? (xs.length + i) = l2.get? i
    exact ih

theorem set_append_right {α : Type} (l1 l2 : List α) (i : Nat) (a : α) :
    (l1 ++ l2).set (l1.length + i) a = l1 ++ l2.set i a := by
  induction l1 with
  | nil =>
    show l2.set (0 + i) a = l2.set i a
    rw [Nat.zero_add]
  | cons x xs ih =>
    rw [List.length_cons, show xs.length + 1 + i = (xs.length + i) + 1 from by omega]
    show x :: (xs ++ l2).set (xs.length + i) a = x :: (xs ++ l2.set i a)
    rw [ih]

theorem set_append_len {α : Type} (l1 : List α) (x y : α) (l2 : List α) :
    (l1 ++ x :: l2).set l1.length y = l1 ++ y :: l2 := by
  induction l1 with
  | cons z zs ih =>
    show z :: (zs ++ x :: l2).set zs.length y = z :: (zs ++ y :: l2)
    rw [ih]
  | nil => rfl

theorem wrapChild_fresh {m1 : Mach} {sid : Nat} {k : PKey} {u : Nat} {s1 : DraftState}
    {fsu : List (String × JVal)} {nb : HNode}
    (hs1 : m1.state? sid = some s1)
    (hlk : s1.drafts.lookup k = none)
    (hcn : s1.copy = none)
    (hnu : m1.node? u = some (HNode.obj fsu))
    (hnb : m1.node? s1.base = some nb) :
    wrapChild m1 sid k (JVal.vref u) =
      (Mach.mk (m1.heap ++ [⟨hset nb k (JVal.vdraft m1.states.length), false⟩])
        ((m1.states ++ [DraftState.mk false u none false (some sid) false false none []]).set
          sid { s1 with drafts := setDraft s1.drafts k m1.states.length, copy := some m1.heap.length })
        m1.err,
       JVal.vdraft m1.states.length) := by
  have hs1s : m1.states.get? sid = some s1 := hs1
  have hsid : sid < m1.states.length := lt_len_of_get?_eq_some hs1s
  obtain ⟨isA, bse, cpy, mfd, prt, rvk, fnl, apd, dts⟩ := s1
  have hcn2 : cpy = none := hcn
  subst hcn2
  have hsid2 : sid < (m1.states ++
      [DraftState.mk false u none false (some sid) false false none []]).length := by
    rw [List.length_append]
    exact Nat.lt_of_lt_of_le hsid (Nat.le_add_right _ _)
  have hnb2 : m1.node? bse = some nb := hnb
  unfold wrapChild
  rw [hs1]
  dsimp only
  rw [show List.lookup k dts = none from hlk]
  dsimp only
  have hcp : createProxy m1 (JVal.vref u) (some sid) =
      (Mach.mk m1.heap
        (m1.states ++ [DraftState.mk false u none false (some sid) false false none []])
        m1.err,
       JVal.vdraft m1.states.length) := by
    unfold createProxy
    dsimp only
    rw [hnu]
  rw [hcp]
  dsimp only
  have hm3 : Mach.modSt (Mach.mk m1.heap
        (m1.states ++ [DraftState.mk false u none false (some sid) false false none []])
        m1.err) sid
      (fun s2 => { s2 with drafts := setDraft s2.drafts k m1.states.length }) =
      Mach.mk m1.heap
        ((m1.states ++ [DraftState.mk false u none false (some sid) false false none []]).set
          sid (DraftState.mk isA bse none mfd prt rvk fnl apd
            (setDraft dts k m1.states.length)))
        m1.err := by
    unfold Mach.modSt
    dsimp only
    rw [get?_append_lt _ _ hsid, hs1s]
    dsimp only
    unfold Mach.setSt
    dsimp only
  rw [hm3]
  rw [show (Mach.mk m1.heap
      ((m1.states ++ [DraftState.mk false u none false (some sid) false false none []]).set
        sid (DraftState.mk isA bse none mfd prt rvk fnl apd
          (setDraft dts k m1.states.length)))
      m1.err).state? sid =
      some (DraftState.mk isA bse none mfd prt rvk fnl apd
        (setDraft dts k m1.states.length)) from
    get?_set_self _ _ hsid2]
  dsimp only
  rw [show (Mach.mk m1.heap
      ((m1.states ++ [DraftState.mk false u none false (some sid) false false none []]).set
        sid (DraftState.mk isA bse none mfd prt rvk fnl apd
          (setDraft dts k m1.states.length)))
      m1.err).node? bse = some nb from hnb2]
  dsimp only
  unfold Mach.alloc Mach.setSt Mach.allocAddr
  dsimp only
  rw [List.set_set]
  rw [show (Mach.mk (m1.heap ++ [(⟨nb, false⟩ : HCell)])
      ((m1.states ++ [DraftState.mk false u none false (some sid) false false none []]).set
        sid (DraftState.mk isA bse (some m1.heap.length) mfd prt rvk fnl apd
          (setDraft dts k m1.states.length)))
      m1.err).state? sid =
      some (DraftState.mk isA bse (some m1.heap.length) mfd prt rvk fnl apd
        (setDraft dts k m1.states.length)) from
    get?_set_self _ _ hsid2]
  dsimp only
  unfold Mach.updNode
  dsimp only
  rw [show (m1.heap ++ [(⟨nb, false⟩ : HCell)]).get? m1.heap.length = some ⟨nb, false⟩ from
    get?_append_self _ _ _]
  dsimp only
  rw [set_append_len]

theorem getProp_wrap {m : Mach} {sid : Nat} {str : String} {u : Nat} {s : DraftState}
    {nb : HNode} {fsu : List (String × JVal)}
    (hs : m.state? sid = some s) (harr : s.isArr = false) (hap : s.arrayAppends = none)
    (hcn : s.copy = none) (hlk : s.drafts.lookup (PKey.ks str) = none)
    (hnb : m.node? s.base = some nb)
    (hg : hget nb (PKey.ks str) = JVal.vref u)
    (hnu : m.node? u = some (HNode.obj fsu)) :
    getProp m sid (PKey.ks str) =
      (Mach.mk (m.heap ++ [⟨hset nb (PKey.ks str) (JVal.vdraft m.states.length), false⟩])
        ((m.states ++ [DraftState.mk false u none false (some sid) false false none []]).set
          sid { s with drafts := setDraft s.drafts (PKey.ks str) m.states.length, copy := some m.heap.length })
        m.err,
       JVal.vdraft m.states.length) := by
  have hwc := wrapChild_fresh hs hlk hcn hnu hnb
  obtain ⟨isA, bse, cpy, mfd, prt, rvk, fnl, apd, dts⟩ := s
  have harr2 : isA = false := harr
  have hap2 : apd = none := hap
  have hcn2 : cpy = none := hcn
  subst harr2
  subst hap2
  subst hcn2
  have hnb2 : m.node? bse = some nb := hnb
  unfold getProp
  rw [hs]
  dsimp only
  rw [if_neg (fun h => Bool.false_ne_true h.1)]
  dsimp only [Option.getD]
  rw [show m.node? bse = some nb from hnb2]
  dsimp only
  rw [hg]
  unfold getPropRest
  dsimp only
  rw [hs]
  dsimp only
  rw [hnb2]
  dsimp only
  rw [if_pos hg]
  rw [show appendsNonempty (DraftState.mk false bse none mfd prt rvk fnl none dts) = false
    from rfl]
  rw [if_neg Bool.false_ne_true]
  exact hwc

/-- C4: structural sharing.  For any heap holding the base tree
`r = \x7buser: u\x7d`, `u = \x7bname: "Alice", profile: p, other: q\x7d`,
`p = \x7bage: 25\x7d`, running the producer `d.user.profile.age = x` (with
`x ≠ 25`) against the root draft and finalizing yields exactly: the
original heap `H` preserved verbatim (every base node, including the
whole subtree under the untouched sibling `q`, keeps its address and
contents), three fresh frozen copies — the root result at `H.length`
whose `user` field points to the fresh copy at `H.length + 1`, whose
`profile` field points to the fresh copy at `H.length + 2` holding
`age = x` — and the untouched sibling field `other` of the copied
`user` node still holding the original reference `q`. -/
theorem C4_structural_sharing (H : List HCell) (r u p q : Nat) (fr fu fp : Bool) (x : Int)
    (hr : H.get? r = some ⟨HNode.obj [("user", JVal.vref u)], fr⟩)
    (hu : H.get? u = some ⟨HNode.obj [("name", JVal.vstr "Alice"), ("profile", JVal.vref p), ("other", JVal.vref q)], fu⟩)
    (hp : H.get? p = some ⟨HNode.obj [("age", JVal.vnum 25)], fp⟩)
    (hx : x ≠ 25) :
    finalize (runScript (Mach.mk H [DraftState.mk false r none false none false false none []] false) 0
        [Op.oset [PKey.ks "user", PKey.ks "profile"] (PKey.ks "age") (WVal.wnum x)]) 0 =
      (Mach.mk (H ++ [(⟨HNode.obj [("user", JVal.vref (H.length + 1))], true⟩ : HCell), (⟨HNode.obj [("name", JVal.vstr "Alice"), ("profile", JVal.vref (H.length + 2)), ("other", JVal.vref q)], true⟩ : HCell), (⟨HNode.obj [("age", JVal.vnum x)], true⟩ : HCell)]) [DraftState.mk false r (some H.length) true none false false none [(PKey.ks "user", 1)], DraftState.mk false u (some (H.length + 1)) true (some 0) false false none [(PKey.ks "profile", 2)], DraftState.mk false p (some (H.length + 2)) true (some 1) false false none []] false,
       JVal.vref H.length) := by
  have hrl : r < H.length := lt_len_of_get?_eq_some hr
  have hul : u < H.length := lt_len_of_get?_eq_some hu
  have hpl : p < H.length := lt_len_of_get?_eq_some hp
  have hnr0 : (Mach.mk H [DraftState.mk false r none false none false false none []] false).node? r = some (HNode.obj [("user", JVal.vref u)]) := by
    show (H.get? r).map HCell.node = some (HNode.obj [("user", JVal.vref u)])
    rw [hr]
    rfl
  have hnu0 : (Mach.mk H [DraftState.mk false r none false none false false none []] false).node? u = some (HNode.obj [("name", JVal.vstr "Alice"), ("profile", JVal.vref p), ("other", JVal.vref q)]) := by
    show (H.get? u).map HCell.node = some (HNode.obj [("name", JVal.vstr "Alice"), ("profile", JVal.vref p), ("other", JVal.vref q)])
    rw [hu]
    rfl
  have hnuA : (Mach.mk (H ++ [(⟨HNode.obj [("user", JVal.vdraft 1)], false⟩ : HCell)]) [DraftState.mk false r (some H.length) false none false false none [(PKey.ks "user", 1)], DraftState.mk false u none false (some 0) false false none []] false).node? u = some (HNode.obj [("name", JVal.vstr "Alice"), ("profile", JVal.vref p), ("other", JVal.vref q)]) := by
    show ((H ++ [(⟨HNode.obj [("user", JVal.vdraft 1)], false⟩ : HCell)] : List HCell).get? u).map HCell.node = some (HNode.obj [("name", JVal.vstr "Alice"), ("profile", JVal.vref p), ("other", JVal.vref q)])
    rw [get?_append_lt _ _ hul, hu]
    rfl
  have hnpA : (Mach.mk (H ++ [(⟨HNode.obj [("user", JVal.vdraft 1)], false⟩ : HCell)]) [DraftState.mk false r (some H.length) false none false false none [(PKey.ks "user", 1)], DraftState.mk false u none false (some 0) false false none []] false).node? p = some (HNode.obj [("age", JVal.vnum 25)]) := by
    show ((H ++ [(⟨HNode.obj [("user", JVal.vdraft 1)], false⟩ : HCell)] : List HCell).get? p).map HCell.node = some (HNode.obj [("age", JVal.vnum 25)])
    rw [get?_append_lt _ _ hpl, hp]
    rfl
  have hnpB : (Mach.mk (H ++ [(⟨HNode.obj [("user", JVal.vdraft 1)], false⟩ : HCell), (⟨HNode.obj [("name", JVal.vstr "Alice"), ("profile", JVal.vdraft 2), ("other", JVal.vref q)], false⟩ : HCell)]) [DraftState.mk false r (some H.length) false none false false none [(PKey.ks "user", 1)], DraftState.mk false u (some (H.length + 1)) false (some 0) false false none [(PKey.ks "profile", 2)], DraftState.mk false p none false (some 1) false false none []] false).node? p = some (HNode.obj [("age", JVal.vnum 25)]) := by
    show ((H ++ [(⟨HNode.obj [("user", JVal.vdraft 1)], false⟩ : HCell), (⟨HNode.obj [("name", JVal.vstr "Alice"), ("profile", JVal.vdraft 2), ("other", JVal.vref q)], false⟩ : HCell)] : List HCell).get? p).map HCell.node = some (HNode.obj [("age", JVal.vnum 25)])
    rw [get?_append_lt _ _ hpl, hp]
    rfl
  have stepA : getProp (Mach.mk H [DraftState.mk false r none false none false false none []] false) 0 (PKey.ks "user") = ((Mach.mk (H ++ [(⟨HNode.obj [("user", JVal.vdraft 1)], false⟩ : HCell)]) [DraftState.mk false r (some H.length) false none false false none [(PKey.ks "user", 1)], DraftState.mk false u none false (some 0) false false none []] false), JVal.vdraft 1) := by
    rw [@getProp_wrap (Mach.mk H [DraftState.mk false r none false none false false none []] false) 0 "user" u (DraftState.mk false r none false none false false none []) (HNode.obj [("user", JVal.vref u)]) [("name", JVal.vstr "Alice"), ("profile", JVal.vref p), ("other", JVal.vref q)]
      rfl rfl rfl rfl rfl hnr0 rfl hnu0]
    rfl
  have stepB : getProp (Mach.mk (H ++ [(⟨HNode.obj [("user", JVal.vdraft 1)], false⟩ : HCell)]) [DraftState.mk false r (some H.length) false none false false none [(PKey.ks "user", 1)], DraftState.mk false u none false (some 0) false false none []] false) 1 (PKey.ks "profile") = ((Mach.mk (H ++ [(⟨HNode.obj [("user", JVal.vdraft 1)], false⟩ : HCell), (⟨HNode.obj [("name", JVal.vstr "Alice"), ("profile", JVal.vdraft 2), ("other", JVal.vref q)], false⟩ : HCell)]) [DraftState.mk false r (some H.length) false none false false none [(PKey.ks "user", 1)], DraftState.mk false u (some (H.length + 1)) false (some 0) false false none [(PKey.ks "profile", 2)], DraftState.mk false p none false (some 1) false false none []] false), JVal.vdraft 2) := by
    rw [@getProp_wrap (Mach.mk (H ++ [(⟨HNode.obj [("user", JVal.vdraft 1)], false⟩ : HCell)]) [DraftState.mk false r (some H.length) false none false false none [(PKey.ks "user", 1)], DraftState.mk false u none false (some 0) false false none []] false) 1 "profile" p (DraftState.mk false u none false (some 0) false false none []) (HNode.obj [("name", JVal.vstr "Alice"), ("profile", JVal.vref p), ("other", JVal.vref q)]) [("age", JVal.vnum 25)]
      rfl rfl rfl rfl rfl hnuA rfl hnpA]
    dsimp only
    rw [List.append_assoc, List.length_append]
    rfl
  have hrp : resolvePath (Mach.mk H [DraftState.mk false r none false none false false none []] false) 0 [PKey.ks "user", PKey.ks "profile"] = ((Mach.mk (H ++ [(⟨HNode.obj [("user", JVal.vdraft 1)], false⟩ : HCell), (⟨HNode.obj [("name", JVal.vstr "Alice"), ("profile", JVal.vdraft 2), ("other", JVal.vref q)], false⟩ : HCell)]) [DraftState.mk false r (some H.length) false none false false none [(PKey.ks "user", 1)], DraftState.mk false u (some (H.length + 1)) false (some 0) false false none [(PKey.ks "profile", 2)], DraftState.mk false p none false (some 1) false false none []] false), some 2) := by
    unfold resolvePath
    rw [stepA]
    dsimp only
    unfold resolvePath
    rw [stepB]
    dsimp only
    unfold resolvePath
    rfl
  have hms : markChangedStep (Mach.mk (H ++ [(⟨HNode.obj [("user", JVal.vdraft 1)], false⟩ : HCell), (⟨HNode.obj [("name", JVal.vstr "Alice"), ("profile", JVal.vdraft 2), ("other", JVal.vref q)], false⟩ : HCell)]) [DraftState.mk false r (some H.length) false none false false none [(PKey.ks "user", 1)], DraftState.mk false u (some (H.length + 1)) false (some 0) false false none [(PKey.ks "profile", 2)], DraftState.mk false p none false (some 1) false false none []] false) 2 (DraftState.mk false p none false (some 1) false false none []) =
      Mach.mk (H ++ [(⟨HNode.obj [("user", JVal.vdraft 1)], false⟩ : HCell), (⟨HNode.obj [("name", JVal.vstr "Alice"), ("profile", JVal.vdraft 2), ("other", JVal.vref q)], false⟩ : HCell), (⟨HNode.obj [("age", JVal.vnum 25)], false⟩ : HCell)]) [DraftState.mk false r (some H.length) false none false false none [(PKey.ks "user", 1)], DraftState.mk false u (some (H.length + 1)) false (some 0) false false none [(PKey.ks "profile", 2)], DraftState.mk false p (some (H.length + 2)) true (some 1) false false none []] false := by
    unfold markChangedStep
    dsimp only
    rw [hnpB]
    dsimp only
    unfold Mach.alloc Mach.setSt Mach.allocAddr
    dsimp only
    rw [List.append_assoc, List.length_append]
    rfl
  have hmk : markChanged (Mach.mk (H ++ [(⟨HNode.obj [("user", JVal.vdraft 1)], false⟩ : HCell), (⟨HNode.obj [("name", JVal.vstr "Alice"), ("profile", JVal.vdraft 2), ("other", JVal.vref q)], false⟩ : HCell)]) [DraftState.mk false r (some H.length) false none false false none [(PKey.ks "user", 1)], DraftState.mk false u (some (H.length + 1)) false (some 0) false false none [(PKey.ks "profile", 2)], DraftState.mk false p none false (some 1) false false none []] false) 2 = (Mach.mk (H ++ [(⟨HNode.obj [("user", JVal.vdraft 1)], false⟩ : HCell), (⟨HNode.obj [("name", JVal.vstr "Alice"), ("profile", JVal.vdraft 2), ("other", JVal.vref q)], false⟩ : HCell), (⟨HNode.obj [("age", JVal.vnum 25)], false⟩ : HCell)]) [DraftState.mk false r (some H.length) true none false false none [(PKey.ks "user", 1)], DraftState.mk false u (some (H.length + 1)) true (some 0) false false none [(PKey.ks "profile", 2)], DraftState.mk false p (some (H.length + 2)) true (some 1) false false none []] false) := by
    show markChangedF (3 + 1) (Mach.mk (H ++ [(⟨HNode.obj [("user", JVal.vdraft 1)], false⟩ : HCell), (⟨HNode.obj [("name", JVal.vstr "Alice"), ("profile", JVal.vdraft 2), ("other", JVal.vref q)], false⟩ : HCell)]) [DraftState.mk false r (some H.length) false none false false none [(PKey.ks "user", 1)], DraftState.mk false u (some (H.length + 1)) false (some 0) false false none [(PKey.ks "profile", 2)], DraftState.mk false p none false (some 1) false false none []] false) 2 = (Mach.mk (H ++ [(⟨HNode.obj [("user", JVal.vdraft 1)], false⟩ : HCell), (⟨HNode.obj [("name", JVal.vstr "Alice"), ("profile", JVal.vdraft 2), ("other", JVal.vref q)], false⟩ : HCell), (⟨HNode.obj [("age", JVal.vnum 25)], false⟩ : HCell)]) [DraftState.mk false r (some H.length) true none false false none [(PKey.ks "user", 1)], DraftState.mk false u (some (H.length + 1)) true (some 0) false false none [(PKey.ks "profile", 2)], DraftState.mk false p (some (H.length + 2)) true (some 1) false false none []] false)
    rw [show markChangedF (3 + 1) (Mach.mk (H ++ [(⟨HNode.obj [("user", JVal.vdraft 1)], false⟩ : HCell), (⟨HNode.obj [("name", JVal.vstr "Alice"), ("profile", JVal.vdraft 2), ("other", JVal.vref q)], false⟩ : HCell)]) [DraftState.mk false r (some H.length) false none false false none [(PKey.ks "user", 1)], DraftState.mk false u (some (H.length + 1)) false (some 0) false false none [(PKey.ks "profile", 2)], DraftState.mk false p none false (some 1) false false none []] false) 2 =
      markChangedF 3 (markChangedStep (Mach.mk (H ++ [(⟨HNode.obj [("user", JVal.vdraft 1)], false⟩ : HCell), (⟨HNode.obj [("name", JVal.vstr "Alice"), ("profile", JVal.vdraft 2), ("other", JVal.vref q)], false⟩ : HCell)]) [DraftState.mk false r (some H.length) false none false false none [(PKey.ks "user", 1)], DraftState.mk false u (some (H.length + 1)) false (some 0) false false none [(PKey.ks "profile", 2)], DraftState.mk false p none false (some 1) false false none []] false) 2 (DraftState.mk false p none false (some 1) false false none [])) 1 from rfl]
    rw [hms]
    rfl
  have hsetp : setProp (Mach.mk (H ++ [(⟨HNode.obj [("user", JVal.vdraft 1)], false⟩ : HCell), (⟨HNode.obj [("name", JVal.vstr "Alice"), ("profile", JVal.vdraft 2), ("other", JVal.vref q)], false⟩ : HCell)]) [DraftState.mk false r (some H.length) false none false false none [(PKey.ks "user", 1)], DraftState.mk false u (some (H.length + 1)) false (some 0) false false none [(PKey.ks "profile", 2)], DraftState.mk false p none false (some 1) false false none []] false) 2 (PKey.ks "age") (JVal.vnum x) = (Mach.mk (H ++ [(⟨HNode.obj [("user", JVal.vdraft 1)], false⟩ : HCell), (⟨HNode.obj [("name", JVal.vstr "Alice"), ("profile", JVal.vdraft 2), ("other", JVal.vref q)], false⟩ : HCell), (⟨HNode.obj [("age", JVal.vnum x)], false⟩ : HCell)]) [DraftState.mk false r (some H.length) true none false false none [(PKey.ks "user", 1)], DraftState.mk false u (some (H.length + 1)) true (some 0) false false none [(PKey.ks "profile", 2)], DraftState.mk false p (some (H.length + 2)) true (some 1) false false none []] false) := by
    unfold setProp
    rw [show (Mach.mk (H ++ [(⟨HNode.obj [("user", JVal.vdraft 1)], false⟩ : HCell), (⟨HNode.obj [("name", JVal.vstr "Alice"), ("profile", JVal.vdraft 2), ("other", JVal.vref q)], false⟩ : HCell)]) [DraftState.mk false r (some H.length) false none false false none [(PKey.ks "user", 1)], DraftState.mk false u (some (H.length + 1)) false (some 0) false false none [(PKey.ks "profile", 2)], DraftState.mk false p none false (some 1) false false none []] false).state? 2 = some (DraftState.mk false p none false (some 1) false false none []) from rfl]
    dsimp only
    rw [show appendsNonempty (DraftState.mk false p none false (some 1) false false none []) = false from rfl, if_neg Bool.false_ne_true]
    unfold setPropCore
    rw [show (Mach.mk (H ++ [(⟨HNode.obj [("user", JVal.vdraft 1)], false⟩ : HCell), (⟨HNode.obj [("name", JVal.vstr "Alice"), ("profile", JVal.vdraft 2), ("other", JVal.vref q)], false⟩ : HCell)]) [DraftState.mk false r (some H.length) false none false false none [(PKey.ks "user", 1)], DraftState.mk false u (some (H.length + 1)) false (some 0) false false none [(PKey.ks "profile", 2)], DraftState.mk false p none false (some 1) false false none []] false).state? 2 = some (DraftState.mk false p none false (some 1) false false none []) from rfl]
    dsimp only [Option.getD]
    rw [hnpB]
    dsimp only
    rw [if_neg (show ¬(JVal.vnum x = JVal.vnothing) from fun h => JVal.noConfusion h)]
    rw [show hget (HNode.obj [("age", JVal.vnum 25)]) (PKey.ks "age") = JVal.vnum 25 from rfl]
    rw [if_neg (show ¬(JVal.vnum 25 = JVal.vnum x) from
      fun h => hx (JVal.vnum.inj h).symm)]
    rw [hmk]
    unfold writeCopy
    rw [show (Mach.mk (H ++ [(⟨HNode.obj [("user", JVal.vdraft 1)], false⟩ : HCell), (⟨HNode.obj [("name", JVal.vstr "Alice"), ("profile", JVal.vdraft 2), ("other", JVal.vref q)], false⟩ : HCell), (⟨HNode.obj [("age", JVal.vnum 25)], false⟩ : HCell)]) [DraftState.mk false r (some H.length) true none false false none [(PKey.ks "user", 1)], DraftState.mk false u (some (H.length + 1)) true (some 0) false false none [(PKey.ks "profile", 2)], DraftState.mk false p (some (H.length + 2)) true (some 1) false false none []] false).state? 2 = some (DraftState.mk false p (some (H.length + 2)) true (some 1) false false none []) from rfl]
    dsimp only
    unfold Mach.updNode
    dsimp only
    rw [show (H ++ [(⟨HNode.obj [("user", JVal.vdraft 1)], false⟩ : HCell), (⟨HNode.obj [("name", JVal.vstr "Alice"), ("profile", JVal.vdraft 2), ("other", JVal.vref q)], false⟩ : HCell), (⟨HNode.obj [("age", JVal.vnum 25)], false⟩ : HCell)] : List HCell).get? (H.length + 2) =
      some ((⟨HNode.obj [("age", JVal.vnum 25)], false⟩ : HCell)) from by rw [get?_append_right_off]; rfl]
    dsimp only
    rw [set_append_right]
    unfold Mach.modSt
    dsimp only
    rw [show ([DraftState.mk false r (some H.length) true none false false none [(PKey.ks "user", 1)], DraftState.mk false u (some (H.length + 1)) true (some 0) false false none [(PKey.ks "profile", 2)], DraftState.mk false p (some (H.length + 2)) true (some 1) false false none []] : List DraftState).get? 2 = some (DraftState.mk false p (some (H.length + 2)) true (some 1) false false none []) from rfl]
    dsimp only
    unfold Mach.setSt
    rfl
  have hc2 : (Mach.mk (H ++ [(⟨HNode.obj [("user", JVal.vdraft 1)], false⟩ : HCell), (⟨HNode.obj [("name", JVal.vstr "Alice"), ("profile", JVal.vdraft 2), ("other", JVal.vref q)], false⟩ : HCell), (⟨HNode.obj [("age", JVal.vnum x)], false⟩ : HCell)]) [DraftState.mk false r (some H.length) true none false false none [(PKey.ks "user", 1)], DraftState.mk false u (some (H.length + 1)) true (some 0) false false none [(PKey.ks "profile", 2)], DraftState.mk false p (some (H.length + 2)) true (some 1) false false none []] false).node? (H.length + 2) = some (HNode.obj [("age", JVal.vnum x)]) := by
    show ((H ++ [(⟨HNode.obj [("user", JVal.vdraft 1)], false⟩ : HCell), (⟨HNode.obj [("name", JVal.vstr "Alice"), ("profile", JVal.vdraft 2), ("other", JVal.vref q)], false⟩ : HCell), (⟨HNode.obj [("age", JVal.vnum x)], false⟩ : HCell)] : List HCell).get? (H.length + 2)).map HCell.node =
      some (HNode.obj [("age", JVal.vnum x)])
    rw [get?_append_right_off]
    rfl
  have fin2 : finalizeF 2 true (Mach.mk (H ++ [(⟨HNode.obj [("user", JVal.vdraft 1)], false⟩ : HCell), (⟨HNode.obj [("name", JVal.vstr "Alice"), ("profile", JVal.vdraft 2), ("other", JVal.vref q)], false⟩ : HCell), (⟨HNode.obj [("age", JVal.vnum x)], false⟩ : HCell)]) [DraftState.mk false r (some H.length) true none false false none [(PKey.ks "user", 1)], DraftState.mk false u (some (H.length + 1)) true (some 0) false false none [(PKey.ks "profile", 2)], DraftState.mk false p (some (H.length + 2)) true (some 1) false false none []] false) 2 = ((Mach.mk (H ++ [(⟨HNode.obj [("user", JVal.vdraft 1)], false⟩ : HCell), (⟨HNode.obj [("name", JVal.vstr "Alice"), ("profile", JVal.vdraft 2), ("other", JVal.vref q)], false⟩ : HCell), (⟨HNode.obj [("age", JVal.vnum x)], true⟩ : HCell)]) [DraftState.mk false r (some H.length) true none false false none [(PKey.ks "user", 1)], DraftState.mk false u (some (H.length + 1)) true (some 0) false false none [(PKey.ks "profile", 2)], DraftState.mk false p (some (H.length + 2)) true (some 1) false false none []] false), JVal.vref (H.length + 2)) := by
    rw [show finalizeF 2 true (Mach.mk (H ++ [(⟨HNode.obj [("user", JVal.vdraft 1)], false⟩ : HCell), (⟨HNode.obj [("name", JVal.vstr "Alice"), ("profile", JVal.vdraft 2), ("other", JVal.vref q)], false⟩ : HCell), (⟨HNode.obj [("age", JVal.vnum x)], false⟩ : HCell)]) [DraftState.mk false r (some H.length) true none false false none [(PKey.ks "user", 1)], DraftState.mk false u (some (H.length + 1)) true (some 0) false false none [(PKey.ks "profile", 2)], DraftState.mk false p (some (H.length + 2)) true (some 1) false false none []] false) 2 = (match (Mach.mk (H ++ [(⟨HNode.obj [("user", JVal.vdraft 1)], false⟩ : HCell), (⟨HNode.obj [("name", JVal.vstr "Alice"), ("profile", JVal.vdraft 2), ("other", JVal.vref q)], false⟩ : HCell), (⟨HNode.obj [("age", JVal.vnum x)], false⟩ : HCell)]) [DraftState.mk false r (some H.length) true none false false none [(PKey.ks "user", 1)], DraftState.mk false u (some (H.length + 1)) true (some 0) false false none [(PKey.ks "profile", 2)], DraftState.mk false p (some (H.length + 2)) true (some 1) false false none []] false).node? (H.length + 2) with
      | none => ((Mach.mk (H ++ [(⟨HNode.obj [("user", JVal.vdraft 1)], false⟩ : HCell), (⟨HNode.obj [("name", JVal.vstr "Alice"), ("profile", JVal.vdraft 2), ("other", JVal.vref q)], false⟩ : HCell), (⟨HNode.obj [("age", JVal.vnum x)], false⟩ : HCell)]) [DraftState.mk false r (some H.length) true none false false none [(PKey.ks "user", 1)], DraftState.mk false u (some (H.length + 1)) true (some 0) false false none [(PKey.ks "profile", 2)], DraftState.mk false p (some (H.length + 2)) true (some 1) false false none []] false).fail, JVal.vundef)
      | some nd => (freezeAddr ((keysOf nd).foldl (fun mm k =>
        match mm.node? (H.length + 2) with
        | none => mm.fail
        | some nn =>
          match hget nn k with
          | JVal.vdraft cid =>
            (match finalizeF 1 true mm cid with
             | (mm1, fv) => mm1.updNode (H.length + 2) (fun n2 => hset n2 k fv))
          | JVal.vref a => mm.updNode (H.length + 2) (fun n2 => hset n2 k (JVal.vref a))
          | _ => mm) (Mach.mk (H ++ [(⟨HNode.obj [("user", JVal.vdraft 1)], false⟩ : HCell), (⟨HNode.obj [("name", JVal.vstr "Alice"), ("profile", JVal.vdraft 2), ("other", JVal.vref q)], false⟩ : HCell), (⟨HNode.obj [("age", JVal.vnum x)], false⟩ : HCell)]) [DraftState.mk false r (some H.length) true none false false none [(PKey.ks "user", 1)], DraftState.mk false u (some (H.length + 1)) true (some 0) false false none [(PKey.ks "profile", 2)], DraftState.mk false p (some (H.length + 2)) true (some 1) false false none []] false)) (H.length + 2),
          JVal.vref (H.length + 2))) from rfl]
    rw [hc2]
    dsimp only
    rw [show keysOf (HNode.obj [("age", JVal.vnum x)]) = [PKey.ks "age"] from rfl]
    rw [List.foldl_cons, List.foldl_nil]
    rw [hc2]
    dsimp only
    rw [show hget (HNode.obj [("age", JVal.vnum x)]) (PKey.ks "age") = JVal.vnum x from rfl]
    dsimp only
    unfold freezeAddr
    dsimp only
    rw [show (H ++ [(⟨HNode.obj [("user", JVal.vdraft 1)], false⟩ : HCell), (⟨HNode.obj [("name", JVal.vstr "Alice"), ("profile", JVal.vdraft 2), ("other", JVal.vref q)], false⟩ : HCell), (⟨HNode.obj [("age", JVal.vnum x)], false⟩ : HCell)] : List HCell).get? (H.length + 2) =
      some ((⟨HNode.obj [("age", JVal.vnum x)], false⟩ : HCell)) from by rw [get?_append_right_off]; rfl]
    dsimp only
    rw [set_append_right]
    rfl
  have hc1 : (Mach.mk (H ++ [(⟨HNode.obj [("user", JVal.vdraft 1)], false⟩ : HCell), (⟨HNode.obj [("name", JVal.vstr "Alice"), ("profile", JVal.vdraft 2), ("other", JVal.vref q)], false⟩ : HCell), (⟨HNode.obj [("age", JVal.vnum x)], false⟩ : HCell)]) [DraftState.mk false r (some H.length) true none false false none [(PKey.ks "user", 1)], DraftState.mk false u (some (H.length + 1)) true (some 0) false false none [(PKey.ks "profile", 2)], DraftState.mk false p (some (H.length + 2)) true (some 1) false false none []] false).node? (H.length + 1) = some (HNode.obj [("name", JVal.vstr "Alice"), ("profile", JVal.vdraft 2), ("other", JVal.vref q)]) := by
    show ((H ++ [(⟨HNode.obj [("user", JVal.vdraft 1)], false⟩ : HCell), (⟨HNode.obj [("name", JVal.vstr "Alice"), ("profile", JVal.vdraft 2), ("other", JVal.vref q)], false⟩ : HCell), (⟨HNode.obj [("age", JVal.vnum x)], false⟩ : HCell)] : List HCell).get? (H.length + 1)).map HCell.node =
      some (HNode.obj [("name", JVal.vstr "Alice"), ("profile", JVal.vdraft 2), ("other", JVal.vref q)])
    rw [get?_append_right_off]
    rfl
  have hc1p : (Mach.mk (H ++ [(⟨HNode.obj [("user", JVal.vdraft 1)], false⟩ : HCell), (⟨HNode.obj [("name", JVal.vstr "Alice"), ("profile", JVal.vref (H.length + 2)), ("other", JVal.vref q)], false⟩ : HCell), (⟨HNode.obj [("age", JVal.vnum x)], true⟩ : HCell)]) [DraftState.mk false r (some H.length) true none false false none [(PKey.ks "user", 1)], DraftState.mk false u (some (H.length + 1)) true (some 0) false false none [(PKey.ks "profile", 2)], DraftState.mk false p (some (H.length + 2)) true (some 1) false false none []] false).node? (H.length + 1) = some (HNode.obj [("name", JVal.vstr "Alice"), ("profile", JVal.vref (H.length + 2)), ("other", JVal.vref q)]) := by
    show ((H ++ [(⟨HNode.obj [("user", JVal.vdraft 1)], false⟩ : HCell), (⟨HNode.obj [("name", JVal.vstr "Alice"), ("profile", JVal.vref (H.length + 2)), ("other", JVal.vref q)], false⟩ : HCell), (⟨HNode.obj [("age", JVal.vnum x)], true⟩ : HCell)] : List HCell).get? (H.length + 1)).map HCell.node =
      some (HNode.obj [("name", JVal.vstr "Alice"), ("profile", JVal.vref (H.length + 2)), ("other", JVal.vref q)])
    rw [get?_append_right_off]
    rfl
  have fin1 : finalizeF 3 true (Mach.mk (H ++ [(⟨HNode.obj [("user", JVal.vdraft 1)], false⟩ : HCell), (⟨HNode.obj [("name", JVal.vstr "Alice"), ("profile", JVal.vdraft 2), ("other", JVal.vref q)], false⟩ : HCell), (⟨HNode.obj [("age", JVal.vnum x)], false⟩ : HCell)]) [DraftState.mk false r (some H.length) true none false false none [(PKey.ks "user", 1)], DraftState.mk false u (some (H.length + 1)) true (some 0) false false none [(PKey.ks "profile", 2)], DraftState.mk false p (some (H.length + 2)) true (some 1) false false none []] false) 1 = ((Mach.mk (H ++ [(⟨HNode.obj [("user", JVal.vdraft 1)], false⟩ : HCell), (⟨HNode.obj [("name", JVal.vstr "Alice"), ("profile", JVal.vref (H.length + 2)), ("other", JVal.vref q)], true⟩ : HCell), (⟨HNode.obj [("age", JVal.vnum x)], true⟩ : HCell)]) [DraftState.mk false r (some H.length) true none false false none [(PKey.ks "user", 1)], DraftState.mk false u (some (H.length + 1)) true (some 0) false false none [(PKey.ks "profile", 2)], DraftState.mk false p (some (H.length + 2)) true (some 1) false false none []] false), JVal.vref (H.length + 1)) := by
    rw [show finalizeF 3 true (Mach.mk (H ++ [(⟨HNode.obj [("user", JVal.vdraft 1)], false⟩ : HCell), (⟨HNode.obj [("name", JVal.vstr "Alice"), ("profile", JVal.vdraft 2), ("other", JVal.vref q)], false⟩ : HCell), (⟨HNode.obj [("age", JVal.vnum x)], false⟩ : HCell)]) [DraftState.mk false r (some H.length) true none false false none [(PKey.ks "user", 1)], DraftState.mk false u (some (H.length + 1)) true (some 0) false false none [(PKey.ks "profile", 2)], DraftState.mk false p (some (H.length + 2)) true (some 1) false false none []] false) 1 = (match (Mach.mk (H ++ [(⟨HNode.obj [("user", JVal.vdraft 1)], false⟩ : HCell), (⟨HNode.obj [("name", JVal.vstr "Alice"), ("profile", JVal.vdraft 2), ("other", JVal.vref q)], false⟩ : HCell), (⟨HNode.obj [("age", JVal.vnum x)], false⟩ : HCell)]) [DraftState.mk false r (some H.length) true none false false none [(PKey.ks "user", 1)], DraftState.mk false u (some (H.length + 1)) true (some 0) false false none [(PKey.ks "profile", 2)], DraftState.mk false p (some (H.length + 2)) true (some 1) false false none []] false).node? (H.length + 1) with
      | none => ((Mach.mk (H ++ [(⟨HNode.obj [("user", JVal.vdraft 1)], false⟩ : HCell), (⟨HNode.obj [("name", JVal.vstr "Alice"), ("profile", JVal.vdraft 2), ("other", JVal.vref q)], false⟩ : HCell), (⟨HNode.obj [("age", JVal.vnum x)], false⟩ : HCell)]) [DraftState.mk false r (some H.length) true none false false none [(PKey.ks "user", 1)], DraftState.mk false u (some (H.length + 1)) true (some 0) false false none [(PKey.ks "profile", 2)], DraftState.mk false p (some (H.length + 2)) true (some 1) false false none []] false).fail, JVal.vundef)
      | some nd => (freezeAddr ((keysOf nd).foldl (fun mm k =>
        match mm.node? (H.length + 1) with
        | none => mm.fail
        | some nn =>
          match hget nn k with
          | JVal.vdraft cid =>
            (match finalizeF 2 true mm cid with
             | (mm1, fv) => mm1.updNode (H.length + 1) (fun n2 => hset n2 k fv))
          | JVal.vref a => mm.updNode (H.length + 1) (fun n2 => hset n2 k (JVal.vref a))
          | _ => mm) (Mach.mk (H ++ [(⟨HNode.obj [("user", JVal.vdraft 1)], false⟩ : HCell), (⟨HNode.obj [("name", JVal.vstr "Alice"), ("profile", JVal.vdraft 2), ("other", JVal.vref q)], false⟩ : HCell), (⟨HNode.obj [("age", JVal.vnum x)], false⟩ : HCell)]) [DraftState.mk false r (some H.length) true none false false none [(PKey.ks "user", 1)], DraftState.mk false u (some (H.length + 1)) true (some 0) false false none [(PKey.ks "profile", 2)], DraftState.mk false p (some (H.length + 2)) true (some 1) false false none []] false)) (H.length + 1),
          JVal.vref (H.length + 1))) from rfl]
    rw [hc1]
    dsimp only
    rw [show keysOf (HNode.obj [("name", JVal.vstr "Alice"), ("profile", JVal.vdraft 2), ("other", JVal.vref q)]) = [PKey.ks "name", PKey.ks "profile", PKey.ks "other"] from rfl]
    rw [List.foldl_cons, List.foldl_cons, List.foldl_cons, List.foldl_nil]
    rw [hc1]
    dsimp only
    rw [show hget (HNode.obj [("name", JVal.vstr "Alice"), ("profile", JVal.vdraft 2), ("other", JVal.vref q)]) (PKey.ks "name") = JVal.vstr "Alice" from rfl]
    dsimp only
    rw [hc1]
    dsimp only
    rw [show hget (HNode.obj [("name", JVal.vstr "Alice"), ("profile", JVal.vdraft 2), ("other", JVal.vref q)]) (PKey.ks "profile") = JVal.vdraft 2 from rfl]
    dsimp only
    rw [fin2]
    dsimp only
    unfold Mach.updNode
    dsimp only
    rw [show (H ++ [(⟨HNode.obj [("user", JVal.vdraft 1)], false⟩ : HCell), (⟨HNode.obj [("name", JVal.vstr "Alice"), ("profile", JVal.vdraft 2), ("other", JVal.vref q)], false⟩ : HCell), (⟨HNode.obj [("age", JVal.vnum x)], true⟩ : HCell)] : List HCell).get? (H.length + 1) =
      some ((⟨HNode.obj [("name", JVal.vstr "Alice"), ("profile", JVal.vdraft 2), ("other", JVal.vref q)], false⟩ : HCell)) from by rw [get?_append_right_off]; rfl]
    dsimp only
    rw [set_append_right]
    rw [show ([(⟨HNode.obj [("user", JVal.vdraft 1)], false⟩ : HCell), (⟨HNode.obj [("name", JVal.vstr "Alice"), ("profile", JVal.vdraft 2), ("other", JVal.vref q)], false⟩ : HCell), (⟨HNode.obj [("age", JVal.vnum x)], true⟩ : HCell)] : List HCell).set 1
      ⟨hset (HNode.obj [("name", JVal.vstr "Alice"), ("profile", JVal.vdraft 2), ("other", JVal.vref q)]) (PKey.ks "profile") (JVal.vref (H.length + 2)), false⟩ =
      [(⟨HNode.obj [("user", JVal.vdraft 1)], false⟩ : HCell), (⟨HNode.obj [("name", JVal.vstr "Alice"), ("profile", JVal.vref (H.length + 2)), ("other", JVal.vref q)], false⟩ : HCell), (⟨HNode.obj [("age", JVal.vnum x)], true⟩ : HCell)] from rfl]
    rw [hc1p]
    dsimp only
    rw [show hget (HNode.obj [("name", JVal.vstr "Alice"), ("profile", JVal.vref (H.length + 2)), ("other", JVal.vref q)]) (PKey.ks "other") = JVal.vref q from rfl]
    dsimp only
    rw [show (H ++ [(⟨HNode.obj [("user", JVal.vdraft 1)], false⟩ : HCell), (⟨HNode.obj [("name", JVal.vstr "Alice"), ("profile", JVal.vref (H.length + 2)), ("other", JVal.vref q)], false⟩ : HCell), (⟨HNode.obj [("age", JVal.vnum x)], true⟩ : HCell)] : List HCell).get? (H.length + 1) =
      some ((⟨HNode.obj [("name", JVal.vstr "Alice"), ("profile", JVal.vref (H.length + 2)), ("other", JVal.vref q)], false⟩ : HCell)) from by rw [get?_append_right_off]; rfl]
    dsimp only
    rw [set_append_right]
    rw [show ([(⟨HNode.obj [("user", JVal.vdraft 1)], false⟩ : HCell), (⟨HNode.obj [("name", JVal.vstr "Alice"), ("profile", JVal.vref (H.length + 2)), ("other", JVal.vref q)], false⟩ : HCell), (⟨HNode.obj [("age", JVal.vnum x)], true⟩ : HCell)] : List HCell).set 1
      ⟨hset (HNode.obj [("name", JVal.vstr "Alice"), ("profile", JVal.vref (H.length + 2)), ("other", JVal.vref q)]) (PKey.ks "other") (JVal.vref q), false⟩ =
      [(⟨HNode.obj [("user", JVal.vdraft 1)], false⟩ : HCell), (⟨HNode.obj [("name", JVal.vstr "Alice"), ("profile", JVal.vref (H.length + 2)), ("other", JVal.vref q)], false⟩ : HCell), (⟨HNode.obj [("age", JVal.vnum x)], true⟩ : HCell)] from rfl]
    unfold freezeAddr
    dsimp only
    rw [show (H ++ [(⟨HNode.obj [("user", JVal.vdraft 1)], false⟩ : HCell), (⟨HNode.obj [("name", JVal.vstr "Alice"), ("profile", JVal.vref (H.length + 2)), ("other", JVal.vref q)], false⟩ : HCell), (⟨HNode.obj [("age", JVal.vnum x)], true⟩ : HCell)] : List HCell).get? (H.length + 1) =
      some ((⟨HNode.obj [("name", JVal.vstr "Alice"), ("profile", JVal.vref (H.length + 2)), ("other", JVal.vref q)], false⟩ : HCell)) from by rw [get?_append_right_off]; rfl]
    dsimp only
    rw [set_append_right]
    rfl
  have hc0 : (Mach.mk (H ++ [(⟨HNode.obj [("user", JVal.vdraft 1)], false⟩ : HCell), (⟨HNode.obj [("name", JVal.vstr "Alice"), ("profile", JVal.vdraft 2), ("other", JVal.vref q)], false⟩ : HCell), (⟨HNode.obj [("age", JVal.vnum x)], false⟩ : HCell)]) [DraftState.mk false r (some H.length) true none false false none [(PKey.ks "user", 1)], DraftState.mk false u (some (H.length + 1)) true (some 0) false false none [(PKey.ks "profile", 2)], DraftState.mk false p (some (H.length + 2)) true (some 1) false false none []] false).node? H.length = some (HNode.obj [("user", JVal.vdraft 1)]) := by
    show ((H ++ [(⟨HNode.obj [("user", JVal.vdraft 1)], false⟩ : HCell), (⟨HNode.obj [("name", JVal.vstr "Alice"), ("profile", JVal.vdraft 2), ("other", JVal.vref q)], false⟩ : HCell), (⟨HNode.obj [("age", JVal.vnum x)], false⟩ : HCell)] : List HCell).get? H.length).map HCell.node =
      some (HNode.obj [("user", JVal.vdraft 1)])
    rw [get?_append_self]
    rfl
  have fin0 : finalizeF 4 true (Mach.mk (H ++ [(⟨HNode.obj [("user", JVal.vdraft 1)], false⟩ : HCell), (⟨HNode.obj [("name", JVal.vstr "Alice"), ("profile", JVal.vdraft 2), ("other", JVal.vref q)], false⟩ : HCell), (⟨HNode.obj [("age", JVal.vnum x)], false⟩ : HCell)]) [DraftState.mk false r (some H.length) true none false false none [(PKey.ks "user", 1)], DraftState.mk false u (some (H.length + 1)) true (some 0) false false none [(PKey.ks "profile", 2)], DraftState.mk false p (some (H.length + 2)) true (some 1) false false none []] false) 0 = ((Mach.mk (H ++ [(⟨HNode.obj [("user", JVal.vref (H.length + 1))], true⟩ : HCell), (⟨HNode.obj [("name", JVal.vstr "Alice"), ("profile", JVal.vref (H.length + 2)), ("other", JVal.vref q)], true⟩ : HCell), (⟨HNode.obj [("age", JVal.vnum x)], true⟩ : HCell)]) [DraftState.mk false r (some H.length) true none false false none [(PKey.ks "user", 1)], DraftState.mk false u (some (H.length + 1)) true (some 0) false false none [(PKey.ks "profile", 2)], DraftState.mk false p (some (H.length + 2)) true (some 1) false false none []] false), JVal.vref H.length) := by
    rw [show finalizeF 4 true (Mach.mk (H ++ [(⟨HNode.obj [("user", JVal.vdraft 1)], false⟩ : HCell), (⟨HNode.obj [("name", JVal.vstr "Alice"), ("profile", JVal.vdraft 2), ("other", JVal.vref q)], false⟩ : HCell), (⟨HNode.obj [("age", JVal.vnum x)], false⟩ : HCell)]) [DraftState.mk false r (some H.length) true none false false none [(PKey.ks "user", 1)], DraftState.mk false u (some (H.length + 1)) true (some 0) false false none [(PKey.ks "profile", 2)], DraftState.mk false p (some (H.length + 2)) true (some 1) false false none []] false) 0 = (match (Mach.mk (H ++ [(⟨HNode.obj [("user", JVal.vdraft 1)], false⟩ : HCell), (⟨HNode.obj [("name", JVal.vstr "Alice"), ("profile", JVal.vdraft 2), ("other", JVal.vref q)], false⟩ : HCell), (⟨HNode.obj [("age", JVal.vnum x)], false⟩ : HCell)]) [DraftState.mk false r (some H.length) true none false false none [(PKey.ks "user", 1)], DraftState.mk false u (some (H.length + 1)) true (some 0) false false none [(PKey.ks "profile", 2)], DraftState.mk false p (some (H.length + 2)) true (some 1) false false none []] false).node? H.length with
      | none => ((Mach.mk (H ++ [(⟨HNode.obj [("user", JVal.vdraft 1)], false⟩ : HCell), (⟨HNode.obj [("name", JVal.vstr "Alice"), ("profile", JVal.vdraft 2), ("other", JVal.vref q)], false⟩ : HCell), (⟨HNode.obj [("age", JVal.vnum x)], false⟩ : HCell)]) [DraftState.mk false r (some H.length) true none false false none [(PKey.ks "user", 1)], DraftState.mk false u (some (H.length + 1)) true (some 0) false false none [(PKey.ks "profile", 2)], DraftState.mk false p (some (H.length + 2)) true (some 1) false false none []] false).fail, JVal.vundef)
      | some nd => (freezeAddr ((keysOf nd).foldl (fun mm k =>
        match mm.node? (H.length) with
        | none => mm.fail
        | some nn =>
          match hget nn k with
          | JVal.vdraft cid =>
            (match finalizeF 3 true mm cid with
             | (mm1, fv) => mm1.updNode (H.length) (fun n2 => hset n2 k fv))
          | JVal.vref a => mm.updNode (H.length) (fun n2 => hset n2 k (JVal.vref a))
          | _ => mm) (Mach.mk (H ++ [(⟨HNode.obj [("user", JVal.vdraft 1)], false⟩ : HCell), (⟨HNode.obj [("name", JVal.vstr "Alice"), ("profile", JVal.vdraft 2), ("other", JVal.vref q)], false⟩ : HCell), (⟨HNode.obj [("age", JVal.vnum x)], false⟩ : HCell)]) [DraftState.mk false r (some H.length) true none false false none [(PKey.ks "user", 1)], DraftState.mk false u (some (H.length + 1)) true (some 0) false false none [(PKey.ks "profile", 2)], DraftState.mk false p (some (H.length + 2)) true (some 1) false false none []] false)) H.length,
          JVal.vref H.length)) from rfl]
    rw [hc0]
    dsimp only
    rw [show keysOf (HNode.obj [("user", JVal.vdraft 1)]) = [PKey.ks "user"] from rfl]
    rw [List.foldl_cons, List.foldl_nil]
    rw [hc0]
    dsimp only
    rw [show hget (HNode.obj [("user", JVal.vdraft 1)]) (PKey.ks "user") = JVal.vdraft 1 from rfl]
    dsimp only
    rw [fin1]
    dsimp only
    unfold Mach.updNode
    dsimp only
    rw [show (H ++ [(⟨HNode.obj [("user", JVal.vdraft 1)], false⟩ : HCell), (⟨HNode.obj [("name", JVal.vstr "Alice"), ("profile", JVal.vref (H.length + 2)), ("other", JVal.vref q)], true⟩ : HCell), (⟨HNode.obj [("age", JVal.vnum x)], true⟩ : HCell)] : List HCell).get? H.length =
      some ((⟨HNode.obj [("user", JVal.vdraft 1)], false⟩ : HCell)) from by rw [get?_append_self]]
    dsimp only
    rw [set_append_len]
    rw [show (⟨hset (HNode.obj [("user", JVal.vdraft 1)]) (PKey.ks "user") (JVal.vref (H.length + 1)), false⟩ : HCell) =
      ((⟨HNode.obj [("user", JVal.vref (H.length + 1))], false⟩ : HCell)) from rfl]
    unfold freezeAddr
    dsimp only
    rw [show (H ++ [(⟨HNode.obj [("user", JVal.vref (H.length + 1))], false⟩ : HCell), (⟨HNode.obj [("name", JVal.vstr "Alice"), ("profile", JVal.vref (H.length + 2)), ("other", JVal.vref q)], true⟩ : HCell), (⟨HNode.obj [("age", JVal.vnum x)], true⟩ : HCell)] : List HCell).get? H.length =
      some ((⟨HNode.obj [("user", JVal.vref (H.length + 1))], false⟩ : HCell)) from by rw [get?_append_self]]
    dsimp only
    rw [set_append_len]
  have hrun : runScript (Mach.mk H [DraftState.mk false r none false none false false none []] false) 0
      [Op.oset [PKey.ks "user", PKey.ks "profile"] (PKey.ks "age") (WVal.wnum x)] = (Mach.mk (H ++ [(⟨HNode.obj [("user", JVal.vdraft 1)], false⟩ : HCell), (⟨HNode.obj [("name", JVal.vstr "Alice"), ("profile", JVal.vdraft 2), ("other", JVal.vref q)], false⟩ : HCell), (⟨HNode.obj [("age", JVal.vnum x)], false⟩ : HCell)]) [DraftState.mk false r (some H.length) true none false false none [(PKey.ks "user", 1)], DraftState.mk false u (some (H.length + 1)) true (some 0) false false none [(PKey.ks "profile", 2)], DraftState.mk false p (some (H.length + 2)) true (some 1) false false none []] false) := by
    show runOp (Mach.mk H [DraftState.mk false r none false none false false none []] false) 0
      (Op.oset [PKey.ks "user", PKey.ks "profile"] (PKey.ks "age") (WVal.wnum x)) = (Mach.mk (H ++ [(⟨HNode.obj [("user", JVal.vdraft 1)], false⟩ : HCell), (⟨HNode.obj [("name", JVal.vstr "Alice"), ("profile", JVal.vdraft 2), ("other", JVal.vref q)], false⟩ : HCell), (⟨HNode.obj [("age", JVal.vnum x)], false⟩ : HCell)]) [DraftState.mk false r (some H.length) true none false false none [(PKey.ks "user", 1)], DraftState.mk false u (some (H.length + 1)) true (some 0) false false none [(PKey.ks "profile", 2)], DraftState.mk false p (some (H.length + 2)) true (some 1) false false none []] false)
    simp only [runOp]
    rw [hrp]
    dsimp only
    rw [show walloc (Mach.mk (H ++ [(⟨HNode.obj [("user", JVal.vdraft 1)], false⟩ : HCell), (⟨HNode.obj [("name", JVal.vstr "Alice"), ("profile", JVal.vdraft 2), ("other", JVal.vref q)], false⟩ : HCell)]) [DraftState.mk false r (some H.length) false none false false none [(PKey.ks "user", 1)], DraftState.mk false u (some (H.length + 1)) false (some 0) false false none [(PKey.ks "profile", 2)], DraftState.mk false p none false (some 1) false false none []] false) (WVal.wnum x) = ((Mach.mk (H ++ [(⟨HNode.obj [("user", JVal.vdraft 1)], false⟩ : HCell), (⟨HNode.obj [("name", JVal.vstr "Alice"), ("profile", JVal.vdraft 2), ("other", JVal.vref q)], false⟩ : HCell)]) [DraftState.mk false r (some H.length) false none false false none [(PKey.ks "user", 1)], DraftState.mk false u (some (H.length + 1)) false (some 0) false false none [(PKey.ks "profile", 2)], DraftState.mk false p none false (some 1) false false none []] false), JVal.vnum x) from rfl]
    dsimp only
    exact hsetp
  rw [hrun]
  show finalizeF (3 + 1) true (Mach.mk (H ++ [(⟨HNode.obj [("user", JVal.vdraft 1)], false⟩ : HCell), (⟨HNode.obj [("name", JVal.vstr "Alice"), ("profile", JVal.vdraft 2), ("other", JVal.vref q)], false⟩ : HCell), (⟨HNode.obj [("age", JVal.vnum x)], false⟩ : HCell)]) [DraftState.mk false r (some H.length) true none false false none [(PKey.ks "user", 1)], DraftState.mk false u (some (H.length + 1)) true (some 0) false false none [(PKey.ks "profile", 2)], DraftState.mk false p (some (H.length + 2)) true (some 1) false false none []] false) 0 = ((Mach.mk (H ++ [(⟨HNode.obj [("user", JVal.vref (H.length + 1))], true⟩ : HCell), (⟨HNode.obj [("name", JVal.vstr "Alice"), ("profile", JVal.vref (H.length + 2)), ("other", JVal.vref q)], true⟩ : HCell), (⟨HNode.obj [("age", JVal.vnum x)], true⟩ : HCell)]) [DraftState.mk false r (some H.length) true none false false none [(PKey.ks "user", 1)], DraftState.mk false u (some (H.length + 1)) true (some 0) false false none [(PKey.ks "profile", 2)], DraftState.mk false p (some (H.length + 2)) true (some 1) false false none []] false), JVal.vref H.length)
  exact fin0

theorem C4_structural_sharing_witness :
    finalize (runScript (Mach.mk
      [⟨HNode.obj [("age", JVal.vnum 25)], false⟩,
       ⟨HNode.obj [("x", JVal.vnum 7)], false⟩,
       ⟨HNode.obj [("name", JVal.vstr "Alice"), ("profile", JVal.vref 0),
         ("other", JVal.vref 1)], false⟩,
       ⟨HNode.obj [("user", JVal.vref 2)], false⟩]
      [DraftState.mk false 3 none false none false false none []] false) 0
      [Op.oset [PKey.ks "user", PKey.ks "profile"] (PKey.ks "age") (WVal.wnum 26)]) 0 =
    (Mach.mk
      [⟨HNode.obj [("age", JVal.vnum 25)], false⟩,
       ⟨HNode.obj [("x", JVal.vnum 7)], false⟩,
       ⟨HNode.obj [("name", JVal.vstr "Alice"), ("profile", JVal.vref 0),
         ("other", JVal.vref 1)], false⟩,
       ⟨HNode.obj [("user", JVal.vref 2)], false⟩,
       ⟨HNode.obj [("user", JVal.vref 5)], true⟩,
       ⟨HNode.obj [("name", JVal.vstr "Alice"), ("profile", JVal.vref 6),
         ("other", JVal.vref 1)], true⟩,
       ⟨HNode.obj [("age", JVal.vnum 26)], true⟩]
      [DraftState.mk false 3 (some 4) true none false false none [(PKey.ks "user", 1)],
       DraftState.mk false 2 (some 5) true (some 0) false false none [(PKey.ks "profile", 2)],
       DraftState.mk false 0 (some 6) true (some 1) false false none []] false,
     JVal.vref 4) :=
  C4_structural_sharing
    [⟨HNode.obj [("age", JVal.vnum 25)], false⟩,
     ⟨HNode.obj [("x", JVal.vnum 7)], false⟩,
     ⟨HNode.obj [("name", JVal.vstr "Alice"), ("profile", JVal.vref 0),
       ("other", JVal.vref 1)], false⟩,
     ⟨HNode.obj [("user", JVal.vref 2)], false⟩]
    3 2 0 1 false false false 26 rfl rfl rfl (by decide)

end Craft